import Mathlib

/-!
Verification of the S8Interpreter core (src/S8Interpreter.js) against its
natural-language specification.  The development shallowly embeds the guest
value model, the property primitives (`setProperty`, `getProperty`,
`hasProperty`), the host bridge (`nativeToPseudo` / `pseudoToNative`), and the
step machine (`step`, `run`, `unwind`, `throwException`) of the interpreter,
and proves or refutes the frozen claims about them.

Modelling conventions:
* guest numbers are `JSNum`: NaN, the two infinities, or an exact rational
  (every IEEE double is a rational; rounding never matters for the claims);
* guest objects live in an arena (`Arena := List Obj`), `Value.obj r` is a
  handle; property bags are association lists in insertion order;
* JS loops over prototype chains receive explicit fuel; on fuel exhaustion a
  dedicated `spin`/`fault` result marks a state on which the source would not
  terminate (all theorems stay below the fuel);
* host-level (uncatchable) exceptions of the source surface as `fault`,
  guest-level exceptions (via `throwException`) as `gthrow`.
-/

set_option maxRecDepth 4000

namespace S8

/-- JS number: NaN, signed infinity, or a finite value (exact rational model
of an IEEE double). -/
inductive JSNum where
  | nan
  | posInf
  | negInf
  | finite (q : ℚ)
deriving DecidableEq

/-- Truncation toward zero, as used by ES `ToUint32`. -/
def jsTrunc (q : ℚ) : ℤ := if 0 ≤ q then ⌊q⌋ else -⌊-q⌋

/-- ES `ToUint32` on a JS number (the `x >>> 0` coercion). -/
def toUint32 : JSNum → ℕ
  | .finite q => ((jsTrunc q) % (4294967296 : ℤ)).toNat
  | _ => 0

/-- `S8Interpreter.legalArrayLength` restricted to numbers:
`const n = x >>> 0; return (n === Number(x)) ? n : NaN;`.
`some n` models the numeric result, `none` models NaN. -/
def legalArrayLength : JSNum → Option ℕ
  | .finite q =>
      let n := toUint32 (.finite q)
      if (n : ℚ) = q then some n else none
  | _ => none

/-- Accumulating decimal value of a digit list (the standard JS/Lean
string-to-number fold). -/
def valFold (acc : ℕ) (cs : List Char) : ℕ :=
  cs.foldl (fun a c => a * 10 + (c.toNat - 48)) acc

/-- Parse an unsigned run of decimal digits. -/
def parseNat? (s : List Char) : Option ℕ :=
  if s ≠ [] ∧ s.all Char.isDigit then some (valFold 0 s) else none

/-- `S8Interpreter.legalArrayIndex` on a property-name string:
`const n = x >>> 0; return (String(n) === String(x) && n !== 0xffffffff) ? n : NaN;`.
A string passes iff it is the canonical decimal numeral of an integer in
[0, 2^32-2]. -/
def legalArrayIndex (s : String) : Option ℕ :=
  match parseNat? s.toList with
  | some n => if Nat.repr n = s ∧ n < 4294967295 then some n else none
  | none => none

/-- Guest values: `undefined`, `null`, booleans, numbers, strings, and
object handles into the arena. -/
inductive Value where
  | undef
  | null
  | bool (b : Bool)
  | num (x : JSNum)
  | str (s : String)
  | obj (r : ℕ)
deriving DecidableEq

/-- JS truthiness of a guest value. -/
def truthy : Value → Bool
  | .undef => false
  | .null => false
  | .bool b => b
  | .num .nan => false
  | .num (.finite q) => decide (q ≠ 0)
  | .num _ => true
  | .str s => decide (s ≠ "")
  | .obj _ => true

/-- Digits of a natural number (used by the decimal printer). -/
def natDigits (n : ℕ) : String := Nat.repr n

/-- The integer part of `String(x)` printing for an integer. -/
def intToString (i : ℤ) : String :=
  if i < 0 then "-" ++ natDigits i.natAbs else natDigits i.natAbs

/-- Decimal expansion helper: prints `num/den` (0 ≤ num < den) as up to
`fuel` fractional digits, dropping trailing zeros. -/
def fracDigits : ℕ → ℕ → ℕ → String
  | 0, _, _ => ""
  | _ + 1, _, 0 => ""
  | fuel + 1, den, num =>
      let num10 := num * 10
      let d := num10 / den
      let rest := fracDigits fuel den (num10 % den)
      let ds := natDigits d
      if d = 0 ∧ rest = "" then "" else ds ++ rest

/-- `String(x)` for a JS number.  Exact for NaN, the infinities and integers;
for non-integers it prints the (finite) decimal expansion when the
denominator divides a power of ten, which matches the JS output for the
short decimal literals exercised here. -/
def jsNumToString : JSNum → String
  | .nan => "NaN"
  | .posInf => "Infinity"
  | .negInf => "-Infinity"
  | .finite q =>
      if q.den = 1 then intToString q.num
      else
        let sign := if q.num < 0 then "-" else ""
        let n := q.num.natAbs
        sign ++ natDigits (n / q.den) ++ "." ++ fracDigits 30 q.den (n % q.den)

/-- ES `ToNumber` on a string, for the numeric-literal subset the interpreter
exercises: optional sign, decimal digits with an optional fraction,
`Infinity`, and the empty/whitespace string (which converts to 0).
Other shapes (hex, exponents) give NaN in this model. -/
def strToNumber (s : String) : JSNum :=
  let t := s.trim
  if t = "" then .finite 0
  else
    let (sign, body) :=
      match t.toList with
      | '-' :: rest => ((-1 : ℤ), rest)
      | '+' :: rest => ((1 : ℤ), rest)
      | l => ((1 : ℤ), l)
    if body = "Infinity".toList then
      (if sign = -1 then .negInf else .posInf)
    else
      match body.splitOn '.' with
      | [ip] =>
          match parseNat? ip with
          | some n => .finite (sign * n)
          | none => .nan
      | [ip, fp] =>
          match parseNat? ip, parseNat? fp with
          | some n, some f =>
              .finite ((sign : ℚ) * ((n : ℚ) + (f : ℚ) / ((10 : ℚ) ^ fp.length)))
          | _, _ => .nan
      | _ => .nan

/-- ES `ToNumber` on a primitive guest value (objects are handled separately
through their `toString`). -/
def primToNumber : Value → JSNum
  | .undef => .nan
  | .null => .finite 0
  | .bool b => .finite (if b then 1 else 0)
  | .num x => x
  | .str s => strToNumber s
  | .obj _ => .nan

/-- `String(v)` on a primitive guest value. -/
def primToString : Value → String
  | .undef => "undefined"
  | .null => "null"
  | .bool b => if b then "true" else "false"
  | .num x => jsNumToString x
  | .str s => s
  | .obj _ => "[object Object]"

/-! ### Property bags (association lists in insertion order) -/

/-- A data property with its attributes, as stored in `obj.properties`. -/
structure PropEntry where
  value : Value
  writable : Bool := true
  enumerable : Bool := true
  configurable : Bool := true
deriving DecidableEq

/-- First-match association-list lookup. -/
def alookup {α : Type} : List (String × α) → String → Option α
  | [], _ => none
  | (k, v) :: rest, key => if k = key then some v else alookup rest key

/-- Key membership (`name in obj`). -/
def amem {α : Type} (l : List (String × α)) (key : String) : Bool :=
  (alookup l key).isSome

/-- In-place update of the first matching key, else insertion at the end
(the JS property-creation order). -/
def aset {α : Type} : List (String × α) → String → α → List (String × α)
  | [], key, v => [(key, v)]
  | (k, w) :: rest, key, v =>
      if k = key then (k, v) :: rest else (k, w) :: aset rest key v

/-- Deletion of a key. -/
def adel {α : Type} : List (String × α) → String → List (String × α)
  | [], _ => []
  | (k, w) :: rest, key =>
      if k = key then adel rest key else (k, w) :: adel rest key

/-- The callable kinds a guest function object can have in this model:
plain (not callable), host native function, host async function. -/
inductive FnKind where
  | plain
  | nativeFn (id : ℕ)
  | asyncFn (id : ℕ) (arity : ℕ)
deriving DecidableEq

/-- A guest object (`S8Interpreter.Object`). -/
structure Obj where
  proto : Option ℕ
  cls : String := "Object"
  properties : List (String × PropEntry) := []
  getter : List (String × Value) := []
  setter : List (String × Value) := []
  preventExtensions : Bool := false
  dataVal : Option Value := none
  kind : FnKind := .plain
  illegalConstructor : Bool := false
deriving DecidableEq

/-- The object arena; `Value.obj r` indexes into it. -/
abbrev Arena : Type := List Obj

/-- Arena lookup. -/
def aget (a : Arena) (r : ℕ) : Option Obj := List.get? a r

/-- Arena length. -/
def alen (a : Arena) : ℕ := List.length a

/-- Point update of one object. -/
def updObj (a : Arena) (r : ℕ) (f : Obj → Obj) : Arena :=
  match aget a r with
  | some o => List.set a r (f o)
  | none => a

/-- Allocation at the end of the arena, returning the new handle. -/
def allocObj (a : Arena) (o : Obj) : Arena × ℕ :=
  (List.concat a o, alen a)

/-- The distinguished built-in handles the property primitives consult
(`this.STRING`, `this.ARRAY`, `this.ERROR`, ...). -/
structure Ctx where
  OBJECT_PROTO : ℕ
  FUNCTION_PROTO : ℕ
  ARRAY : ℕ
  STRING : ℕ
  NUMBER : ℕ
  BOOLEAN : ℕ
  ERROR : ℕ
  REGEXP : ℕ
  DATE : ℕ
  TYPE_ERROR : ℕ
  RANGE_ERROR : ℕ
  REFERENCE_ERROR : ℕ
  globalObject : ℕ
deriving DecidableEq

/-- The raw `prototype` property of a constructor object, when it is an
object handle. -/
def protoOfCtor (a : Arena) (c : ℕ) : Option ℕ :=
  match (aget a c).bind (fun o => alookup o.properties "prototype") with
  | some e => match e.value with | .obj r => some r | _ => none
  | none => none

/-- The raw `prototype` property of a constructor object, as a value
(`undefined` when absent), for the `child === proto` comparison in `isa`. -/
def protoValOfCtor (a : Arena) (c : ℕ) : Value :=
  match (aget a c).bind (fun o => alookup o.properties "prototype") with
  | none => .undef
  | some e => e.value

/-- `S8Interpreter.prototype.getPrototype`. -/
def getPrototype (ctx : Ctx) (a : Arena) : Value → Option ℕ
  | .num _ => protoOfCtor a ctx.NUMBER
  | .bool _ => protoOfCtor a ctx.BOOLEAN
  | .str _ => protoOfCtor a ctx.STRING
  | .obj r => (aget a r).bind (fun o => o.proto)
  | _ => none

/-- The prototype-chain walk of `isa`, with fuel. -/
def walkIsa (a : Arena) : ℕ → Option ℕ → Value → Bool
  | 0, _, _ => false
  | _ + 1, none, _ => false
  | fuel + 1, some r, pv =>
      (Value.obj r = pv) || walkIsa a fuel ((aget a r).bind (fun o => o.proto)) pv

/-- `S8Interpreter.prototype.isa(child, constructor)`. -/
def isa (ctx : Ctx) (a : Arena) (child : Value) (ctor : ℕ) : Bool :=
  match child with
  | .undef => false
  | .null => false
  | _ =>
      let pv := protoValOfCtor a ctor
      if child = pv then true
      else walkIsa a (alen a + 1) (getPrototype ctx a child) pv

/-! ### String conversion (`S8Interpreter.Object.prototype.toString`) -/

/-- Raw prototype-chain lookup used by the Error branch of `toString`
(`do { if (key in obj.properties) ... } while ((obj = obj.proto))`). -/
def rawProtoLookup (a : Arena) : ℕ → Option ℕ → String → Option Value
  | 0, _, _ => none
  | _ + 1, none, _ => none
  | fuel + 1, some r, key =>
      match aget a r with
      | none => none
      | some o =>
          match alookup o.properties key with
          | some e => some e.value
          | none => rawProtoLookup a fuel o.proto key

/-- How many naturals `i` satisfy `i < x` for a JS number `x`; the iteration
count of `for (i = 0; i < length; i++)`.  (A `+Infinity` length makes the
source loop forever; it is unreachable for arrays and modelled as 0.) -/
def natsBelow : JSNum → ℕ
  | .finite q => if q ≤ 0 then 0 else ⌈q⌉.toNat
  | _ => 0

/-- `String(v)`: primitives directly, objects through the overridden
`S8Interpreter.Object.prototype.toString` (Array join, Error name/message,
internal `data`, `[object Class]`), with the cycle-marker list `cycles`. -/
def jsStringOf (a : Arena) : ℕ → List ℕ → Value → String
  | _, _, .undef => "undefined"
  | _, _, .null => "null"
  | _, _, .bool b => if b then "true" else "false"
  | _, _, .num x => jsNumToString x
  | _, _, .str s => s
  | 0, _, .obj _ => ""
  | fuel + 1, cycles, .obj r =>
      match aget a r with
      | none => "[object Object]"
      | some o =>
          if o.cls = "Array" then
            let lengthV := ((alookup o.properties "length").map
              (fun e => e.value)).getD .undef
            let count := natsBelow (primToNumber lengthV)
            let elems := (List.range count).map (fun i =>
              match alookup o.properties (Nat.repr i) with
              | none => ""
              | some e =>
                  match e.value with
                  | .undef => ""
                  | .null => ""
                  | .obj r2 =>
                      if (r :: cycles).contains r2 then "..."
                      else jsStringOf a fuel (r :: cycles) (.obj r2)
                  | p => primToString p)
            String.intercalate "," elems
          else if o.cls = "Error" then
            if cycles.contains r then "[object Error]"
            else
              let nameV := (rawProtoLookup a (alen a + 1) (some r) "name").getD .undef
              let msgV :=
                (rawProtoLookup a (alen a + 1) (some r) "message").getD .undef
              let nameF := if truthy nameV then
                Value.str (jsStringOf a fuel (r :: cycles) nameV) else nameV
              let msgF := if truthy msgV then
                Value.str (jsStringOf a fuel (r :: cycles) msgV) else msgV
              let show_ := fun (v : Value) => match v with
                | .str s => s
                | p => primToString p
              if truthy msgF then show_ nameF ++ ": " ++ show_ msgF
              else show_ nameF
          else
            match o.dataVal with
            | some d => primToString d
            | none => "[object " ++ o.cls ++ "]"

/-- ES `ToNumber` of a guest value: primitives directly; objects through
`valueOf` (which unwraps a boxed primitive `data`) and otherwise their
`toString`. -/
def toNumberOf (a : Arena) (v : Value) : JSNum :=
  match v with
  | .obj r =>
      match aget a r with
      | none => .nan
      | some o =>
          match o.dataVal with
          | some (.bool b) => primToNumber (.bool b)
          | some (.num x) => x
          | some (.str s) => strToNumber s
          | _ => strToNumber (jsStringOf a (alen a + 10) [] v)
  | p => primToNumber p

/-- JS `m < x` for a natural `m` and a JS number `x` (NaN compares false). -/
def jsLtNum (m : ℕ) : JSNum → Bool
  | .nan => false
  | .posInf => true
  | .negInf => false
  | .finite q => decide ((m : ℚ) < q)

/-- `Math.max(x, n)` for the array length bump. -/
def jsMaxLen (x : JSNum) (n : ℕ) : JSNum :=
  match x with
  | .nan => .nan
  | .posInf => .posInf
  | .negInf => .finite n
  | .finite q => if q ≤ (n : ℚ) then .finite n else .finite q

/-! ### Property descriptors and the bag-level `Object.defineProperty` -/

/-- The `opt_descriptor` argument of `setProperty`: each field is `some` iff
the corresponding key is present on the descriptor object. -/
structure Descriptor where
  configurableP : Option Bool := none
  enumerableP : Option Bool := none
  writableP : Option Bool := none
  valueP : Option Value := none
  getP : Option Value := none
  setP : Option Value := none
deriving DecidableEq

/-- The plain data descriptor handed to the native
`Object.defineProperty(obj.properties, name, descriptor)`. -/
structure BagDesc where
  configurableP : Option Bool := none
  enumerableP : Option Bool := none
  writableP : Option Bool := none
  valueP : Option Value := none
deriving DecidableEq

/-- Overwrite the present descriptor fields onto an existing entry. -/
def applyDesc (cur : PropEntry) (d : BagDesc) : PropEntry :=
  { value := d.valueP.getD cur.value
    writable := d.writableP.getD cur.writable
    enumerable := d.enumerableP.getD cur.enumerable
    configurable := d.configurableP.getD cur.configurable }

/-- Native `Object.defineProperty` on the (always extensible, data-only)
property bag; `none` models the thrown TypeError on an illegal redefinition
of a non-configurable property. -/
def defineOwn (bag : List (String × PropEntry)) (name : String) (d : BagDesc) :
    Option (List (String × PropEntry)) :=
  match alookup bag name with
  | none =>
      some (aset bag name
        { value := d.valueP.getD .undef
          writable := d.writableP.getD false
          enumerable := d.enumerableP.getD false
          configurable := d.configurableP.getD false })
  | some cur =>
      if cur.configurable then some (aset bag name (applyDesc cur d))
      else if d.configurableP = some true then none
      else if (match d.enumerableP with
               | some b => decide (b ≠ cur.enumerable)
               | none => false : Bool) then none
      else if cur.writable then some (aset bag name (applyDesc cur d))
      else if d.writableP = some true then none
      else if (match d.valueP with
               | some v => decide (v ≠ cur.value)
               | none => false : Bool) then none
      else some (aset bag name (applyDesc cur d))

/-- Plain JS assignment `bag[name] = v` in the interpreter's strict-mode
source: update when writable, create (all attributes true) when absent,
`none` models the thrown TypeError on a non-writable entry. -/
def bagAssign (bag : List (String × PropEntry)) (name : String) (v : Value) :
    Option (List (String × PropEntry)) :=
  match alookup bag name with
  | none => some (aset bag name { value := v })
  | some cur =>
      if cur.writable then some (aset bag name { cur with value := v }) else none

/-! ### `S8Interpreter.prototype.setProperty` -/

/-- Outcome of a `setProperty` call.  `ok` returns undefined; `setterOut`
returns an inherited setter to invoke (with `setterStep_` raised);
`gthrow` is a guest exception raised through `throwException`; `fault` is a
host-level exception (programmer error, uncatchable by the guest). -/
inductive SetOut where
  | ok (a : Arena)
  | setterOut (f : Value) (a : Arena)
  | gthrow (cls : ℕ) (msg : String) (a : Arena)
  | fault (msg : String)
deriving DecidableEq

/-- The invalid-descriptor test of lines 2366-2370: both accessor and
value/writable fields supplied. -/
def descBad : Option Descriptor → Bool
  | none => false
  | some d => (d.getP.isSome || d.setP.isSome) && (d.valueP.isSome || d.writableP.isSome)

/-- `while (!(name in defObj.properties)) defObj = getPrototype(defObj)`,
defaulting to the receiver for a new property.  `none` only on a dangling
handle or fuel exhaustion (a prototype cycle, on which the source loops). -/
def findDefObj (ctx : Ctx) (a : Arena) (recv : ℕ) :
    ℕ → ℕ → String → Option ℕ
  | 0, _, _ => none
  | fuel + 1, r, name =>
      match aget a r with
      | none => none
      | some o =>
          if amem o.properties name then some r
          else
            match o.proto with
            | some p => findDefObj ctx a recv fuel p name
            | none => some recv

/-- Intermediate result of the Array-magic stage of `setProperty`. -/
inductive StageRes where
  | exit (out : SetOut)
  | go (a : Arena) (valueP : Option Value)

/-- The delete loop of the length shrink (`for (i in obj.properties)`)
visits only the *enumerable* entries of the bag, and targets a visited
entry when its key is a legal array index at or above the new length. -/
def shrinkTargets (m : ℕ) (kv : String × PropEntry) : Bool :=
  kv.2.enumerable &&
    (match legalArrayIndex kv.1 with
     | some i => decide (m ≤ i)
     | none => false)

/-- The `name === 'length'` part of the Array branch (lines 2394-2413):
validate, then run the delete loop over the lowered range.  The loop is a
`for...in` over the bag, so it skips non-enumerable entries; and the file
runs in strict mode, so `delete` on a targeted non-configurable bag entry
raises a host TypeError (a crash, not a guest throw). -/
def arrayLengthStage (ctx : Ctx) (a : Arena) (r : ℕ) (o : Obj)
    (rawValue : Option Value) : StageRes :=
  let lengthV := ((alookup o.properties "length").map (fun e => e.value)).getD .undef
  let coerced :=
    match rawValue with
    | some v => legalArrayLength (toNumberOf a v)
    | none => none
  match coerced with
  | none => .exit (.gthrow ctx.RANGE_ERROR "Invalid array length" a)
  | some m =>
      if jsLtNum m (toNumberOf a lengthV) then
        if o.properties.any (fun kv => shrinkTargets m kv && ! kv.2.configurable) then
          .exit (.fault "strict delete of a non-configurable bag property")
        else
          .go (updObj a r (fun o => { o with
            properties := o.properties.filter (fun kv => ! shrinkTargets m kv) }))
            (some (.num (.finite m)))
      else .go a (some (.num (.finite m)))

/-- The `obj.class === 'Array'` stage of `setProperty` (lines 2390-2418). -/
def arrayStage (ctx : Ctx) (a : Arena) (r : ℕ) (o : Obj) (name : String)
    (valueP : Option Value) (descP : Option Descriptor) : StageRes :=
  if o.cls = "Array" then
    if name = "length" then
      match descP with
      | some d =>
          match d.valueP with
          | none => .exit (.ok a)
          | some dv =>
              match arrayLengthStage ctx a r o (some dv) with
              | .exit out => .exit out
              | .go a1 _ => .go a1 valueP
      | none => arrayLengthStage ctx a r o valueP
    else
      match legalArrayIndex name with
      | some i =>
          let lengthV :=
            ((alookup o.properties "length").map (fun e => e.value)).getD .undef
          let newLen := jsMaxLen (toNumberOf a lengthV) (i + 1)
          match bagAssign o.properties "length" (.num newLen) with
          | some bag => .go (updObj a r (fun o => { o with properties := bag })) valueP
          | none => .exit (.fault "assignment to read-only length")
      | none => .go a valueP
  else .go a valueP

/-- The descriptor branch of `setProperty` (lines 2426-2467): update the
accessor maps, drop accessors on a value/writable (re)definition, then
define on the bag via the native `defineProperty`. -/
def descStage (ctx : Ctx) (a : Arena) (r : ℕ) (name : String)
    (valueP : Option Value) (d : Descriptor) : SetOut :=
  match aget a r with
  | none => .fault "dangling object handle"
  | some o =>
      let o1 :=
        match d.getP with
        | some g =>
            if truthy g then { o with getter := aset o.getter name g }
            else { o with getter := adel o.getter name }
        | none => o
      let o2 :=
        match d.setP with
        | some s =>
            if truthy s then { o1 with setter := aset o1.setter name s }
            else { o1 with setter := adel o1.setter name }
        | none => o1
      let bagValue :=
        match d.valueP with
        | some v => some v
        | none => valueP
      let dropAccessors := d.writableP.isSome || bagValue.isSome
      let o3 :=
        if dropAccessors then
          { o2 with getter := adel o2.getter name, setter := adel o2.setter name }
        else o2
      let bd : BagDesc :=
        { configurableP := d.configurableP, enumerableP := d.enumerableP
          writableP := d.writableP, valueP := bagValue }
      match defineOwn o3.properties name bd with
      | some bag => .ok (updObj a r (fun _ => { o3 with properties := bag }))
      | none =>
          .gthrow ctx.TYPE_ERROR ("Cannot redefine property: " ++ name)
            (updObj a r (fun _ => o3))

/-- The assignment branch of `setProperty` (lines 2468-2503): find the
prototype-chain owner, defer to its setter, reject getter-only properties,
otherwise assign on the receiver. -/
def assignStage (ctx : Ctx) (a : Arena) (strict : Bool) (r : ℕ) (name : String)
    (valueP : Option Value) : SetOut :=
  match valueP with
  | none => .fault "Value not specified"
  | some v =>
      match findDefObj ctx a r (alen a + 1) r name with
      | none => .fault "prototype chain does not terminate"
      | some dref =>
          match aget a dref with
          | none => .fault "dangling object handle"
          | some dO =>
              match alookup dO.setter name with
              | some f => .setterOut f a
              | none =>
                  match alookup dO.getter name with
                  | some _ =>
                      if strict then
                        .gthrow ctx.TYPE_ERROR
                          ("Cannot set property " ++ name ++
                            " of object which only has a getter") a
                      else .ok a
                  | none =>
                      match aget a r with
                      | none => .fault "dangling object handle"
                      | some o =>
                          match bagAssign o.properties name v with
                          | some bag =>
                              .ok (updObj a r
                                (fun o => { o with properties := bag }))
                          | none =>
                              if strict then
                                .gthrow ctx.TYPE_ERROR
                                  ("Cannot assign to read only property " ++ name) a
                              else .ok a

/-- The tail of `setProperty` after the Array-magic stage: the
`preventExtensions` guard (lines 2419-2425), then the descriptor or the
assignment branch. -/
def postArrayStage (ctx : Ctx) (a1 : Arena) (strict : Bool) (r : ℕ)
    (name : String) (value1 : Option Value) (descP : Option Descriptor) : SetOut :=
  match aget a1 r with
  | none => .fault "dangling object handle"
  | some o1 =>
      if o1.preventExtensions && ! amem o1.properties name then
        if strict then
          .gthrow ctx.TYPE_ERROR
            ("Cannot add property " ++ name ++ ", object is not extensible") a1
        else .ok a1
      else
        match descP with
        | some d => descStage ctx a1 r name value1 d
        | none => assignStage ctx a1 strict r name value1

/-- The boxed-String read-only test of lines 2379-2389. -/
def stringReadonlyHit (ctx : Ctx) (a : Arena) (r : ℕ) (name : String) : Bool :=
  isa ctx a (.obj r) ctx.STRING &&
    (name = "length" ||
      (match legalArrayIndex name with
       | some i => decide (i < (jsStringOf a (alen a + 10) [] (.obj r)).length)
       | none => false : Bool))

/-- `S8Interpreter.prototype.setProperty(obj, name, value, opt_descriptor)`.
`valueP = none` models the `VALUE_IN_DESCRIPTOR` sentinel.  The `strict`
flag is the caller's `getScope().strict`; the `setterStep_` re-entrancy
check lives in the step machine. -/
def setProperty (ctx : Ctx) (a : Arena) (strict : Bool) (objv : Value)
    (name : String) (valueP : Option Value) (descP : Option Descriptor) : SetOut :=
  match objv with
  | .undef => .gthrow ctx.TYPE_ERROR ("Cannot set property " ++ name ++ " of undefined") a
  | .null => .gthrow ctx.TYPE_ERROR ("Cannot set property " ++ name ++ " of null") a
  | _ =>
      if descBad descP then
        .gthrow ctx.TYPE_ERROR "Invalid property descriptor" a
      else
        match objv with
        | .obj r =>
            (match aget a r with
             | none => .fault "dangling object handle"
             | some o =>
                 if stringReadonlyHit ctx a r name then
                   if strict then
                     .gthrow ctx.TYPE_ERROR
                       ("Cannot assign to read only property " ++ name ++ " of String") a
                   else .ok a
                 else
                   match arrayStage ctx a r o name valueP descP with
                   | .exit out => out
                   | .go a1 value1 => postArrayStage ctx a1 strict r name value1 descP)
        | _ =>
            if strict then
              .gthrow ctx.TYPE_ERROR ("Cannot create property " ++ name) a
            else .ok a

theorem setProperty_obj_reduce (ctx : Ctx) (a : Arena) (strict : Bool) (r : ℕ)
    (name : String) (valueP : Option Value) (descP : Option Descriptor) (o : Obj)
    (hget : aget a r = some o)
    (hd : descBad descP = false)
    (hstr : isa ctx a (.obj r) ctx.STRING = false) :
    setProperty ctx a strict (.obj r) name valueP descP =
      match arrayStage ctx a r o name valueP descP with
      | .exit out => out
      | .go a1 value1 => postArrayStage ctx a1 strict r name value1 descP := by
  simp [setProperty, hget, hd, stringReadonlyHit, hstr]

/-! ### `getProperty` and `hasProperty` -/

/-- Outcome of a `getProperty` call; `okGetter` returns the getter function
with `getterStep_` raised. -/
inductive GetOut where
  | ok (v : Value)
  | okGetter (f : Value)
  | gthrow (cls : ℕ) (msg : String)
  | fault (msg : String)
  | spin
deriving DecidableEq

/-- The prototype-chain loop of `getProperty` (lines 2299-2311). -/
def getChainWalk (ctx : Ctx) (a : Arena) : ℕ → Value → String → GetOut
  | 0, _, _ => .spin
  | fuel + 1, cur, name =>
      let next : GetOut :=
        match getPrototype ctx a cur with
        | some p => getChainWalk ctx a fuel (.obj p) name
        | none => .ok .undef
      match cur with
      | .obj r =>
          match aget a r with
          | none => .fault "dangling object handle"
          | some o =>
              if amem o.properties name then
                match alookup o.getter name with
                | some g => .okGetter g
                | none =>
                    .ok (((alookup o.properties name).map (fun e => e.value)).getD .undef)
              else next
      | _ => next

/-- `S8Interpreter.prototype.getProperty(obj, name)` (the `getterStep_`
re-entrancy check lives in the step machine). -/
def getProperty (ctx : Ctx) (a : Arena) (objv : Value) (name : String) : GetOut :=
  match objv with
  | .undef => .gthrow ctx.TYPE_ERROR ("Cannot read property " ++ name ++ " of undefined")
  | .null => .gthrow ctx.TYPE_ERROR ("Cannot read property " ++ name ++ " of null")
  | _ =>
      let chain := getChainWalk ctx a (alen a + 2) objv name
      if name = "length" then
        if isa ctx a objv ctx.STRING then
          .ok (.num (.finite ((jsStringOf a (alen a + 10) [] objv).length : ℚ)))
        else chain
      else if name ≠ "" ∧ (name.get 0).toNat < 0x40 then
        if isa ctx a objv ctx.STRING then
          match legalArrayIndex name with
          | some n =>
              let s := jsStringOf a (alen a + 10) [] objv
              match s.toList.get? n with
              | some c => .ok (.str (String.mk [c]))
              | none => chain
          | none => chain
        else chain
      else chain

/-- Outcome of a `hasProperty` call. -/
inductive HasOut where
  | ok (b : Bool)
  | fault (msg : String)
  | spin
deriving DecidableEq

/-- The prototype-chain loop of `hasProperty`. -/
def hasChainWalk (ctx : Ctx) (a : Arena) : ℕ → Value → String → HasOut
  | 0, _, _ => .spin
  | fuel + 1, cur, name =>
      let next : HasOut :=
        match getPrototype ctx a cur with
        | some p => hasChainWalk ctx a fuel (.obj p) name
        | none => .ok false
      match cur with
      | .obj r =>
          match aget a r with
          | none => .fault "dangling object handle"
          | some o => if amem o.properties name then .ok true else next
      | _ => next

/-- `S8Interpreter.prototype.hasProperty(obj, name)`: host TypeError on a
primitive receiver, otherwise a boolean from the prototype-chain walk. -/
def hasProperty (ctx : Ctx) (a : Arena) (objv : Value) (name : String) : HasOut :=
  match objv with
  | .obj r =>
      if name = "length" && isa ctx a (.obj r) ctx.STRING then .ok true
      else if isa ctx a (.obj r) ctx.STRING &&
          (match legalArrayIndex name with
           | some n => decide (n < (jsStringOf a (alen a + 10) [] (.obj r)).length)
           | none => false : Bool) then .ok true
      else hasChainWalk ctx a (alen a + 2) (.obj r) name
  | _ => .fault "Primitive data type has no properties"

/-! ### Association-list and arena lemmas -/

theorem alookup_aset_self {α : Type} (l : List (String × α)) (k : String) (v : α) :
    alookup (aset l k v) k = some v := by
  induction l with
  | nil => simp [aset, alookup]
  | cons kv rest ih =>
      rcases kv with ⟨k1, v1⟩
      by_cases h : k1 = k
      · simp [aset, h, alookup]
      · simp [aset, h, alookup, ih]

theorem alookup_aset_ne {α : Type} (l : List (String × α)) (k k' : String) (v : α)
    (h : k' ≠ k) : alookup (aset l k v) k' = alookup l k' := by
  have h' : ¬ (k = k') := fun hh => h hh.symm
  induction l with
  | nil => simp [aset, alookup, h']
  | cons kv rest ih =>
      rcases kv with ⟨k1, v1⟩
      by_cases hk : k1 = k
      · subst hk
        simp [aset, alookup, h']
      · simp [aset, hk, alookup, ih]

theorem alookup_adel_self {α : Type} (l : List (String × α)) (k : String) :
    alookup (adel l k) k = none := by
  induction l with
  | nil => simp [adel, alookup]
  | cons kv rest ih =>
      rcases kv with ⟨k1, v1⟩
      by_cases h : k1 = k
      · simp [adel, h, ih]
      · simp [adel, h, alookup, ih]

theorem alookup_adel_ne {α : Type} (l : List (String × α)) (k k' : String)
    (h : k' ≠ k) : alookup (adel l k) k' = alookup l k' := by
  have h' : ¬ (k = k') := fun hh => h hh.symm
  induction l with
  | nil => simp [adel]
  | cons kv rest ih =>
      rcases kv with ⟨k1, v1⟩
      by_cases hk : k1 = k
      · subst hk
        simp [adel, alookup, h', ih]
      · simp [adel, hk, alookup, ih]

theorem alookup_filter_none {α : Type} (l : List (String × α)) (k : String)
    (p : String × α → Bool) (h : ∀ v, p (k, v) = false) :
    alookup (l.filter p) k = none := by
  induction l with
  | nil => simp [alookup]
  | cons kv rest ih =>
      rcases kv with ⟨k1, v1⟩
      by_cases hk : k1 = k
      · subst hk
        simp [List.filter, h v1, ih]
      · cases hp : p (k1, v1) <;> simp [List.filter, hp, alookup, hk, ih]

theorem alookup_filter_keep {α : Type} (l : List (String × α)) (k : String)
    (p : String × α → Bool) (h : ∀ v, p (k, v) = true) :
    alookup (l.filter p) k = alookup l k := by
  induction l with
  | nil => simp [alookup]
  | cons kv rest ih =>
      rcases kv with ⟨k1, v1⟩
      by_cases hk : k1 = k
      · subst hk
        simp [List.filter, h v1, alookup, ih]
      · cases hp : p (k1, v1) <;> simp [List.filter, hp, alookup, hk, ih]

theorem alookup_filter_none_mem {α : Type} (l : List (String × α)) (k : String)
    (p : String × α → Bool) (h : ∀ v, (k, v) ∈ l → p (k, v) = false) :
    alookup (l.filter p) k = none := by
  induction l with
  | nil => simp [alookup]
  | cons kv rest ih =>
      rcases kv with ⟨k1, v1⟩
      have ih2 := ih (fun v hv => h v (List.mem_cons_of_mem _ hv))
      by_cases hk : k1 = k
      · subst hk
        simp [List.filter, h v1 (List.mem_cons_self _ _), ih2]
      · cases hp : p (k1, v1) <;> simp [List.filter, hp, alookup, hk, ih2]

theorem alookup_filter_first {α : Type} (l : List (String × α)) (k : String)
    (p : String × α → Bool) (e : α) (hl : alookup l k = some e)
    (hp : p (k, e) = true) :
    alookup (l.filter p) k = some e := by
  induction l with
  | nil => simp [alookup] at hl
  | cons kv rest ih =>
      rcases kv with ⟨k1, v1⟩
      by_cases hk : k1 = k
      · subst hk
        rw [alookup, if_pos rfl] at hl
        injection hl with hl
        subst hl
        simp [List.filter, hp, alookup]
      · rw [alookup, if_neg hk] at hl
        cases hpv : p (k1, v1) <;> simp [List.filter, hpv, alookup, hk, ih hl]

theorem aget_updObj_self (a : Arena) (r : ℕ) (f : Obj → Obj) (o : Obj)
    (h : aget a r = some o) : aget (updObj a r f) r = some (f o) := by
  have hlt : r < List.length a := (List.get?_eq_some.mp h).1
  unfold updObj
  rw [h]
  exact List.get?_set_eq_of_lt (f o) hlt

theorem aget_updObj_ne (a : Arena) (r r' : ℕ) (f : Obj → Obj) (h : r' ≠ r) :
    aget (updObj a r f) r' = aget a r' := by
  unfold updObj
  cases hg : aget a r with
  | none => rfl
  | some o => exact List.get?_set_ne (f o) a (fun hh => h hh.symm)

theorem alen_updObj (a : Arena) (r : ℕ) (f : Obj → Obj) :
    alen (updObj a r f) = alen a := by
  unfold updObj
  cases hg : aget a r with
  | none => rfl
  | some o => simp [alen, List.length_set]

/-! ### Characterization of the legal-array-length check -/

theorem toUint32_lt (x : JSNum) : toUint32 x < 4294967296 := by
  cases x with
  | finite q =>
      simp only [toUint32]
      have h1 : (0 : ℤ) < 4294967296 := by norm_num
      have := Int.emod_lt_of_pos (jsTrunc q) h1
      omega
  | nan => simp [toUint32]
  | posInf => simp [toUint32]
  | negInf => simp [toUint32]

/-- `legalArrayLength` succeeds exactly on the integers in [0, 2^32 - 1]. -/
theorem legalArrayLength_some_iff (x : JSNum) (n : ℕ) :
    legalArrayLength x = some n ↔ x = .finite (n : ℚ) ∧ n < 4294967296 := by
  constructor
  · intro h
    cases x with
    | finite q =>
        simp only [legalArrayLength] at h
        split at h
        · rename_i hq
          injection h with h
          subst h
          exact ⟨by rw [hq], toUint32_lt _⟩
        · exact absurd h (by simp)
    | nan => exact absurd h (by simp [legalArrayLength])
    | posInf => exact absurd h (by simp [legalArrayLength])
    | negInf => exact absurd h (by simp [legalArrayLength])
  · rintro ⟨rfl, hlt⟩
    have htr : jsTrunc ((n : ℚ)) = (n : ℤ) := by
      simp [jsTrunc, Int.floor_natCast, Nat.cast_nonneg]
    have hmod : ((n : ℤ)) % 4294967296 = (n : ℤ) := by
      apply Int.emod_eq_of_lt
      · exact Int.ofNat_nonneg n
      · exact_mod_cast hlt
    have hu : toUint32 (.finite (n : ℚ)) = n := by
      simp [toUint32, htr, hmod]
    simp [legalArrayLength, hu]

theorem legalArrayLength_none_iff (x : JSNum) :
    legalArrayLength x = none ↔ ¬ ∃ n : ℕ, n < 4294967296 ∧ x = .finite (n : ℚ) := by
  constructor
  · rintro h ⟨n, hn, rfl⟩
    have := (legalArrayLength_some_iff (.finite (n : ℚ)) n).mpr ⟨rfl, hn⟩
    rw [h] at this
    exact Option.noConfusion this
  · intro h
    cases hl : legalArrayLength x with
    | none => rfl
    | some n =>
        obtain ⟨hx, hn⟩ := (legalArrayLength_some_iff x n).mp hl
        exact absurd ⟨n, hn, hx⟩ h

/-- The digit-character list of a natural number (the fuel-free shape of
`Nat.toDigitsCore`). -/
def digitsOf (n : ℕ) : List Char :=
  if h : n < 10 then [Nat.digitChar n]
  else
    have : n / 10 < n := Nat.div_lt_self (by omega) (by omega)
    digitsOf (n / 10) ++ [Nat.digitChar (n % 10)]

theorem toDigitsCore_eq_digitsOf :
    ∀ (fuel n : ℕ) (l : List Char), n < fuel →
      Nat.toDigitsCore 10 fuel n l = digitsOf n ++ l := by
  intro fuel
  induction fuel with
  | zero => intro n l h; omega
  | succ f ih =>
      intro n l h
      by_cases h10 : n < 10
      · have hdiv : n / 10 = 0 := Nat.div_eq_of_lt h10
        have hmod : n % 10 = n := Nat.mod_eq_of_lt h10
        simp [Nat.toDigitsCore, hdiv, hmod, digitsOf, h10]
      · have hdiv0 : n / 10 ≠ 0 := by
          intro hz
          exact h10 (by omega)
        have hlt : n / 10 < f := by
          have : n / 10 < n := Nat.div_lt_self (by omega) (by omega)
          omega
        rw [Nat.toDigitsCore]
        simp only [hdiv0, if_false]
        rw [ih (n / 10) (Nat.digitChar (n % 10) :: l) hlt]
        conv_rhs => rw [digitsOf]
        simp [h10, List.append_assoc]

theorem repr_eq_digitsOf (n : ℕ) :
    (Nat.repr n).toList = digitsOf n := by
  show (Nat.toDigits 10 n).asString.toList = digitsOf n
  rw [Nat.toDigits, toDigitsCore_eq_digitsOf (n + 1) n [] (by omega)]
  simp [List.asString, String.toList]

theorem digitChar_isDigit (d : ℕ) (h : d < 10) :
    (Nat.digitChar d).isDigit = true := by
  interval_cases d <;> decide

theorem digitChar_toNat (d : ℕ) (h : d < 10) :
    (Nat.digitChar d).toNat = 48 + d := by
  interval_cases d <;> decide

theorem digitsOf_all_digit (n : ℕ) : (digitsOf n).all Char.isDigit = true := by
  induction n using digitsOf.induct with
  | case1 n h => simp [digitsOf, h, digitChar_isDigit n h]
  | case2 n h hdec ih =>
      rw [digitsOf, dif_neg h]
      simp only [List.all_eq_true] at ih ⊢
      intro c hc
      rcases List.mem_append.mp hc with hc | hc
      · exact ih c hc
      · rcases List.mem_singleton.mp hc with rfl
        exact digitChar_isDigit (n % 10) (Nat.mod_lt n (by omega))

theorem digitsOf_ne_nil (n : ℕ) : digitsOf n ≠ [] := by
  rw [digitsOf]
  split <;> simp

theorem valFold_append (acc : ℕ) (l1 l2 : List Char) :
    valFold acc (l1 ++ l2) = valFold (valFold acc l1) l2 := by
  simp [valFold, List.foldl_append]

theorem valFold_digitsOf (n : ℕ) :
    ∀ acc, valFold acc (digitsOf n) = acc * 10 ^ (digitsOf n).length + n := by
  induction n using digitsOf.induct with
  | case1 n h =>
      intro acc
      rw [digitsOf, dif_pos h]
      simp [valFold, digitChar_toNat n h]
  | case2 n h hdec ih =>
      intro acc
      rw [digitsOf, dif_neg h]
      rw [valFold_append, ih]
      have hm : n % 10 < 10 := Nat.mod_lt n (by omega)
      simp only [valFold, List.foldl_cons, List.foldl_nil, List.length_append,
        List.length_singleton, digitChar_toNat (n % 10) hm]
      have hpow : 10 ^ ((digitsOf (n / 10)).length + 1) =
          10 ^ (digitsOf (n / 10)).length * 10 := by ring
      rw [hpow]
      have hdm : n / 10 * 10 + n % 10 = n := by omega
      have h48 : 48 + n % 10 - 48 = n % 10 := by omega
      rw [h48]
      ring_nf
      omega

theorem parseNat?_repr (n : ℕ) : parseNat? (Nat.repr n).toList = some n := by
  rw [repr_eq_digitsOf]
  simp [parseNat?, digitsOf_ne_nil n, digitsOf_all_digit n]
  have := valFold_digitsOf n 0
  simpa using this

/-- Canonical numerals below 2^32 - 1 pass `legalArrayIndex`. -/
theorem legalArrayIndex_repr (n : ℕ) (h : n < 4294967295) :
    legalArrayIndex (Nat.repr n) = some n := by
  unfold legalArrayIndex
  rw [parseNat?_repr n]
  simp [h]

/-- `Nat.repr` is injective (via the parse round-trip). -/
theorem natRepr_inj {m n : ℕ} (h : Nat.repr m = Nat.repr n) : m = n := by
  have hm := parseNat?_repr m
  rw [h, parseNat?_repr n] at hm
  exact (Option.some_inj.mp hm).symm

/-! ### A concrete initial arena

A small but structurally faithful snapshot of the global state after
`initGlobal`: the built-in prototypes and constructors the property
primitives consult, the global object, and one host-registered native
function `setVal` (as in the repository's tests). -/

/-- Non-enumerable data property (`NONENUMERABLE_DESCRIPTOR`). -/
def neProp (v : Value) : PropEntry :=
  { value := v, writable := true, enumerable := false, configurable := true }

/-- Read-only property (`READONLY_DESCRIPTOR`). -/
def roProp (v : Value) : PropEntry :=
  { value := v, writable := false, enumerable := true, configurable := true }

/-- Handles of the distinguished built-ins in `baseArena`. -/
def baseCtx : Ctx :=
  { OBJECT_PROTO := 0, FUNCTION_PROTO := 1, ARRAY := 3, STRING := 5
    NUMBER := 7, BOOLEAN := 9, ERROR := 11, REGEXP := 19, DATE := 21
    TYPE_ERROR := 13, RANGE_ERROR := 15, REFERENCE_ERROR := 17
    globalObject := 22 }

/-- The arena after construction:
0 = Object.prototype, 1 = Function.prototype, 2 = Array.prototype,
3 = Array, 4 = String.prototype, 5 = String, 6 = Number.prototype,
7 = Number, 8 = Boolean.prototype, 9 = Boolean, 10 = Error.prototype,
11 = Error, 12 = TypeError.prototype, 13 = TypeError,
14 = RangeError.prototype, 15 = RangeError, 16 = ReferenceError.prototype,
17 = ReferenceError, 18 = RegExp.prototype, 19 = RegExp,
20 = Date.prototype, 21 = Date, 22 = the global object,
23 = the host native function `setVal`. -/
def baseArena : Arena :=
  [ { proto := none, properties := [("constructor", neProp (.obj 24))] },
    { proto := some 0, cls := "Function", kind := .nativeFn 90
      properties := [("length", { value := .num (.finite 0), writable := false
                                  enumerable := false, configurable := true })] },
    { proto := some 0 },
    { proto := some 1, cls := "Function", kind := .nativeFn 91
      properties := [("prototype", neProp (.obj 2))] },
    { proto := some 0 },
    { proto := some 1, cls := "Function", kind := .nativeFn 92
      properties := [("prototype", neProp (.obj 4))] },
    { proto := some 0 },
    { proto := some 1, cls := "Function", kind := .nativeFn 93
      properties := [("prototype", neProp (.obj 6))] },
    { proto := some 0 },
    { proto := some 1, cls := "Function", kind := .nativeFn 94
      properties := [("prototype", neProp (.obj 8))] },
    { proto := some 0, cls := "Error"
      properties := [("name", neProp (.str "Error")), ("message", neProp (.str ""))] },
    { proto := some 1, cls := "Function", kind := .nativeFn 95
      properties := [("prototype", neProp (.obj 10))] },
    { proto := some 10, cls := "Error"
      properties := [("name", neProp (.str "TypeError")), ("message", neProp (.str ""))] },
    { proto := some 1, cls := "Function", kind := .nativeFn 96
      properties := [("prototype", neProp (.obj 12))] },
    { proto := some 10, cls := "Error"
      properties := [("name", neProp (.str "RangeError")), ("message", neProp (.str ""))] },
    { proto := some 1, cls := "Function", kind := .nativeFn 97
      properties := [("prototype", neProp (.obj 14))] },
    { proto := some 10, cls := "Error"
      properties := [("name", neProp (.str "ReferenceError")), ("message", neProp (.str ""))] },
    { proto := some 1, cls := "Function", kind := .nativeFn 98
      properties := [("prototype", neProp (.obj 16))] },
    { proto := some 0 },
    { proto := some 1, cls := "Function", kind := .nativeFn 99
      properties := [("prototype", neProp (.obj 18))] },
    { proto := some 0 },
    { proto := some 1, cls := "Function", kind := .nativeFn 100
      properties := [("prototype", neProp (.obj 20))] },
    { proto := some 0, properties := [("setVal", { value := .obj 23 })] },
    { proto := some 1, cls := "Function", kind := .nativeFn 0
      properties := [("length", { value := .num (.finite 1), writable := false
                                  enumerable := false, configurable := true })] } ]

/-! ### Supporting lemmas for the Array claims -/

theorem legalArrayIndex_not_length {k : String} {i : ℕ}
    (h : legalArrayIndex k = some i) : k ≠ "length" := by
  intro hk
  rw [hk] at h
  have : legalArrayIndex "length" = none := by decide
  rw [this] at h
  exact Option.noConfusion h

theorem toNumberOf_num (a : Arena) (x : JSNum) : toNumberOf a (.num x) = x := rfl

theorem legalArrayLength_natCast (m : ℕ) (h : m < 4294967296) :
    legalArrayLength (.finite (m : ℚ)) = some m :=
  (legalArrayLength_some_iff _ m).mpr ⟨rfl, h⟩

theorem jsMaxLen_natCast (L n : ℕ) :
    jsMaxLen (.finite (L : ℚ)) n = .finite ((max L n : ℕ) : ℚ) := by
  simp only [jsMaxLen]
  by_cases h : L ≤ n
  · have hq : ((L : ℚ)) ≤ (n : ℚ) := by exact_mod_cast h
    simp [hq, Nat.max_eq_right h]
  · have hq : ¬ ((L : ℚ)) ≤ (n : ℚ) := by exact_mod_cast h
    have hnl : n ≤ L := by omega
    simp [hq, Nat.max_eq_left hnl]

/-- The arena carried by a `setProperty` outcome (`fault` aborts the host). -/
def SetOut.carried : SetOut → Option Arena
  | .ok a => some a
  | .setterOut _ a => some a
  | .gthrow _ _ a => some a
  | .fault _ => none

/-- Part 1 of the Array-length behavior: an illegal numeric length throws a
guest RangeError, with the arena untouched. -/
theorem setProp_array_length_illegal (ctx : Ctx) (a : Arena) (strict : Bool)
    (r : ℕ) (o : Obj) (x : JSNum)
    (hget : aget a r = some o)
    (hcls : o.cls = "Array")
    (hstr : isa ctx a (.obj r) ctx.STRING = false)
    (hx : legalArrayLength x = none) :
    setProperty ctx a strict (.obj r) "length" (some (.num x)) none =
      .gthrow ctx.RANGE_ERROR "Invalid array length" a := by
  rw [setProperty_obj_reduce ctx a strict r "length" _ none o hget rfl hstr]
  simp [arrayStage, hcls, arrayLengthStage, toNumberOf_num, hx]

/-- Part 2 of the Array-length behavior: lowering the length runs the
`for...in` delete loop.  When every targeted (enumerable, index `≥ m`)
entry is configurable, the call succeeds: the targeted entries are
deleted, non-enumerable numeric entries survive untouched, and the new
length is stored. -/
theorem setProp_array_length_shrink (ctx : Ctx) (a : Arena) (strict : Bool)
    (r : ℕ) (o : Obj) (m L : ℕ) (le : PropEntry)
    (hget : aget a r = some o)
    (hcls : o.cls = "Array")
    (hstr : isa ctx a (.obj r) ctx.STRING = false)
    (hle : alookup o.properties "length" = some le)
    (hlew : le.writable = true)
    (hlev : le.value = .num (.finite (L : ℚ)))
    (hm : m < 4294967296)
    (hmL : m < L)
    (hset : alookup o.setter "length" = none)
    (hgtr : alookup o.getter "length" = none)
    (hconf : ∀ kv ∈ o.properties, shrinkTargets m kv = true →
      kv.2.configurable = true) :
    ∃ a', setProperty ctx a strict (.obj r) "length"
        (some (.num (.finite (m : ℚ)))) none = .ok a' ∧
      ∃ o', aget a' r = some o' ∧
        (∀ k i, legalArrayIndex k = some i → m ≤ i →
          (∀ e, (k, e) ∈ o.properties → e.enumerable = true) →
          alookup o'.properties k = none) ∧
        (∀ k i e, legalArrayIndex k = some i →
          alookup o.properties k = some e → e.enumerable = false →
          alookup o'.properties k = some e) ∧
        alookup o'.properties "length" =
          some { le with value := .num (.finite (m : ℚ)) } := by
  -- the keep predicate of the delete loop
  set p : String × PropEntry → Bool := fun kv => ! shrinkTargets m kv with hp
  have hkeepLen : ∀ v : PropEntry, p ("length", v) = true := by
    intro v
    have hli : legalArrayIndex "length" = none := by decide
    simp [hp, shrinkTargets, hli]
  have hnobad : o.properties.any
      (fun kv => shrinkTargets m kv && ! kv.2.configurable) = false := by
    rw [Bool.eq_false_iff]
    intro hany
    obtain ⟨kv, hmem, hkv⟩ := List.any_eq_true.mp hany
    rw [Bool.and_eq_true] at hkv
    obtain ⟨h1, h2⟩ := hkv
    rw [hconf kv hmem h1] at h2
    exact absurd h2 (by decide)
  -- the object after the delete loop
  set o1 : Obj := { o with properties := o.properties.filter p } with ho1
  set A1 : Arena := updObj a r (fun o => { o with properties := o.properties.filter p })
    with hA1
  have hlt : jsLtNum m (JSNum.finite (L : ℚ)) = true := by
    simp only [jsLtNum, decide_eq_true_eq]
    exact_mod_cast hmL
  have hstage : arrayStage ctx a r o "length" (some (.num (.finite (m : ℚ)))) none =
      .go A1 (some (.num (.finite (m : ℚ)))) := by
    simp only [arrayStage, arrayLengthStage, hcls, hle, Option.map_some',
      Option.getD_some, toNumberOf_num, legalArrayLength_natCast m hm, hlev, hlt,
      hnobad]
    simp [hp, hA1]
  have hget1 : aget A1 r = some o1 := by
    rw [hA1, ho1]; exact aget_updObj_self a r _ o hget
  have hlen1 : alookup o1.properties "length" = some le := by
    rw [ho1]
    simpa using (alookup_filter_keep o.properties "length" p hkeepLen).trans hle
  have hmem1 : amem o1.properties "length" = true := by
    simp [amem, hlen1]
  have hassign : bagAssign o1.properties "length" (.num (.finite (m : ℚ))) =
      some (aset o1.properties "length" { le with value := .num (.finite (m : ℚ)) }) := by
    simp [bagAssign, hlen1, hlew]
  have hfind : findDefObj ctx A1 r (alen A1 + 1) r "length" = some r := by
    cases h0 : alen A1 + 1 with
    | zero => omega
    | succ f => simp [findDefObj, hget1, hmem1]
  have hset1 : alookup o1.setter "length" = none := by rw [ho1]; simpa using hset
  have hgtr1 : alookup o1.getter "length" = none := by rw [ho1]; simpa using hgtr
  set le2 : PropEntry := { le with value := .num (.finite (m : ℚ)) } with hle2
  have hrun : setProperty ctx a strict (.obj r) "length"
      (some (.num (.finite (m : ℚ)))) none =
      .ok (updObj A1 r (fun oo => { oo with properties := aset o1.properties "length" le2 })) := by
    rw [setProperty_obj_reduce ctx a strict r "length" _ none o hget rfl hstr, hstage]
    simp only [postArrayStage, hget1, hmem1, Bool.not_true, Bool.and_false,
      Bool.false_eq_true, if_false, assignStage, hfind, hset1, hgtr1, hassign]
  refine ⟨_, hrun, { o1 with properties := aset o1.properties "length" le2 },
    aget_updObj_self A1 r _ o1 hget1, ?_, ?_, ?_⟩
  · intro k i hk hmi hallenum
    have hkl : k ≠ "length" := legalArrayIndex_not_length hk
    show alookup (aset o1.properties "length" _) k = none
    rw [alookup_aset_ne _ _ _ _ hkl]
    rw [ho1]
    apply alookup_filter_none_mem
    intro v hv
    simp [hp, shrinkTargets, hk, hmi, hallenum v hv]
  · intro k i e hk hlook henum
    have hkl : k ≠ "length" := legalArrayIndex_not_length hk
    show alookup (aset o1.properties "length" _) k = some e
    rw [alookup_aset_ne _ _ _ _ hkl]
    rw [ho1]
    exact alookup_filter_first _ _ _ _ hlook (by simp [hp, shrinkTargets, henum])
  · exact alookup_aset_self _ _ _

/-- Part 2 of the Array-length behavior, the crash branch: when some
targeted entry of the delete loop is non-configurable, the strict-mode
`delete` raises a host TypeError (uncatchable by the guest). -/
theorem setProp_array_length_shrink_fault (ctx : Ctx) (a : Arena)
    (strict : Bool) (r : ℕ) (o : Obj) (m L : ℕ) (le : PropEntry)
    (hget : aget a r = some o)
    (hcls : o.cls = "Array")
    (hstr : isa ctx a (.obj r) ctx.STRING = false)
    (hle : alookup o.properties "length" = some le)
    (hlev : le.value = .num (.finite (L : ℚ)))
    (hm : m < 4294967296)
    (hmL : m < L)
    (hbad : o.properties.any
      (fun kv => shrinkTargets m kv && ! kv.2.configurable) = true) :
    setProperty ctx a strict (.obj r) "length"
        (some (.num (.finite (m : ℚ)))) none =
      .fault "strict delete of a non-configurable bag property" := by
  have hlt : jsLtNum m (JSNum.finite (L : ℚ)) = true := by
    simp only [jsLtNum, decide_eq_true_eq]
    exact_mod_cast hmL
  rw [setProperty_obj_reduce ctx a strict r "length" _ none o hget rfl hstr]
  simp [arrayStage, arrayLengthStage, hcls, hle, toNumberOf_num,
    legalArrayLength_natCast m hm, hlev, hlt, hbad]

/-- Part 3 of the Array-index behavior: any non-descriptor store at a legal
array-index key first raises the length to `max(length, i + 1)`; whatever
the rest of the call does, the returned arena carries the bumped length. -/
theorem setProp_array_index_bump (ctx : Ctx) (a : Arena) (strict : Bool)
    (r : ℕ) (o : Obj) (name : String) (i L : ℕ) (v : Value) (le : PropEntry)
    (hget : aget a r = some o)
    (hcls : o.cls = "Array")
    (hstr : isa ctx a (.obj r) ctx.STRING = false)
    (hidx : legalArrayIndex name = some i)
    (hle : alookup o.properties "length" = some le)
    (hlew : le.writable = true)
    (hlev : le.value = .num (.finite (L : ℚ))) :
    ∀ a'', (setProperty ctx a strict (.obj r) name (some v) none).carried = some a'' →
      ∃ o'', aget a'' r = some o'' ∧
        alookup o''.properties "length" =
          some { le with value := .num (.finite ((max L (i + 1) : ℕ) : ℚ)) } := by
  have hnl : name ≠ "length" := legalArrayIndex_not_length hidx
  have hln : ¬ ("length" = name) := fun h => hnl h.symm
  set le' : PropEntry :=
    { le with value := .num (.finite ((max L (i + 1) : ℕ) : ℚ)) } with hle'
  set o1 : Obj := { o with properties := aset o.properties "length" le' } with ho1
  set A1 : Arena := updObj a r (fun oo => { oo with properties := aset o.properties "length" le' })
    with hA1
  have hassign : bagAssign o.properties "length" (.num (jsMaxLen (toNumberOf a le.value) (i + 1)))
      = some (aset o.properties "length" le') := by
    rw [hlev, toNumberOf_num, jsMaxLen_natCast]
    simp [bagAssign, hle, hlew, hle']
  have hstage : arrayStage ctx a r o name (some v) none = .go A1 (some v) := by
    simp only [arrayStage, hcls, if_neg hnl, hidx, hle, Option.map_some', Option.getD_some]
    rw [hassign]
    simp [hA1]
  have hget1 : aget A1 r = some o1 := by
    rw [hA1, ho1]; exact aget_updObj_self a r _ o hget
  have hlen1 : alookup o1.properties "length" = some le' := by
    rw [ho1]; simpa using alookup_aset_self o.properties "length" le'
  intro a'' hcarried
  rw [setProperty_obj_reduce ctx a strict r name _ none o hget rfl hstr, hstage] at hcarried
  simp only [postArrayStage, hget1] at hcarried
  by_cases hpe : (o1.preventExtensions && ! amem o1.properties name) = true
  · rw [if_pos hpe] at hcarried
    cases strict <;> simp only [Bool.false_eq_true, if_false, if_true,
        SetOut.carried] at hcarried <;>
      exact ⟨o1, by rw [← Option.some_inj.mp hcarried]; exact hget1, hlen1⟩
  · rw [if_neg hpe] at hcarried
    simp only [assignStage] at hcarried
    cases hfind : findDefObj ctx A1 r (alen A1 + 1) r name with
    | none => rw [hfind] at hcarried; simp [SetOut.carried] at hcarried
    | some dref =>
        rw [hfind] at hcarried
        dsimp only at hcarried
        cases hdo : aget A1 dref with
        | none => rw [hdo] at hcarried; simp [SetOut.carried] at hcarried
        | some dO =>
            rw [hdo] at hcarried
            dsimp only at hcarried
            cases hst : alookup dO.setter name with
            | some f =>
                rw [hst] at hcarried
                dsimp only at hcarried
                simp only [SetOut.carried] at hcarried
                exact ⟨o1, by rw [← Option.some_inj.mp hcarried]; exact hget1, hlen1⟩
            | none =>
                rw [hst] at hcarried
                dsimp only at hcarried
                cases hgt : alookup dO.getter name with
                | some g =>
                    rw [hgt] at hcarried
                    dsimp only at hcarried
                    cases strict <;>
                      simp only [Bool.false_eq_true, if_false, if_true,
                        SetOut.carried] at hcarried <;>
                      exact ⟨o1, by rw [← Option.some_inj.mp hcarried]; exact hget1, hlen1⟩
                | none =>
                    rw [hgt] at hcarried
                    dsimp only at hcarried
                    simp only [hget1] at hcarried
                    cases hba : bagAssign o1.properties name v with
                    | none =>
                        rw [hba] at hcarried
                        dsimp only at hcarried
                        cases strict <;>
                          simp only [Bool.false_eq_true, if_false, if_true,
                            SetOut.carried] at hcarried <;>
                          exact ⟨o1, by rw [← Option.some_inj.mp hcarried]; exact hget1, hlen1⟩
                    | some bag =>
                        rw [hba] at hcarried
                        dsimp only at hcarried
                        simp only [SetOut.carried] at hcarried
                        refine ⟨{ o1 with properties := bag }, ?_, ?_⟩
                        · rw [← Option.some_inj.mp hcarried]
                          exact aget_updObj_self A1 r _ o1 hget1
                        · have hpl : alookup bag "length" = alookup o1.properties "length" := by
                            rcases hba0 : alookup o1.properties name with _ | cur
                            · rw [bagAssign, hba0] at hba
                              dsimp only at hba
                              rw [← Option.some_inj.mp hba]
                              exact alookup_aset_ne _ _ _ _ hln
                            · rw [bagAssign, hba0] at hba
                              dsimp only at hba
                              by_cases hw : cur.writable = true
                              · rw [if_pos hw] at hba
                                rw [← Option.some_inj.mp hba]
                                exact alookup_aset_ne _ _ _ _ hln
                              · simp [hw] at hba
                          rw [hpl, hlen1]

/-- A concrete array `["a", "b", "c"]` appended to the base arena
(handle 24), used to instantiate the Array claims. -/
def testArray : Obj :=
  { proto := some 2, cls := "Array"
    properties :=
      [("length", { value := .num (.finite 3), enumerable := false, configurable := false }),
       ("0", { value := .str "a" }),
       ("1", { value := .str "b" }),
       ("2", { value := .str "c" })] }

/-- Arena with the test array at handle 24. -/
def testArena : Arena := baseArena ++ [testArray]

/-- The array `["a","b"]` after `Object.defineProperty(a, "2", { value:
"c" })`: the bag entry at key `"2"` is non-enumerable and non-configurable
(the native `defineProperty` defaults), and the magic bump has raised
`length` to 3. -/
def c2SurvArray : Obj :=
  { proto := some 2, cls := "Array"
    properties :=
      [("length", { value := .num (.finite 3), enumerable := false, configurable := false }),
       ("0", { value := .str "a" }),
       ("1", { value := .str "b" }),
       ("2", { value := .str "c", writable := false, enumerable := false
               configurable := false })] }

/-- Arena with the sparse-attribute array at handle 24. -/
def c2SurvArena : Arena := baseArena ++ [c2SurvArray]

/-- The same array but with the defined entry made enumerable
(`Object.defineProperty(a, "2", { value: "c", enumerable: true })`),
still non-configurable. -/
def c2BadArray : Obj :=
  { proto := some 2, cls := "Array"
    properties :=
      [("length", { value := .num (.finite 3), enumerable := false, configurable := false }),
       ("0", { value := .str "a" }),
       ("1", { value := .str "b" }),
       ("2", { value := .str "c", writable := false, enumerable := true
               configurable := false })] }

/-- Arena with the enumerable-but-non-configurable entry at handle 24. -/
def c2BadArena : Arena := baseArena ++ [c2BadArray]

/-- Counterexample to C2 as stated: lowering `length` does *not* delete
every numeric key at or above the new length.  On `["a","b"]` extended by
`Object.defineProperty(a, "2", { value: "c" })` — whose bag entry is
non-enumerable — the call `a.length = 1` succeeds and deletes key `"1"`,
but key `"2"`, a legal array index `≥ 1`, survives with its value: the
delete loop is a `for...in` over the bag and never visits non-enumerable
entries. -/
theorem claim_C2_counterexample :
    (match setProperty baseCtx c2SurvArena false (.obj 24) "length"
        (some (.num (.finite (1 : ℚ)))) none with
     | .ok a2 =>
         (match aget a2 24 with
          | some o =>
              (legalArrayIndex "2" == some 2) &&
                !(amem o.properties "1") &&
                (alookup o.properties "2" ==
                  some { value := .str "c", writable := false
                         enumerable := false, configurable := false }) &&
                ((alookup o.properties "length").map (fun e => e.value)
                  == some (.num (.finite 1)))
          | none => false)
     | _ => false) = true := by decide

/-- Claim C2 (amended): on every guest object of class `Array` (that is
not a boxed String), `setProperty` treats `length` magically: (1) a
numeric `length` value that is not an integer in [0, 2^32-1] raises a
guest RangeError and leaves the arena unchanged; (2) setting `length` to
a legal value `m` smaller than the current length runs a `for...in`
delete loop over the bag: every *enumerable* numeric (array-index) key
`≥ m` is deleted and `m` is stored, while numeric keys held by
non-enumerable bag entries (creatable with `Object.defineProperty`)
survive the shrink; if some targeted enumerable entry is
non-configurable, the strict-mode `delete` instead raises a host
TypeError; (3) a non-descriptor store at a numeric key `n < 2^32-1`
updates `length` to `max(current length, n+1)` in whatever arena the
call returns. -/
theorem claim_C2_array_length_magic :
    (∀ (ctx : Ctx) (a : Arena) (strict : Bool) (r : ℕ) (o : Obj) (x : JSNum),
      aget a r = some o → o.cls = "Array" →
      isa ctx a (.obj r) ctx.STRING = false →
      (¬ ∃ n : ℕ, n < 4294967296 ∧ x = .finite (n : ℚ)) →
      setProperty ctx a strict (.obj r) "length" (some (.num x)) none =
        .gthrow ctx.RANGE_ERROR "Invalid array length" a) ∧
    (∀ (ctx : Ctx) (a : Arena) (strict : Bool) (r : ℕ) (o : Obj) (m L : ℕ)
        (le : PropEntry),
      aget a r = some o → o.cls = "Array" →
      isa ctx a (.obj r) ctx.STRING = false →
      alookup o.properties "length" = some le → le.writable = true →
      le.value = .num (.finite (L : ℚ)) → m < 4294967296 → m < L →
      alookup o.setter "length" = none → alookup o.getter "length" = none →
      (∀ kv ∈ o.properties, shrinkTargets m kv = true →
        kv.2.configurable = true) →
      ∃ a', setProperty ctx a strict (.obj r) "length"
          (some (.num (.finite (m : ℚ)))) none = .ok a' ∧
        ∃ o', aget a' r = some o' ∧
          (∀ k i, legalArrayIndex k = some i → m ≤ i →
            (∀ e, (k, e) ∈ o.properties → e.enumerable = true) →
            alookup o'.properties k = none) ∧
          (∀ k i e, legalArrayIndex k = some i →
            alookup o.properties k = some e → e.enumerable = false →
            alookup o'.properties k = some e) ∧
          alookup o'.properties "length" =
            some { le with value := .num (.finite (m : ℚ)) }) ∧
    (∀ (ctx : Ctx) (a : Arena) (strict : Bool) (r : ℕ) (o : Obj) (m L : ℕ)
        (le : PropEntry),
      aget a r = some o → o.cls = "Array" →
      isa ctx a (.obj r) ctx.STRING = false →
      alookup o.properties "length" = some le →
      le.value = .num (.finite (L : ℚ)) → m < 4294967296 → m < L →
      o.properties.any
        (fun kv => shrinkTargets m kv && ! kv.2.configurable) = true →
      setProperty ctx a strict (.obj r) "length"
          (some (.num (.finite (m : ℚ)))) none =
        .fault "strict delete of a non-configurable bag property") ∧
    (∀ (ctx : Ctx) (a : Arena) (strict : Bool) (r : ℕ) (o : Obj) (name : String)
        (i L : ℕ) (v : Value) (le : PropEntry),
      aget a r = some o → o.cls = "Array" →
      isa ctx a (.obj r) ctx.STRING = false →
      legalArrayIndex name = some i →
      alookup o.properties "length" = some le → le.writable = true →
      le.value = .num (.finite (L : ℚ)) →
      ∀ a'', (setProperty ctx a strict (.obj r) name (some v) none).carried = some a'' →
        ∃ o'', aget a'' r = some o'' ∧
          alookup o''.properties "length" =
            some { le with value := .num (.finite ((max L (i + 1) : ℕ) : ℚ)) }) := by
  refine ⟨?_, ?_, ?_, ?_⟩
  · intro ctx a strict r o x hget hcls hstr hx
    exact setProp_array_length_illegal ctx a strict r o x hget hcls hstr
      ((legalArrayLength_none_iff x).mpr hx)
  · intro ctx a strict r o m L le hget hcls hstr hle hlew hlev hm hmL hset hgtr hconf
    exact setProp_array_length_shrink ctx a strict r o m L le hget hcls hstr
      hle hlew hlev hm hmL hset hgtr hconf
  · intro ctx a strict r o m L le hget hcls hstr hle hlev hm hmL hbad
    exact setProp_array_length_shrink_fault ctx a strict r o m L le hget hcls
      hstr hle hlev hm hmL hbad
  · intro ctx a strict r o name i L v le hget hcls hstr hidx hle hlew hlev
    exact setProp_array_index_bump ctx a strict r o name i L v le hget hcls hstr
      hidx hle hlew hlev

/-- Witness for the amended C2: on `["a","b","c"]`, `length = 1.5` throws
RangeError and `length = 1` deletes the (all-enumerable) keys 1 and 2
while storing 1; on the enumerable-but-non-configurable variant the same
shrink crashes with the host TypeError of the strict delete; storing at
key 5 bumps `length` to 6. -/
theorem claim_C2_array_length_magic_witness :
    (setProperty baseCtx testArena false (.obj 24) "length"
        (some (.num (.finite (3 / 2)))) none =
      .gthrow baseCtx.RANGE_ERROR "Invalid array length" testArena) ∧
    (∃ a', setProperty baseCtx testArena false (.obj 24) "length"
        (some (.num (.finite (1 : ℚ)))) none = .ok a' ∧
      ∃ o', aget a' 24 = some o' ∧
        (∀ k i, legalArrayIndex k = some i → 1 ≤ i →
          (∀ e, (k, e) ∈ testArray.properties → e.enumerable = true) →
          alookup o'.properties k = none) ∧
        (∀ k i e, legalArrayIndex k = some i →
          alookup testArray.properties k = some e → e.enumerable = false →
          alookup o'.properties k = some e) ∧
        alookup o'.properties "length" =
          some { value := .num (.finite (1 : ℚ)), enumerable := false
                 configurable := false }) ∧
    (setProperty baseCtx c2BadArena false (.obj 24) "length"
        (some (.num (.finite (1 : ℚ)))) none =
      .fault "strict delete of a non-configurable bag property") ∧
    (∀ a'', (setProperty baseCtx testArena false (.obj 24) "5"
        (some (.str "x")) none).carried = some a'' →
      ∃ o'', aget a'' 24 = some o'' ∧
        alookup o''.properties "length" =
          some { value := .num (.finite ((6 : ℕ) : ℚ)), enumerable := false
                 configurable := false }) := by
  refine ⟨?_, ?_, ?_, ?_⟩
  · exact claim_C2_array_length_magic.1 baseCtx testArena false 24 testArray
      (.finite (3 / 2)) (by decide) (by decide) (by decide)
      (by rintro ⟨n, hn, h⟩
          rw [JSNum.finite.injEq] at h
          have hden : ((3 : ℚ) / 2).den = 2 := by norm_num
          rw [h] at hden
          simp [Rat.den_natCast] at hden)
  · exact claim_C2_array_length_magic.2.1 baseCtx testArena false 24 testArray 1 3
      { value := .num (.finite 3), enumerable := false, configurable := false }
      (by decide) (by decide) (by decide) (by decide) (by decide) (by norm_num)
      (by decide) (by decide) (by decide) (by decide) (by decide)
  · exact claim_C2_array_length_magic.2.2.1 baseCtx c2BadArena false 24 c2BadArray
      1 3
      { value := .num (.finite 3), enumerable := false, configurable := false }
      (by decide) (by decide) (by decide) (by decide) (by norm_num) (by decide)
      (by decide) (by decide)
  · exact claim_C2_array_length_magic.2.2.2 baseCtx testArena false 24 testArray
      "5" 5 3 (.str "x")
      { value := .num (.finite 3), enumerable := false, configurable := false }
      (by decide) (by decide) (by decide) (by decide) (by decide) (by decide)
      (by norm_num)

/-! ### Claim C7: non-extensible receivers -/

/-- A non-extensible empty array at handle 24. -/
def c7Array : Obj :=
  { proto := some 2, cls := "Array", preventExtensions := true
    properties :=
      [("length", { value := .num (.finite 0), enumerable := false, configurable := false })] }

/-- Arena with the non-extensible array. -/
def c7Arena : Arena := baseArena ++ [c7Array]

/-- Counterexample to C7 as stated: on a non-extensible `Array`, a sloppy
store at an absent numeric key is *not* a silent no-op — the magic length
update has already run when the extensibility guard returns, so the call
returns undefined with the array's `length` raised from 0 to 1 (and the key
still absent). -/
theorem claim_C7_counterexample :
    (match setProperty baseCtx c7Arena false (.obj 24) "0"
        (some (.num (.finite 7))) none with
     | .ok a2 =>
         decide (a2 ≠ c7Arena) &&
           (match aget a2 24 with
            | some o =>
                !(amem o.properties "0") &&
                  ((alookup o.properties "length").map (fun e => e.value)
                    == some (.num (.finite 1)))
            | none => false)
     | _ => false) = true := by decide

/-- Claim C7 (amended): on a non-extensible receiver that is not an Array
(arrays first run the magic length update) and not a boxed String, a
`setProperty` call with an absent own key leaves the arena unchanged and
returns undefined in sloppy mode, and throws a guest TypeError in strict
mode; keys already present can still be mutated normally. -/
theorem claim_C7_nonextensible_guard :
    (∀ (ctx : Ctx) (a : Arena) (strict : Bool) (r : ℕ) (o : Obj) (name : String)
        (valueP : Option Value) (descP : Option Descriptor),
      aget a r = some o → isa ctx a (.obj r) ctx.STRING = false →
      o.cls ≠ "Array" → descBad descP = false →
      o.preventExtensions = true → amem o.properties name = false →
      setProperty ctx a strict (.obj r) name valueP descP =
        if strict then
          .gthrow ctx.TYPE_ERROR
            ("Cannot add property " ++ name ++ ", object is not extensible") a
        else .ok a) ∧
    (∀ (ctx : Ctx) (a : Arena) (strict : Bool) (r : ℕ) (o : Obj) (name : String)
        (v : Value) (cur : PropEntry),
      aget a r = some o → isa ctx a (.obj r) ctx.STRING = false →
      o.cls ≠ "Array" → o.preventExtensions = true →
      alookup o.properties name = some cur → cur.writable = true →
      alookup o.setter name = none → alookup o.getter name = none →
      setProperty ctx a strict (.obj r) name (some v) none =
        .ok (updObj a r (fun oo =>
          { oo with properties := aset o.properties name { cur with value := v } }))) := by
  constructor
  · intro ctx a strict r o name valueP descP hget hstr hcls hd hpe habs
    rw [setProperty_obj_reduce ctx a strict r name valueP descP o hget hd hstr]
    have hstage : arrayStage ctx a r o name valueP descP = .go a valueP := by
      simp [arrayStage, hcls]
    rw [hstage]
    simp [postArrayStage, hget, hpe, habs]
  · intro ctx a strict r o name v cur hget hstr hcls hpe hmem hw hset hgtr
    rw [setProperty_obj_reduce ctx a strict r name (some v) none o hget rfl hstr]
    have hstage : arrayStage ctx a r o name (some v) none = .go a (some v) := by
      simp [arrayStage, hcls]
    rw [hstage]
    have hmem' : amem o.properties name = true := by simp [amem, hmem]
    have hfind : findDefObj ctx a r (alen a + 1) r name = some r := by
      cases h0 : alen a + 1 with
      | zero => omega
      | succ f => simp [findDefObj, hget, hmem']
    have hba : bagAssign o.properties name v =
        some (aset o.properties name { cur with value := v }) := by
      simp [bagAssign, hmem, hw]
    simp only [postArrayStage, hget, hmem', Bool.not_true, Bool.and_false,
      Bool.false_eq_true, if_false, assignStage, hfind, hset, hgtr, hba]

/-- Witness for the amended C7 on a concrete non-extensible plain object. -/
def c7Plain : Obj :=
  { proto := some 0, preventExtensions := true
    properties := [("y", { value := .num (.finite 1) })] }

/-- Arena with the non-extensible plain object at handle 24. -/
def c7PlainArena : Arena := baseArena ++ [c7Plain]

theorem claim_C7_nonextensible_guard_witness :
    (setProperty baseCtx c7PlainArena false (.obj 24) "x"
        (some (.num (.finite 7))) none = .ok c7PlainArena) ∧
    (setProperty baseCtx c7PlainArena true (.obj 24) "x"
        (some (.num (.finite 7))) none =
      .gthrow baseCtx.TYPE_ERROR
        "Cannot add property x, object is not extensible" c7PlainArena) ∧
    (setProperty baseCtx c7PlainArena false (.obj 24) "y"
        (some (.num (.finite 9))) none =
      .ok (updObj c7PlainArena 24 (fun oo =>
        { oo with properties := aset c7Plain.properties "y" { value := .num (.finite 9) } }))) := by
  refine ⟨?_, ?_, ?_⟩
  · exact claim_C7_nonextensible_guard.1 baseCtx c7PlainArena false 24 c7Plain "x"
      (some (.num (.finite 7))) none (by decide) (by decide) (by decide) (by decide)
      (by decide) (by decide)
  · exact claim_C7_nonextensible_guard.1 baseCtx c7PlainArena true 24 c7Plain "x"
      (some (.num (.finite 7))) none (by decide) (by decide) (by decide) (by decide)
      (by decide) (by decide)
  · exact claim_C7_nonextensible_guard.2 baseCtx c7PlainArena false 24 c7Plain "y"
      (.num (.finite 9)) { value := .num (.finite 1) } (by decide) (by decide)
      (by decide) (by decide) (by decide) (by decide) (by decide) (by decide)

/-! ### Claim C9: the setter hand-off of the assignment branch -/

/-- A plain object with a getter-only key `x` at handle 24. -/
def c9Obj : Obj :=
  { proto := some 0
    properties := [("x", { value := .undef, enumerable := true })]
    getter := [("x", .obj 23)] }

/-- Arena with the getter-only object. -/
def c9Arena : Arena := baseArena ++ [c9Obj]

/-- Counterexample to C9 as stated: on a getter-only key in sloppy mode the
non-descriptor `setProperty` neither returns a setter nor performs the
assignment, yet it returns undefined successfully — the arena comes back
completely unchanged. -/
theorem claim_C9_counterexample :
    setProperty baseCtx c9Arena false (.obj 24) "x"
        (some (.num (.finite 7))) none = .ok c9Arena ∧
    ((alookup c9Obj.properties "x").map (fun e => e.value)) = some .undef := by
  constructor
  · decide
  · decide

/-- Claim C9 (amended): for a non-descriptor `setProperty` on a non-Array,
non-boxed-String receiver that passes the extensibility guard, with `dref`
the nearest prototype-chain owner of the key (the receiver itself for a new
key): a setter on the owner is returned with no object modified; a
getter-only owner makes strict mode throw TypeError and sloppy mode return
undefined with no assignment; otherwise the assignment runs on the receiver
(silently dropped in sloppy mode when the own entry is non-writable) and
undefined is returned. -/
theorem claim_C9_setter_handoff :
    ∀ (ctx : Ctx) (a : Arena) (strict : Bool) (r : ℕ) (o : Obj) (name : String)
      (v : Value) (dref : ℕ) (dO : Obj),
      aget a r = some o → isa ctx a (.obj r) ctx.STRING = false →
      o.cls ≠ "Array" →
      ¬ (o.preventExtensions = true ∧ amem o.properties name = false) →
      findDefObj ctx a r (alen a + 1) r name = some dref →
      aget a dref = some dO →
      ((∀ f, alookup dO.setter name = some f →
        setProperty ctx a strict (.obj r) name (some v) none = .setterOut f a) ∧
       (alookup dO.setter name = none → ∀ g, alookup dO.getter name = some g →
        setProperty ctx a strict (.obj r) name (some v) none =
          (if strict then
            .gthrow ctx.TYPE_ERROR
              ("Cannot set property " ++ name ++ " of object which only has a getter") a
          else .ok a)) ∧
       (alookup dO.setter name = none → alookup dO.getter name = none →
        setProperty ctx a strict (.obj r) name (some v) none =
          (match bagAssign o.properties name v with
           | some bag => .ok (updObj a r (fun oo => { oo with properties := bag }))
           | none =>
              if strict then
                .gthrow ctx.TYPE_ERROR
                  ("Cannot assign to read only property " ++ name) a
              else .ok a))) := by
  intro ctx a strict r o name v dref dO hget hstr hcls hguard hfind hdo
  have hstage : arrayStage ctx a r o name (some v) none = .go a (some v) := by
    simp [arrayStage, hcls]
  have hguard' : (o.preventExtensions && ! amem o.properties name) = false := by
    cases hpe : o.preventExtensions with
    | false => simp
    | true =>
        cases hm : amem o.properties name with
        | false => exact absurd ⟨hpe, hm⟩ hguard
        | true => simp [hm]
  refine ⟨?_, ?_, ?_⟩
  · intro f hf
    rw [setProperty_obj_reduce ctx a strict r name (some v) none o hget rfl hstr,
      hstage]
    simp only [postArrayStage, hget, hguard', Bool.false_eq_true, if_false,
      assignStage, hfind, hdo, hf]
  · intro hs g hg
    rw [setProperty_obj_reduce ctx a strict r name (some v) none o hget rfl hstr,
      hstage]
    simp only [postArrayStage, hget, hguard', Bool.false_eq_true, if_false,
      assignStage, hfind, hdo, hs, hg]
  · intro hs hg
    rw [setProperty_obj_reduce ctx a strict r name (some v) none o hget rfl hstr,
      hstage]
    simp only [postArrayStage, hget, hguard', Bool.false_eq_true, if_false,
      assignStage, hfind, hdo, hs, hg]

/-- A prototype carrying a setter for `z`, and a child object, at handles
24 (proto) and 25 (child). -/
def c9Proto : Obj :=
  { proto := some 0
    properties := [("z", { value := .undef })]
    setter := [("z", .obj 23)] }

/-- Child of `c9Proto` with no own `z`. -/
def c9Child : Obj := { proto := some 24 }

/-- Arena with the setter prototype and its child. -/
def c9SetterArena : Arena := baseArena ++ [c9Proto, c9Child]

theorem claim_C9_setter_handoff_witness :
    setProperty baseCtx c9SetterArena false (.obj 25) "z"
        (some (.num (.finite 7))) none = .setterOut (.obj 23) c9SetterArena := by
  exact (claim_C9_setter_handoff baseCtx c9SetterArena false 25 c9Child "z"
      (.num (.finite 7)) 24 c9Proto (by decide) (by decide) (by decide)
      (by decide) (by decide) (by decide)).1 (.obj 23) (by decide)

/-! ### Claim C10: `hasProperty` on primitive receivers -/

/-- A finite, valid prototype chain starting at handle `r` (the reachable
arenas only ever build such chains: prototypes are fixed at creation from
already existing objects, so chains are acyclic and all handles valid). -/
inductive PChain (a : Arena) : ℕ → List ℕ → Prop where
  | last (r : ℕ) (o : Obj) : aget a r = some o → o.proto = none → PChain a r [r]
  | cons (r : ℕ) (o : Obj) (p : ℕ) (rest : List ℕ) :
      aget a r = some o → o.proto = some p → PChain a p rest → PChain a r (r :: rest)

theorem hasChainWalk_of_chain (ctx : Ctx) (a : Arena) (name : String) :
    ∀ (r : ℕ) (chain : List ℕ), PChain a r chain →
      ∀ fuel, chain.length ≤ fuel →
      ∃ b, hasChainWalk ctx a fuel (.obj r) name = .ok b := by
  intro r chain hch
  induction hch with
  | last r o hgo hpr =>
      intro fuel hfuel
      cases fuel with
      | zero => simp at hfuel
      | succ f =>
          by_cases hmem : amem o.properties name = true
          · exact ⟨true, by simp [hasChainWalk, hgo, hmem]⟩
          · refine ⟨false, ?_⟩
            simp only [Bool.not_eq_true] at hmem
            simp [hasChainWalk, hgo, hmem, getPrototype, hpr]
  | cons r o p rest hgo hpr hrest ih =>
      intro fuel hfuel
      cases fuel with
      | zero => simp at hfuel
      | succ f =>
          have hlen : rest.length ≤ f := by
            simp at hfuel; omega
          obtain ⟨b, hb⟩ := ih f hlen
          by_cases hmem : amem o.properties name = true
          · exact ⟨true, by simp [hasChainWalk, hgo, hmem]⟩
          · refine ⟨b, ?_⟩
            simp only [Bool.not_eq_true] at hmem
            simp [hasChainWalk, hgo, getPrototype, hpr, hmem, hb]

/-- Claim C10: `hasProperty` throws a host-level TypeError (a programmer
error, not a guest exception, and with no state touched) on every primitive
receiver, while on a guest-object receiver with a terminating prototype
chain it returns a boolean. -/
theorem claim_C10_hasProperty_primitive_panic :
    (∀ (ctx : Ctx) (a : Arena) (name : String),
      hasProperty ctx a .undef name = .fault "Primitive data type has no properties" ∧
      hasProperty ctx a .null name = .fault "Primitive data type has no properties" ∧
      (∀ b, hasProperty ctx a (.bool b) name =
        .fault "Primitive data type has no properties") ∧
      (∀ x, hasProperty ctx a (.num x) name =
        .fault "Primitive data type has no properties") ∧
      (∀ s, hasProperty ctx a (.str s) name =
        .fault "Primitive data type has no properties")) ∧
    (∀ (ctx : Ctx) (a : Arena) (r : ℕ) (name : String) (chain : List ℕ),
      PChain a r chain → chain.length ≤ alen a + 2 →
      ∃ b, hasProperty ctx a (.obj r) name = .ok b) := by
  constructor
  · intro ctx a name
    exact ⟨rfl, rfl, fun b => rfl, fun x => rfl, fun s => rfl⟩
  · intro ctx a r name chain hch hlen
    by_cases h1 : (name = "length" && isa ctx a (.obj r) ctx.STRING) = true
    · exact ⟨true, by simp [hasProperty, h1]⟩
    · by_cases h2 : (isa ctx a (.obj r) ctx.STRING &&
          (match legalArrayIndex name with
           | some n => decide (n < (jsStringOf a (alen a + 10) [] (.obj r)).length)
           | none => false : Bool)) = true
      · refine ⟨true, ?_⟩
        simp only [hasProperty]
        rw [if_neg (by simpa using h1), if_pos h2]
      · obtain ⟨b, hb⟩ := hasChainWalk_of_chain ctx a name r chain hch (alen a + 2) hlen
        refine ⟨b, ?_⟩
        simp only [hasProperty]
        rw [if_neg (by simpa using h1), if_neg (by simpa using h2)]
        exact hb

theorem claim_C10_hasProperty_primitive_panic_witness :
    (hasProperty baseCtx testArena (.str "abc") "x" =
      .fault "Primitive data type has no properties") ∧
    (∃ b, hasProperty baseCtx testArena (.obj 24) "1" = .ok b) := by
  constructor
  · exact ((claim_C10_hasProperty_primitive_panic.1 baseCtx testArena "x").2.2.2.2 "abc")
  · exact claim_C10_hasProperty_primitive_panic.2 baseCtx testArena 24 "1" [24, 2, 0]
      (PChain.cons 24 testArray 2 [2, 0] (by rfl) (by rfl)
        (PChain.cons 2 { proto := some 0 } 0 [0] (by rfl) (by rfl)
          (PChain.last 0 { proto := none, properties := [("constructor", neProp (.obj 24))] }
            (by rfl) (by rfl))))
      (by decide)

/-! ### Claim C6: data vs accessor exclusivity -/

/-- A fresh plain object at handle 24. -/
def c6Plain : Obj := { proto := some 0 }

/-- Arena with the fresh plain object. -/
def c6Arena : Arena := baseArena ++ [c6Plain]

/-- The getter-defining descriptor used in the counterexample. -/
def c6Desc : Descriptor :=
  { configurableP := some true, enumerableP := some true, getP := some (.obj 23) }

/-- The object after `setProperty(o, "x", 5)` followed by
`setProperty(o, "x", VALUE_IN_DESCRIPTOR, {configurable, enumerable, get})`. -/
def c6After : Option Obj :=
  match setProperty baseCtx c6Arena false (.obj 24) "x"
      (some (.num (.finite 5))) none with
  | .ok a1 =>
      match setProperty baseCtx a1 false (.obj 24) "x" none (some c6Desc) with
      | .ok a2 => aget a2 24
      | _ => none
  | _ => none

/-- Counterexample to C6 as stated: after installing a getter over an
existing data property, the key `x` is present in the `properties` map
(still carrying the old data value 5) *and* in the getter map — so
`properties` and `getters/setters` are not mutually exclusive in the
concrete state. -/
theorem claim_C6_counterexample :
    (c6After.map (fun o => amem o.properties "x" && amem o.getter "x")) = some true ∧
    (c6After.map (fun o => (alookup o.properties "x").map (fun e => e.value))) =
      some (some (.num (.finite 5))) := by
  constructor
  · decide
  · decide

theorem descStage_drop (ctx : Ctx) (A1 : Arena) (r : ℕ) (name : String)
    (valueP : Option Value) (d : Descriptor) (o1 : Obj)
    (hget1 : aget A1 r = some o1)
    (hg : d.getP = none) (hs : d.setP = none)
    (hdrop : (d.writableP.isSome ||
      (match d.valueP with
       | some v => some v
       | none => valueP).isSome) = true) :
    ∃ a'', (descStage ctx A1 r name valueP d).carried = some a'' ∧
      ∃ o'', aget a'' r = some o'' ∧
        alookup o''.getter name = none ∧ alookup o''.setter name = none := by
  rcases hdef : defineOwn o1.properties name
      { configurableP := d.configurableP, enumerableP := d.enumerableP
        writableP := d.writableP
        valueP := match d.valueP with
                  | some v => some v
                  | none => valueP } with _ | bag
  · have hds : descStage ctx A1 r name valueP d =
        .gthrow ctx.TYPE_ERROR ("Cannot redefine property: " ++ name)
          (updObj A1 r (fun _ =>
            { o1 with getter := adel o1.getter name, setter := adel o1.setter name })) := by
      simp only [descStage, hget1, hg, hs, hdrop, if_pos, hdef]
    rw [hds]
    refine ⟨_, rfl, _, aget_updObj_self A1 r _ o1 hget1, ?_, ?_⟩
    · exact alookup_adel_self _ _
    · exact alookup_adel_self _ _
  · have hds : descStage ctx A1 r name valueP d =
        .ok (updObj A1 r (fun _ =>
          { o1 with getter := adel o1.getter name, setter := adel o1.setter name
                    properties := bag })) := by
      simp only [descStage, hget1, hg, hs, hdrop, if_pos, hdef]
    rw [hds]
    refine ⟨_, rfl, _, aget_updObj_self A1 r _ o1 hget1, ?_, ?_⟩
    · exact alookup_adel_self _ _
    · exact alookup_adel_self _ _

theorem setProp_desc_drop (ctx : Ctx) (a : Arena) (strict : Bool) (r : ℕ)
    (o : Obj) (name : String) (valueP : Option Value) (d : Descriptor)
    (hget : aget a r = some o)
    (hstr : isa ctx a (.obj r) ctx.STRING = false)
    (hg : d.getP = none) (hs : d.setP = none)
    (hval : d.valueP.isSome = true ∨ d.writableP.isSome = true)
    (hnotlen : ¬ (o.cls = "Array" ∧ name = "length"))
    (harr : o.cls = "Array" →
      ∃ le, alookup o.properties "length" = some le ∧ le.writable = true)
    (hext : o.preventExtensions = true → amem o.properties name = true) :
    ∃ a'', (setProperty ctx a strict (.obj r) name valueP (some d)).carried = some a'' ∧
      ∃ o'', aget a'' r = some o'' ∧
        alookup o''.getter name = none ∧ alookup o''.setter name = none := by
  have hdb : descBad (some d) = false := by simp [descBad, hg, hs]
  obtain ⟨A1, o1, hstage, hget1, hgtr1, hset1, hpe1, hmem1⟩ :
      ∃ A1 o1, arrayStage ctx a r o name valueP (some d) = .go A1 valueP ∧
        aget A1 r = some o1 ∧ o1.getter = o.getter ∧ o1.setter = o.setter ∧
        o1.preventExtensions = o.preventExtensions ∧
        amem o1.properties name = amem o.properties name := by
    by_cases hcls : o.cls = "Array"
    · have hnl : name ≠ "length" := fun h => hnotlen ⟨hcls, h⟩
      obtain ⟨le, hle, hlw⟩ := harr hcls
      cases hidx : legalArrayIndex name with
      | none =>
          refine ⟨a, o, ?_, hget, rfl, rfl, rfl, rfl⟩
          simp [arrayStage, hcls, hnl, hidx]
      | some i =>
          set le2 : PropEntry :=
            { le with value := .num (jsMaxLen (toNumberOf a le.value) (i + 1)) } with hle2
          have hba : bagAssign o.properties "length"
              (.num (jsMaxLen (toNumberOf a le.value) (i + 1))) =
              some (aset o.properties "length" le2) := by
            simp [bagAssign, hle, hlw, hle2]
          refine ⟨updObj a r (fun oo => { oo with properties := aset o.properties "length" le2 }),
            { o with properties := aset o.properties "length" le2 }, ?_, ?_, rfl, rfl, rfl, ?_⟩
          · simp only [arrayStage, hcls, if_pos rfl, if_neg hnl, hidx, hle,
              Option.map_some', Option.getD_some]
            rw [hba]
            simp
          · exact aget_updObj_self a r _ o hget
          · show amem (aset o.properties "length" le2) name = amem o.properties name
            simp [amem, alookup_aset_ne _ _ _ _ hnl]
    · refine ⟨a, o, ?_, hget, rfl, rfl, rfl, rfl⟩
      simp [arrayStage, hcls]
  have hguard : (o1.preventExtensions && ! amem o1.properties name) = false := by
    cases hpe : o1.preventExtensions with
    | false => simp
    | true =>
        have hm : amem o.properties name = true := hext (hpe1.symm.trans hpe)
        simp [hmem1, hm]
  have hdrop : (d.writableP.isSome ||
      (match d.valueP with
       | some v => some v
       | none => valueP).isSome) = true := by
    rcases hval with h | h
    · rcases hv : d.valueP with _ | v
      · rw [hv] at h; simp at h
      · simp [hv]
    · simp [h]
  rw [setProperty_obj_reduce ctx a strict r name valueP (some d) o hget hdb hstr,
    hstage]
  simp only [postArrayStage, hget1, hguard, Bool.false_eq_true, if_false]
  exact descStage_drop ctx A1 r name valueP d o1 hget1 hg hs hdrop

theorem getProp_own_key (ctx : Ctx) (a : Arena) (r : ℕ) (o : Obj) (name : String)
    (hget : aget a r = some o)
    (hstr : isa ctx a (.obj r) ctx.STRING = false)
    (hmem : amem o.properties name = true) :
    getProperty ctx a (.obj r) name =
      match alookup o.getter name with
      | some g => .okGetter g
      | none => .ok (((alookup o.properties name).map (fun e => e.value)).getD .undef) := by
  have hchain : getChainWalk ctx a (alen a + 2) (.obj r) name =
      (match alookup o.getter name with
       | some g => GetOut.okGetter g
       | none =>
           .ok (((alookup o.properties name).map (fun e => e.value)).getD .undef)) := by
    show getChainWalk ctx a (alen a + 1 + 1) (.obj r) name = _
    simp [getChainWalk, hget, hmem]
  by_cases hlen : name = "length"
  · simp only [getProperty, hlen] at hchain ⊢
    simp [hstr, hchain]
  · by_cases hcc : name ≠ "" ∧ (name.get 0).toNat < 0x40
    · simp [getProperty, hlen, hcc, hstr, hchain]
    · simp [getProperty, hlen, hcc, hchain]

/-- Claim C6 (amended): the code stores an accessor key in *both* maps — the
key keeps a (placeholder or stale) entry in `properties` while it sits in
the getter/setter maps (see `claim_C6_counterexample`) — so the exclusivity
is observational, not representational: a read resolves an own key as an
accessor exactly when the getter map holds it, and any `setProperty` call
whose descriptor supplies a `value` or `writable` attribute removes the key
from both the getter and the setter maps. -/
theorem claim_C6_accessor_exclusivity :
    (∀ (ctx : Ctx) (a : Arena) (r : ℕ) (o : Obj) (name : String),
      aget a r = some o → isa ctx a (.obj r) ctx.STRING = false →
      amem o.properties name = true →
      getProperty ctx a (.obj r) name =
        match alookup o.getter name with
        | some g => .okGetter g
        | none =>
            .ok (((alookup o.properties name).map (fun e => e.value)).getD .undef)) ∧
    (∀ (ctx : Ctx) (a : Arena) (strict : Bool) (r : ℕ) (o : Obj) (name : String)
        (valueP : Option Value) (d : Descriptor),
      aget a r = some o → isa ctx a (.obj r) ctx.STRING = false →
      d.getP = none → d.setP = none →
      (d.valueP.isSome = true ∨ d.writableP.isSome = true) →
      ¬ (o.cls = "Array" ∧ name = "length") →
      (o.cls = "Array" →
        ∃ le, alookup o.properties "length" = some le ∧ le.writable = true) →
      (o.preventExtensions = true → amem o.properties name = true) →
      ∃ a'', (setProperty ctx a strict (.obj r) name valueP (some d)).carried = some a'' ∧
        ∃ o'', aget a'' r = some o'' ∧
          alookup o''.getter name = none ∧ alookup o''.setter name = none) := by
  constructor
  · intro ctx a r o name hget hstr hmem
    exact getProp_own_key ctx a r o name hget hstr hmem
  · intro ctx a strict r o name valueP d hget hstr hg hs hval hnotlen harr hext
    exact setProp_desc_drop ctx a strict r o name valueP d hget hstr hg hs hval
      hnotlen harr hext

theorem claim_C6_accessor_exclusivity_witness :
    (getProperty baseCtx c9Arena (.obj 24) "x" = .okGetter (.obj 23)) ∧
    (∃ a'', (setProperty baseCtx c9Arena false (.obj 24) "x"
        (some (.num (.finite 9))) (some { writableP := some true })).carried = some a'' ∧
      ∃ o'', aget a'' 24 = some o'' ∧
        alookup o''.getter "x" = none ∧ alookup o''.setter "x" = none) := by
  constructor
  · have h := claim_C6_accessor_exclusivity.1 baseCtx c9Arena 24 c9Obj "x"
      (by rfl) (by decide) (by decide)
    simpa using h
  · exact claim_C6_accessor_exclusivity.2 baseCtx c9Arena false 24 c9Obj "x"
      (some (.num (.finite 9))) { writableP := some true } (by rfl) (by decide)
      (by decide) (by decide) (Or.inr (by decide)) (by decide)
      (fun h => absurd h (by decide)) (fun h => absurd h (by decide))

/-! ### The step machine

The state-stack interpreter: AST nodes, step frames, the `Interp` record
(`stateStack`, `paused_`, `value`, the getter/setter flags), `unwind`,
`throwException`, the per-node handlers, `step` and `run`.  The AST subset
covers the node types the claims exercise; each node carries the flag
`endP` modelling the presence of the source position `node['end']`, which
the `step` loop uses to keep running through polyfill code. -/

/-- Completion value types (`S8Interpreter.Completion`). -/
inductive Completion where
  | normal
  | brk
  | cont
  | ret
  | thrw
deriving DecidableEq

/-- A captured completion (`state.cv`). -/
structure CV where
  ctype : Completion
  value : Value
  label : Option String
deriving DecidableEq

/-- AST nodes (the subset the claims exercise), each with its `end` flag. -/
inductive Node where
  | program (body : List Node) (endP : Bool)
  | exprStmt (expr : Node) (endP : Bool)
  | blockStmt (body : List Node) (endP : Bool)
  | throwStmt (argument : Node) (endP : Bool)
  | tryStmt (block : Node) (handler : Option Node) (finalizer : Option Node) (endP : Bool)
  | catchClause (param : String) (body : Node) (endP : Bool)
  | literal (v : Value) (endP : Bool)
  | identifier (name : String) (endP : Bool)
  | callExpr (callee : Node) (args : List Node) (endP : Bool)
  | unaryExpr (op : String) (argument : Node) (endP : Bool)

/-- The `end` source position flag of a node. -/
def Node.endFlag : Node → Bool
  | .program _ e => e
  | .exprStmt _ e => e
  | .blockStmt _ e => e
  | .throwStmt _ e => e
  | .tryStmt _ _ _ e => e
  | .catchClause _ _ e => e
  | .literal _ e => e
  | .identifier _ e => e
  | .callExpr _ _ e => e
  | .unaryExpr _ _ e => e

/-- `node['type'] === 'TryStatement'`. -/
def Node.isTry : Node → Bool
  | .tryStmt _ _ _ _ => true
  | _ => false

/-- `node['type'] === 'CallExpression' || node['type'] === 'NewExpression'`
(the model carries calls only). -/
def Node.isCallLike : Node → Bool
  | .callExpr _ _ _ => true
  | _ => false

/-- `node['type'] === 'Program'`. -/
def Node.isProgram : Node → Bool
  | .program _ _ => true
  | _ => false

/-- A reference produced by evaluating an expression in components mode:
`[SCOPE_REFERENCE, name]` or `[obj, propname]`. -/
inductive RefTuple where
  | scopeRef (name : String)
  | propRef (base : Value) (key : String)
deriving DecidableEq

/-- The content of a frame's `value` slot: a plain value or a reference
tuple. -/
inductive SVal where
  | val (v : Value)
  | ref (t : RefTuple)
deriving DecidableEq

/-- A state frame (`S8Interpreter.State` plus its per-node bookkeeping). -/
structure Frame where
  node : Node
  scope : ℕ
  done : Bool := false
  doneX : Bool := false
  value : SVal := .val .undef
  components : Bool := false
  doneCallee : ℕ := 0
  doneArgs : Bool := false
  doneExec : Bool := false
  funcThis : Value := .undef
  funcV : Option Value := none
  argsDone : List Value := []
  nIdx : ℕ := 0
  cv : Option CV := none
  isLoop : Bool := false
  isSwitch : Bool := false
  labels : List String := []
  isConstructor : Bool := false
  directEval : Bool := false
  throwValue : Value := .undef
  doneBlock : Bool := false
  doneHandler : Bool := false
  doneFinalizer : Bool := false

/-- A scope (`S8Interpreter.Scope`); `object` is an arena handle. -/
structure ScopeRec where
  parentScope : Option ℕ
  strict : Bool
  object : ℕ
deriving DecidableEq

/-- The interpreter state.  The stack stores its top at the head.
`hostCalls` logs every invocation of a host (native or async) function;
`pending` counts the outstanding async callbacks the host holds. -/
structure Interp where
  arena : Arena
  scopes : List ScopeRec
  stateStack : List Frame
  globalScope : ℕ := 0
  paused : Bool := false
  value : Value := .undef
  getterStep : Bool := false
  setterStep : Bool := false
  hostCalls : List (ℕ × List Value) := []
  pending : ℕ := 0

/-- The host environment: the behavior of registered native functions
(side effects live in the `hostCalls` log). -/
structure HostEnv where
  nativeImpl : ℕ → List Value → Value

/-- The global object handle (`this.globalObject`). -/
def globalObjRef (st : Interp) : Option ℕ :=
  (List.get? st.scopes st.globalScope).map (fun sc => sc.object)

/-- The scope of the current (top) frame, as in `getScope()`. -/
def currentScope (st : Interp) : Option ScopeRec :=
  match st.stateStack with
  | f :: _ => List.get? st.scopes f.scope
  | [] => none

/-- `getScope().strict` with the source's fallback
(`!this.stateStack || this.getScope().strict`). -/
def currentStrict (st : Interp) : Bool :=
  match currentScope st with
  | some sc => sc.strict
  | none => true

/-! ### Variable resolution (`getValueFromScope`) -/

/-- Result of the scope-chain loop of `getValueFromScope`. -/
inductive ScopeHit where
  | found (v : Value)
  | stopped (atScope : Option ℕ)
  | bad (msg : String)

/-- `while (scope && scope !== this.globalScope) { if (name in
scope.object.properties) return ...; scope = scope.parentScope; }`. -/
def scopeChainFind (st : Interp) : ℕ → Option ℕ → String → ScopeHit
  | 0, _, _ => .bad "scope chain does not terminate"
  | _ + 1, none, _ => .stopped none
  | fuel + 1, some sidx, name =>
      if sidx = st.globalScope then .stopped (some sidx)
      else
        match List.get? st.scopes sidx with
        | none => .bad "dangling scope handle"
        | some sc =>
            match aget st.arena sc.object with
            | none => .bad "dangling scope object"
            | some o =>
                match alookup o.properties name with
                | some e => .found e.value
                | none => scopeChainFind st fuel sc.parentScope name

/-- `S8Interpreter.prototype.getValueFromScope(name)`.  Must be called with
the state stack in the shape the caller sees (the identifier frame already
popped), since the typeof escape inspects the top frame's node. -/
def getValueFromScope (ctx : Ctx) (st : Interp) (name : String) : GetOut :=
  match st.stateStack with
  | [] => .fault "no scope"
  | f :: _ =>
      match scopeChainFind st (st.scopes.length + 1) (some f.scope) name with
      | .found v => .ok v
      | .bad m => .fault m
      | .stopped atScope =>
          let globalPart : Option GetOut :=
            if atScope = some st.globalScope then
              match List.get? st.scopes st.globalScope with
              | none => some (.fault "dangling scope handle")
              | some sc =>
                  match hasProperty ctx st.arena (.obj sc.object) name with
                  | .fault m => some (.fault m)
                  | .spin => some .spin
                  | .ok true => some (getProperty ctx st.arena (.obj sc.object) name)
                  | .ok false => none
            else none
          match globalPart with
          | some out => out
          | none =>
              -- typeof escape, then ReferenceError
              if (match f.node with
                  | .unaryExpr op _ _ => op = "typeof"
                  | _ => false : Bool) then .ok .undef
              else .gthrow ctx.REFERENCE_ERROR (name ++ " is not defined")

/-! ### Unwinding and host-visible errors -/

/-- The constructor the host error is built with
(`errorTable[name] || Error`). -/
def errorTableMap (name : String) : String :=
  if name = "EvalError" ∨ name = "RangeError" ∨ name = "ReferenceError" ∨
      name = "SyntaxError" ∨ name = "TypeError" ∨ name = "URIError" then name
  else "Error"

/-- A host-visible error: either a real error object built from the guest
error's name and message, or the plain string conversion of a non-Error
thrown value. -/
inductive HostErr where
  | err (ctorName : String) (message : String)
  | raw (s : String)
deriving DecidableEq

/-- `Object.prototype.valueOf` (unwraps boxed primitive `data`). -/
def valueOfVal (a : Arena) (v : Value) : Value :=
  match v with
  | .obj r =>
      match aget a r with
      | some o =>
          match o.dataVal with
          | some (.bool b) => .bool b
          | some (.num x) => .num x
          | some (.str s) => .str s
          | _ => v
      | none => v
  | p => p

/-- Lines 2800-2817: build the host error from the unhandled thrown value.
`Except.error` models the host-level crash when `message.valueOf()` is
applied to undefined or null. -/
def hostErrorOf (ctx : Ctx) (a : Arena) (value : Value) : Except String HostErr :=
  if isa ctx a value ctx.ERROR then
    match getProperty ctx a value "name" with
    | .ok nv =>
        (match getProperty ctx a value "message" with
         | .ok mv =>
             (match mv with
              | .undef => .error "valueOf of undefined"
              | .null => .error "valueOf of null"
              | _ =>
                  .ok (.err (errorTableMap (jsStringOf a (alen a + 10) [] nv))
                    (jsStringOf a (alen a + 10) [] (valueOfVal a mv))))
         | .okGetter _ => .error "getterStep_ set during unwind"
         | .gthrow _ _ => .error "throw during unwind"
         | .fault m => .error m
         | .spin => .error "nonterminating prototype chain")
    | .okGetter _ =>
        -- `name` resolved to a getter: `getterStep_` is now set and the
        -- second getProperty (for `message`) throws the host Error
        -- `Getter not supported in that context`.
        .error "Getter not supported in that context"
    | .gthrow _ _ => .error "throw during unwind"
    | .fault m => .error m
    | .spin => .error "nonterminating prototype chain"
  else .ok (.raw (jsStringOf a (alen a + 10) [] value))

/-- Outcome of `unwind`. -/
inductive UnwindRes where
  | stopped (st : Interp)
  | hostThrow (e : HostErr) (st : Interp)
  | fault (msg : String)

/-- The host-error throw after the unwind loop has finished. -/
def unwindHost (ctx : Ctx) (st : Interp) (value : Value) : UnwindRes :=
  match hostErrorOf ctx st.arena value with
  | .ok e => .hostThrow e st
  | .error m => .fault m

/-- The frame-popping loop of `unwind` (lines 2765-2798); the list is the
remaining stack, top first. -/
def unwindLoop (ctx : Ctx) (base : Interp) (ctype : Completion) (value : Value)
    (label : Option String) : List Frame → UnwindRes
  | [] => unwindHost ctx { base with stateStack := [] } value
  | f :: rest =>
      if f.node.isTry then
        .stopped { base with stateStack :=
          { f with cv := some ⟨ctype, value, label⟩ } :: rest }
      else if f.node.isCallLike then
        if ctype = .ret then
          .stopped { base with stateStack := { f with value := .val value } :: rest }
        else if ctype ≠ .thrw then .fault "Unsyntactic break/continue not rejected by Acorn"
        else unwindLoop ctx base ctype value label rest
      else if f.node.isProgram then
        unwindHost ctx
          { base with stateStack := { f with done := true } :: rest } value
      else if ctype = .brk &&
          (match label with
           | some l => f.labels.contains l
           | none => f.isLoop || f.isSwitch) then
        .stopped { base with stateStack := rest }
      else if ctype = .cont &&
          (match label with
           | some l => f.labels.contains l
           | none => f.isLoop) then
        .stopped { base with stateStack := f :: rest }
      else unwindLoop ctx base ctype value label rest

/-- `S8Interpreter.prototype.unwind(type, value, label)`. -/
def unwind (ctx : Ctx) (st : Interp) (ctype : Completion) (value : Value)
    (label : Option String) : UnwindRes :=
  if ctype = .normal then .fault "Should not unwind for NORMAL completions"
  else unwindLoop ctx st ctype value label st.stateStack

/-! ### `throwException` -/

/-- Outcome of `throwException`: the `STEP_ERROR` sentinel (swallowed by
`step`), a host-visible error, or a host-level crash. -/
inductive ThrowRes where
  | stepErr (st : Interp)
  | hostThrow (e : HostErr) (st : Interp)
  | fault (msg : String)

/-- Map an unwind outcome through the `throw STEP_ERROR` at the end of
`throwException`. -/
def throwFromUnwind : UnwindRes → ThrowRes
  | .stopped st => .stepErr st
  | .hostThrow e st => .hostThrow e st
  | .fault m => .fault m

/-- `throwException(value)` (single-argument form). -/
def throwValueForm (ctx : Ctx) (st : Interp) (value : Value) : ThrowRes :=
  throwFromUnwind (unwind ctx st .thrw value none)

/-- `createObjectProto` (with its `isa(obj, ERROR)` class fix-up). -/
def createObjectProto (ctx : Ctx) (a : Arena) (protoRef : Option ℕ) : Arena × ℕ :=
  let (a1, r) := allocObj a { proto := protoRef }
  if isa ctx a1 (.obj r) ctx.ERROR then
    (updObj a1 r (fun o => { o with cls := "Error" }), r)
  else (a1, r)

/-- `throwException(errorClass, message)`: build the guest error object,
set its `message` (non-enumerable), and unwind with it. -/
def throwClassForm (ctx : Ctx) (st : Interp) (errClass : ℕ) (msg : String) :
    ThrowRes :=
  match protoOfCtor st.arena errClass with
  | none => .fault "Non object prototype"
  | some p =>
      let (a1, rErr) := createObjectProto ctx st.arena (some p)
      match setProperty ctx a1 (currentStrict st) (.obj rErr) "message"
          (some (.str msg))
          (some { configurableP := some true, enumerableP := some false
                  writableP := some true }) with
      | .ok a2 =>
          throwFromUnwind (unwind ctx { st with arena := a2 } .thrw (.obj rErr) none)
      | .gthrow _ _ _ => .fault "nested throw while constructing error"
      | .setterOut _ _ => .fault "setter while constructing error"
      | .fault m => .fault m

/-! ### Node handlers and the dispatcher -/

/-- Result of one handler dispatch: continue (with an optional pushed child
frame), a swallowed `STEP_ERROR`, a host-visible thrown error, or a
host-level crash. -/
inductive HRes where
  | normal (st : Interp) (push : Option Frame)
  | stepErr (st : Interp)
  | hostThrow (e : HostErr) (st : Interp)
  | fault (msg : String)

/-- Lift the outcome of `throwException` into a dispatch outcome. -/
def HRes.ofThrow : ThrowRes → HRes
  | .stepErr st => .stepErr st
  | .hostThrow e st => .hostThrow e st
  | .fault m => .fault m

/-- JS unary minus on a number. -/
def jsNeg : JSNum → JSNum
  | .nan => .nan
  | .posInf => .negInf
  | .negInf => .posInf
  | .finite q => .finite (-q)

/-- JS `~` (ToInt32, then bitwise not, i.e. `-x - 1`). -/
def jsBitNot (x : JSNum) : JSNum :=
  let n := toUint32 x
  let i : ℤ := if n < 2147483648 then (n : ℤ) else (n : ℤ) - 4294967296
  .finite ((-i - 1 : ℤ) : ℚ)

/-- `typeof` of a guest value
(`(value && value.class === 'Function') ? 'function' : typeof value`). -/
def typeofVal (a : Arena) (v : Value) : String :=
  match v with
  | .undef => "undefined"
  | .null => "object"
  | .bool _ => "boolean"
  | .num _ => "number"
  | .str _ => "string"
  | .obj r =>
      match aget a r with
      | some o => if o.cls = "Function" then "function" else "object"
      | none => "object"

/-- Write `stack[stack.length - 1].value = v` after a pop; crashes when the
stack underflows (`undefined.value` in the source). -/
def writeParentValue (st : Interp) (rest : List Frame) (v : SVal) : HRes :=
  match rest with
  | parent :: rs =>
      .normal { st with stateStack := { parent with value := v } :: rs } none
  | [] => .fault "no parent frame"

/-- `stepProgram`. -/
def stepProgramM (st : Interp) (f : Frame) (rest : List Frame) : HRes :=
  match f.node with
  | .program body e =>
      (match body with
       | expr :: bodyRest =>
           .normal { st with stateStack :=
             { f with node := .program bodyRest e, done := false } :: rest }
             (some { node := expr, scope := f.scope })
       | [] =>
           .normal { st with stateStack := { f with done := true } :: rest } none)
  | _ => .fault "bad node"

/-- `stepExpressionStatement`. -/
def stepExpressionStatementM (st : Interp) (f : Frame) (rest : List Frame) : HRes :=
  match f.node with
  | .exprStmt expr _ =>
      if ! f.doneX then
        .normal { st with stateStack := { f with doneX := true } :: rest }
          (some { node := expr, scope := f.scope })
      else
        match f.value with
        | .val v => .normal { st with stateStack := rest, value := v } none
        | .ref _ => .fault "reference in value slot"
  | _ => .fault "bad node"

/-- `stepBlockStatement`. -/
def stepBlockStatementM (st : Interp) (f : Frame) (rest : List Frame) : HRes :=
  match f.node with
  | .blockStmt body _ =>
      (match body.get? f.nIdx with
       | some expr =>
           .normal { st with stateStack := { f with nIdx := f.nIdx + 1 } :: rest }
             (some { node := expr, scope := f.scope })
       | none => .normal { st with stateStack := rest } none)
  | _ => .fault "bad node"

/-- `stepThrowStatement`. -/
def stepThrowStatementM (ctx : Ctx) (st : Interp) (f : Frame) (rest : List Frame) :
    HRes :=
  match f.node with
  | .throwStmt arg _ =>
      if ! f.doneX then
        .normal { st with stateStack := { f with doneX := true } :: rest }
          (some { node := arg, scope := f.scope })
      else
        match f.value with
        | .val v => .ofThrow (throwValueForm ctx st v)
        | .ref _ => .fault "reference in value slot"
  | _ => .fault "bad node"

/-- `stepLiteral` (the RegExp-literal branch is outside this model's value
grammar). -/
def stepLiteralM (st : Interp) (f : Frame) (rest : List Frame) : HRes :=
  match f.node with
  | .literal v _ => writeParentValue { st with stateStack := rest } rest (.val v)
  | _ => .fault "bad node"

/-- `stepIdentifier`.  The pop happens before the lookup, so the typeof
escape in `getValueFromScope` sees the parent node.  When the identifier
resolves to a getter on the global object, the source calls
`hasProperty(scope, ...)` on a Scope instance, which raises the host
TypeError `Primitive data type has no properties`. -/
def stepIdentifierM (ctx : Ctx) (st : Interp) (f : Frame) (rest : List Frame) :
    HRes :=
  match f.node with
  | .identifier name _ =>
      let st' : Interp := { st with stateStack := rest }
      if f.components then writeParentValue st' rest (.ref (.scopeRef name))
      else
        match getValueFromScope ctx st' name with
        | .ok v => writeParentValue st' rest (.val v)
        | .okGetter _ => .fault "Primitive data type has no properties"
        | .gthrow cls msg => .ofThrow (throwClassForm ctx st' cls msg)
        | .fault m => .fault m
        | .spin => .fault "nonterminating prototype chain"
  | _ => .fault "bad node"

/-- `stepUnaryExpression`. -/
def stepUnaryExpressionM (ctx : Ctx) (st : Interp) (f : Frame) (rest : List Frame) :
    HRes :=
  match f.node with
  | .unaryExpr op arg _ =>
      if ! f.doneX then
        .normal { st with stateStack := { f with doneX := true } :: rest }
          (some { node := arg, scope := f.scope, components := op = "delete" })
      else
        -- stack.pop() happens before the operator is applied
        let st' : Interp := { st with stateStack := rest }
        let strict := match List.get? st.scopes f.scope with
          | some sc => sc.strict
          | none => false
        if op = "delete" then
          match f.value with
          | .val _ => writeParentValue st' rest (.val (.bool true))
          | .ref (.scopeRef _) =>
              -- `obj = state.scope; delete obj.properties[name]`: a Scope has
              -- no `.properties`, so the native delete throws and is caught.
              if strict then
                .ofThrow (throwClassForm ctx st' ctx.TYPE_ERROR "Cannot delete property")
              else writeParentValue st' rest (.val (.bool false))
          | .ref (.propRef base key) =>
              match base with
              | .obj r =>
                  (match aget st'.arena r with
                   | none => .fault "dangling object handle"
                   | some o =>
                       match alookup o.properties key with
                       | some e =>
                           if e.configurable then
                             writeParentValue
                               { st' with arena := updObj st'.arena r (fun o =>
                                 { o with properties := adel o.properties key }) }
                               rest (.val (.bool true))
                           else if strict then
                             .ofThrow (throwClassForm ctx st' ctx.TYPE_ERROR
                               ("Cannot delete property " ++ key))
                           else writeParentValue st' rest (.val (.bool false))
                       | none =>
                           writeParentValue
                             { st' with arena := updObj st'.arena r (fun o =>
                               { o with properties := adel o.properties key }) }
                             rest (.val (.bool true)))
              | _ =>
                  -- primitive base: `base.properties` is undefined, the
                  -- native delete throws and is caught
                  if strict then
                    .ofThrow (throwClassForm ctx st' ctx.TYPE_ERROR "Cannot delete property")
                  else writeParentValue st' rest (.val (.bool false))
        else
          match f.value with
          | .ref _ => .fault "reference in value slot"
          | .val v =>
              if op = "-" then
                writeParentValue st' rest (.val (.num (jsNeg (toNumberOf st'.arena v))))
              else if op = "+" then
                writeParentValue st' rest (.val (.num (toNumberOf st'.arena v)))
              else if op = "!" then
                writeParentValue st' rest (.val (.bool (! truthy v)))
              else if op = "~" then
                writeParentValue st' rest (.val (.num (jsBitNot (toNumberOf st'.arena v))))
              else if op = "typeof" then
                writeParentValue st' rest (.val (.str (typeofVal st'.arena v)))
              else if op = "void" then
                writeParentValue st' rest (.val .undef)
              else .fault "Unknown unary operator"
  | _ => .fault "bad node"

/-- `stepTryStatement`. -/
def stepTryStatementM (ctx : Ctx) (st : Interp) (f : Frame) (rest : List Frame) :
    HRes :=
  match f.node with
  | .tryStmt block handler finalizer _ =>
      if ! f.doneBlock then
        .normal { st with stateStack := { f with doneBlock := true } :: rest }
          (some { node := block, scope := f.scope })
      else
        match f.cv, handler with
        | some cv, some hnode =>
            if cv.ctype = .thrw ∧ ¬ f.doneHandler then
              .normal { st with stateStack :=
                { f with doneHandler := true, cv := none } :: rest }
                (some { node := hnode, scope := f.scope, throwValue := cv.value })
            else stepTryTail ctx st f rest finalizer
        | _, _ => stepTryTail ctx st f rest finalizer
  | _ => .fault "bad node"
where
  /-- The finalizer and rethrow tail of `stepTryStatement`. -/
  stepTryTail (ctx : Ctx) (st : Interp) (f : Frame) (rest : List Frame)
      (finalizer : Option Node) : HRes :=
    match finalizer with
    | some fin =>
        if ! f.doneFinalizer then
          .normal { st with stateStack := { f with doneFinalizer := true } :: rest }
            (some { node := fin, scope := f.scope })
        else stepTryRethrow ctx st f rest
    | none => stepTryRethrow ctx st f rest
  /-- The pop-and-rethrow tail. -/
  stepTryRethrow (ctx : Ctx) (st : Interp) (f : Frame) (rest : List Frame) : HRes :=
    let st' : Interp := { st with stateStack := rest }
    match f.cv with
    | some cv =>
        (match unwind ctx st' cv.ctype cv.value cv.label with
         | .stopped st'' => .stepErr st''
         | .hostThrow e st'' => .hostThrow e st''
         | .fault m => .fault m)
    | none => .normal st' none

/-- `stepCatchClause`. -/
def stepCatchClauseM (ctx : Ctx) (st : Interp) (f : Frame) (rest : List Frame) :
    HRes :=
  match f.node with
  | .catchClause param body _ =>
      if ! f.doneX then
        -- createSpecialScope + bind the thrown value to the parameter
        let (a1, objRef) := allocObj st.arena { proto := none }
        let strict := match List.get? st.scopes f.scope with
          | some sc => sc.strict
          | none => false
        let newScope : ScopeRec :=
          { parentScope := some f.scope, strict := strict, object := objRef }
        let scopeIdx := st.scopes.length
        match setProperty ctx a1 (currentStrict st) (.obj objRef) param
            (some f.throwValue) none with
        | .ok a2 =>
            .normal { st with
                arena := a2
                scopes := st.scopes ++ [newScope]
                stateStack := { f with doneX := true } :: rest }
              (some { node := body, scope := scopeIdx })
        | _ => .fault "catch scope setup failed"
      else .normal { st with stateStack := rest } none
  | _ => .fault "bad node"

/-- `stepCallExpression` stages after the callee is resolved (argument
collection, `this` determination, execution, and completion). -/
def stepCallArgsExec (H : HostEnv) (ctx : Ctx) (st : Interp) (f : Frame)
    (rest : List Frame) (args : List Node) : HRes :=
  -- `if (!state.doneArgs_)`
  if ! f.doneArgs then
    match (if f.nIdx ≠ 0 then
             match f.value with
             | .val v => some { f with argsDone := f.argsDone ++ [v] }
             | .ref _ => none
           else some f) with
    | none => .fault "reference in value slot"
    | some f1 =>
        match args.get? f1.nIdx with
        | some argNode =>
            .normal { st with stateStack := { f1 with nIdx := f1.nIdx + 1 } :: rest }
              (some { node := argNode, scope := f1.scope })
        | none =>
            -- (NewExpression constructor branch does not arise: this model
            -- carries CallExpression only)
            let f2 :=
              if f1.funcThis = .undef then
                let strict := match List.get? st.scopes f1.scope with
                  | some sc => sc.strict
                  | none => false
                if strict then f1
                else
                  match globalObjRef st with
                  | some g => { f1 with funcThis := .obj g }
                  | none => f1
              else f1
            stepCallExec H ctx st { f2 with doneArgs := true } rest
  else stepCallExec H ctx st f rest
where
  /-- The `doneExec_` stage. -/
  stepCallExec (H : HostEnv) (ctx : Ctx) (st : Interp) (f : Frame)
      (rest : List Frame) : HRes :=
    if ! f.doneExec then
      let f1 := { f with doneExec := true }
      let st1 : Interp := { st with stateStack := f1 :: rest }
      match f1.funcV with
      | some (.obj fr) =>
          (match aget st.arena fr with
           | none => .fault "dangling object handle"
           | some fo =>
               match fo.kind with
               | .nativeFn id =>
                   let retV := H.nativeImpl id f1.argsDone
                   .normal { st1 with
                     stateStack := { f1 with value := .val retV } :: rest
                     hostCalls := st1.hostCalls ++ [(id, f1.argsDone)] } none
               | .asyncFn id arity =>
                   let padded :=
                     (f1.argsDone ++ List.replicate (arity - 1) Value.undef).take (arity - 1)
                   .normal { st1 with
                     paused := true, pending := st1.pending + 1
                     hostCalls := st1.hostCalls ++ [(id, padded)] } none
               | .plain =>
                   .ofThrow (throwClassForm ctx st1 ctx.TYPE_ERROR
                     (fo.cls ++ " is not callable")))
      | some v =>
          .ofThrow (throwClassForm ctx st1 ctx.TYPE_ERROR
            (jsStringOf st.arena (alen st.arena + 10) [] v ++ " is not a function"))
      | none =>
          .ofThrow (throwClassForm ctx st1 ctx.TYPE_ERROR
            "undefined is not a function")
    else
      -- execution complete: pop and write the return value
      let st' : Interp := { st with stateStack := rest }
      match f.value with
      | .val v =>
          -- `typeof state.value !== 'object'` (null and objects are 'object')
          let isObjTypeof : Bool :=
            match v with
            | .null => true
            | .obj _ => true
            | _ => false
          if f.isConstructor && ! isObjTypeof then
            writeParentValue st' rest (.val f.funcThis)
          else writeParentValue st' rest (.val v)
      | .ref _ => .fault "reference in value slot"

/-- `stepCallExpression`. -/
def stepCallExpressionM (H : HostEnv) (ctx : Ctx) (st : Interp) (f : Frame)
    (rest : List Frame) : HRes :=
  match f.node with
  | .callExpr callee args _ =>
      if f.doneCallee = 0 then
        .normal { st with stateStack := { f with doneCallee := 1 } :: rest }
          (some { node := callee, scope := f.scope, components := true })
      else if f.doneCallee = 1 then
        -- resolve the callee value
        match f.value with
        | .ref t =>
            let fBase : Frame :=
              { f with doneCallee := 2
                       directEval := t = .scopeRef "eval"
                       funcThis := match t with
                                   | .propRef base _ => base
                                   | .scopeRef _ => f.funcThis }
            let lookOut : GetOut :=
              match t with
              | .scopeRef name => getValueFromScope ctx st name
              | .propRef base key => getProperty ctx st.arena base key
            (match lookOut with
             | .ok v =>
                 stepCallArgsExec H ctx
                   { st with stateStack :=
                     { fBase with funcV := some v, argsDone := [], nIdx := 0 } :: rest }
                   { fBase with funcV := some v, argsDone := [], nIdx := 0 } rest args
             | .okGetter g =>
                 -- call the getter: push a synthetic CallExpression frame
                 let funcThisG : Value :=
                   match t with
                   | .propRef base _ => base
                   -- the SCOPE_REFERENCE marker stands in for the scope object
                   | .scopeRef _ => .undef
                 let fG : Frame := { fBase with doneCallee := 1, funcV := some g }
                 .normal { st with stateStack := fG :: rest }
                   (some { node := .callExpr (.literal .undef false) [] false
                           scope := f.scope, doneCallee := 2, funcThis := funcThisG
                           funcV := some g, doneArgs := true, argsDone := [] })
             | .gthrow cls msg => .ofThrow (throwClassForm ctx st cls msg)
             | .fault m => .fault m
             | .spin => .fault "nonterminating prototype chain")
        | .val v =>
            stepCallArgsExec H ctx
              { st with stateStack :=
                { f with doneCallee := 2, funcV := some v, argsDone := [], nIdx := 0 } :: rest }
              { f with doneCallee := 2, funcV := some v, argsDone := [], nIdx := 0 } rest args
      else stepCallArgsExec H ctx st f rest args
  | _ => .fault "bad node"

/-- The dispatcher (`this.stepFunctions_[type](stack, state, node)`). -/
def dispatch (H : HostEnv) (ctx : Ctx) (st : Interp) : HRes :=
  match st.stateStack with
  | [] => .fault "empty stack"
  | f :: rest =>
      match f.node with
      | .program _ _ => stepProgramM st f rest
      | .exprStmt _ _ => stepExpressionStatementM st f rest
      | .blockStmt _ _ => stepBlockStatementM st f rest
      | .throwStmt _ _ => stepThrowStatementM ctx st f rest
      | .tryStmt _ _ _ _ => stepTryStatementM ctx st f rest
      | .catchClause _ _ _ => stepCatchClauseM ctx st f rest
      | .literal _ _ => stepLiteralM st f rest
      | .identifier _ _ => stepIdentifierM ctx st f rest
      | .callExpr _ _ _ => stepCallExpressionM H ctx st f rest
      | .unaryExpr _ _ _ => stepUnaryExpressionM ctx st f rest

/-! ### `step` and `run` -/

/-- Whether the top frame is a done Program
(`type === 'Program' && state.done`). -/
def topProgramDone (st : Interp) : Bool :=
  match st.stateStack with
  | f :: _ => f.node.isProgram && f.done
  | [] => false

/-- Outcome of a `step()` call. -/
inductive StepRes where
  | ret (b : Bool) (st : Interp)
  | hostThrow (e : HostErr) (st : Interp)
  | fault (msg : String)
  | fuelOut (st : Interp)

/-- The do-while loop of `step()`: dispatch, push the returned child frame,
check the leftover getter/setter flags, and keep looping while the
dispatched node has no source position (polyfill code). -/
def stepLoop (H : HostEnv) (ctx : Ctx) : ℕ → Interp → StepRes
  | 0, st => .fuelOut st
  | fuel + 1, st =>
      match st.stateStack with
      | [] => .ret false st
      | f :: _ =>
          if f.node.isProgram && f.done then .ret false st
          else if st.paused then .ret true st
          else
            let after : Interp → StepRes := fun st' =>
              if st'.getterStep then .fault "Getter not supported in this context"
              else if st'.setterStep then .fault "Setter not supported in this context"
              else if f.node.endFlag then .ret true st'
              else stepLoop H ctx fuel st'
            match dispatch H ctx st with
            | .fault m => .fault m
            | .hostThrow e st' => .hostThrow e st'
            | .stepErr st' => after st'
            | .normal st' push =>
                after (match push with
                       | some fr => { st' with stateStack := fr :: st'.stateStack }
                       | none => st')

/-- Outcome of a `run()` call. -/
inductive RunRes where
  | ret (b : Bool) (st : Interp)
  | hostThrow (e : HostErr) (st : Interp)
  | fault (msg : String)
  | fuelOut (st : Interp)

/-- `run()`: `while (!this.paused_ && this.step()) {} return this.paused_;`. -/
def runLoop (H : HostEnv) (ctx : Ctx) : ℕ → ℕ → Interp → RunRes
  | 0, _, st => .fuelOut st
  | fuel + 1, sf, st =>
      if st.paused then .ret st.paused st
      else
        match stepLoop H ctx sf st with
        | .ret true st' => runLoop H ctx fuel sf st'
        | .ret false st' => .ret st'.paused st'
        | .hostThrow e st' => .hostThrow e st'
        | .fault m => .fault m
        | .fuelOut st' => .fuelOut st'

/-! ### Concrete machine states -/

/-- The global scope backed by the base arena's global object (handle 22). -/
def baseScopes : List ScopeRec := [{ parentScope := none, strict := false, object := 22 }]

/-- A fresh interpreter over the base arena, queued on a user program
(a snapshot of the state right after construction). -/
def baseInterp (prog : Node) : Interp :=
  { arena := baseArena, scopes := baseScopes, globalScope := 0
    stateStack := [{ node := prog, scope := 0, done := false }] }

/-- A host environment whose native functions all return undefined. -/
def noHost : HostEnv := ⟨fun _ _ => .undef⟩

/-- The guest program `throw "horrible err"; setVal(2);`. -/
def pThrow : Node :=
  .program
    [ .throwStmt (.literal (.str "horrible err") true) true,
      .exprStmt (.callExpr (.identifier "setVal" true)
        [.literal (.num (.finite 2)) true] true) true ] true

/-- The guest program `setVal(2);`. -/
def pCall : Node :=
  .program
    [ .exprStmt (.callExpr (.identifier "setVal" true)
        [.literal (.num (.finite 2)) true] true) true ] true

/-- The guest program `typeof foo;` with `foo` unbound. -/
def pTypeof : Node :=
  .program
    [ .exprStmt (.unaryExpr "typeof" (.identifier "foo" true) true) true ] true

/-- The guest program `42;`. -/
def pLit : Node :=
  .program [ .exprStmt (.literal (.num (.finite 42)) true) true ] true

/-- The guest program `foo;` with `foo` unbound. -/
def pIdent : Node :=
  .program [ .exprStmt (.identifier "foo" true) true ] true

/-! ### C1: unhandled throws reach the host -/

/-- A Program node is neither a Try nor a call-like node. -/
theorem isProgram_excludes (n : Node) (h : n.isProgram = true) :
    n.isTry = false ∧ n.isCallLike = false := by
  cases n <;> simp_all [Node.isProgram, Node.isTry, Node.isCallLike]

/-- A Throw completion passes every non-Try, non-Program frame, reaches the
root Program frame, marks it done, and hands the thrown value to the
host-error conversion. -/
theorem unwindLoop_no_handler (ctx : Ctx) (base : Interp) (value : Value)
    (fs : List Frame) (proot : Frame)
    (hfs : ∀ f ∈ fs, f.node.isTry = false ∧ f.node.isProgram = false)
    (hroot : proot.node.isProgram = true) :
    unwindLoop ctx base .thrw value none (fs ++ [proot]) =
      unwindHost ctx { base with stateStack := [{ proot with done := true }] }
        value := by
  induction fs with
  | nil =>
      obtain ⟨ht, hc⟩ := isProgram_excludes _ hroot
      simp [unwindLoop, ht, hc, hroot]
  | cons f rest ih =>
      obtain ⟨ht, hp⟩ := hfs f (List.mem_cons_self f rest)
      have ih' := ih (fun g hg => hfs g (List.mem_cons_of_mem f hg))
      by_cases hc : f.node.isCallLike = true
      · simpa [unwindLoop, ht, hc, hp] using ih'
      · simp only [Bool.not_eq_true] at hc
        simpa [unwindLoop, ht, hc, hp] using ih'

theorem jsStringOf_str (a : Arena) (fuel : ℕ) (cycles : List ℕ) (s : String) :
    jsStringOf a fuel cycles (.str s) = s := by
  cases fuel <;> rfl

/-- **C1.** A Throw completion that unwinds past every frame without meeting
a TryStatement frame marks the root Program frame done and raises a
host-visible error; a thrown guest Error object is converted to a host error
carrying the guest error's name (through the constructor table) and message,
and a thrown non-Error value is converted to its string form.  Concretely,
`throw "horrible err"; setVal(2);` ends with the host error string
`horrible err`, no host call recorded, and the done Program frame as the
whole stack. -/
theorem claim_C1_unhandled_throw :
    (∀ (ctx : Ctx) (st : Interp) (value : Value) (fs : List Frame)
        (proot : Frame),
        st.stateStack = fs ++ [proot] →
        (∀ f ∈ fs, f.node.isTry = false ∧ f.node.isProgram = false) →
        proot.node.isProgram = true →
        unwind ctx st .thrw value none =
          unwindHost ctx { st with stateStack := [{ proot with done := true }] }
            value) ∧
    (∀ (ctx : Ctx) (a : Arena) (value : Value) (n m : String),
        isa ctx a value ctx.ERROR = true →
        getProperty ctx a value "name" = .ok (.str n) →
        getProperty ctx a value "message" = .ok (.str m) →
        hostErrorOf ctx a value = .ok (.err (errorTableMap n) m)) ∧
    (∀ (ctx : Ctx) (a : Arena) (s : String),
        isa ctx a (.str s) ctx.ERROR = false →
        hostErrorOf ctx a (.str s) = .ok (.raw s)) ∧
    ((match runLoop noHost baseCtx 50 50 (baseInterp pThrow) with
      | .hostThrow e st =>
          some (e, st.hostCalls, topProgramDone st, st.stateStack.length)
      | _ => none)
      = some (.raw "horrible err", [], true, 1)) := by
  refine ⟨?_, ?_, ?_, by decide⟩
  · intro ctx st value fs proot hstack hfs hroot
    unfold unwind
    rw [if_neg (by decide : ¬ (Completion.thrw = Completion.normal)), hstack]
    exact unwindLoop_no_handler ctx st value fs proot hfs hroot
  · intro ctx a value n m hisa hname hmsg
    simp [hostErrorOf, hisa, hname, hmsg, jsStringOf_str, valueOfVal]
  · intro ctx a s hisa
    simp [hostErrorOf, hisa, jsStringOf_str]

/-- A call frame sitting above the root Program frame. -/
def c1Frames : List Frame :=
  [{ node := .exprStmt (.literal .undef true) true, scope := 0 }]

/-- The root Program frame of the C1 witness state. -/
def c1Root : Frame := { node := .program [] true, scope := 0 }

/-- A machine state whose stack is an expression frame over the root
Program frame. -/
def c1St : Interp :=
  { arena := baseArena, scopes := baseScopes, globalScope := 0
    stateStack := c1Frames ++ [c1Root] }

/-- A guest TypeError instance carrying the message `oops`. -/
def c1ErrObj : Obj :=
  { proto := some 12, cls := "Error"
    properties := [("message", neProp (.str "oops"))] }

def c1ErrArena : Arena := baseArena ++ [c1ErrObj]

theorem claim_C1_unhandled_throw_witness :
    unwind baseCtx c1St .thrw (.str "boom") none =
      unwindHost baseCtx { c1St with stateStack := [{ c1Root with done := true }] }
        (.str "boom") ∧
    hostErrorOf baseCtx c1ErrArena (.obj 24) =
      .ok (.err (errorTableMap "TypeError") "oops") ∧
    hostErrorOf baseCtx baseArena (.str "boom") = .ok (.raw "boom") := by
  obtain ⟨hA, hB, hC, _⟩ := claim_C1_unhandled_throw
  refine ⟨hA baseCtx c1St (.str "boom") c1Frames c1Root rfl ?_ rfl,
          hB baseCtx c1ErrArena (.obj 24) "TypeError" "oops"
            (by decide) (by decide) (by decide),
          hC baseCtx baseArena "boom" (by decide)⟩
  intro f hf
  simp only [c1Frames, List.mem_singleton] at hf
  subst hf
  exact ⟨rfl, rfl⟩

/-! ### C3: no step advances a paused interpreter -/

/-- **C3.** With the state stack nonempty and the root Program not yet done,
a paused interpreter's `step()` returns true without any dispatch and with
the state unchanged; an empty stack or a done root Program returns false
with the state unchanged; and in every paused state `step()` returns some
boolean with the state (in particular the state stack) untouched. -/
theorem claim_C3_paused_step (H : HostEnv) (ctx : Ctx) (fuel : ℕ) (st : Interp) :
    (st.paused = true → ∃ b, stepLoop H ctx (fuel + 1) st = .ret b st) ∧
    (st.paused = true → st.stateStack ≠ [] → topProgramDone st = false →
        stepLoop H ctx (fuel + 1) st = .ret true st) ∧
    (st.stateStack = [] → stepLoop H ctx (fuel + 1) st = .ret false st) ∧
    (topProgramDone st = true → stepLoop H ctx (fuel + 1) st = .ret false st) := by
  refine ⟨?_, ?_, ?_, ?_⟩
  · intro hp
    cases hs : st.stateStack with
    | nil => exact ⟨false, by simp [stepLoop, hs]⟩
    | cons f tl =>
        by_cases hd : (f.node.isProgram && f.done) = true
        · exact ⟨false, by simp [stepLoop, hs, hd]⟩
        · exact ⟨true, by simp [stepLoop, hs, hd, hp]⟩
  · intro hp hne hnd
    cases hs : st.stateStack with
    | nil => exact absurd hs hne
    | cons f tl =>
        have hd : (f.node.isProgram && f.done) = false := by
          have := hnd
          simpa [topProgramDone, hs] using this
        simp [stepLoop, hs, hd, hp]
  · intro hs
    simp [stepLoop, hs]
  · intro hd
    cases hs : st.stateStack with
    | nil => simp [stepLoop, hs]
    | cons f tl =>
        have hd' : (f.node.isProgram && f.done) = true := by
          simpa [topProgramDone, hs] using hd
        simp [stepLoop, hs, hd']

/-- A paused interpreter over a queued (not yet done) program. -/
def c3St : Interp := { baseInterp pLit with paused := true }

theorem claim_C3_paused_step_witness :
    stepLoop noHost baseCtx 1 c3St = .ret true c3St := by
  exact (claim_C3_paused_step noHost baseCtx 0 c3St).2.1 rfl
    (by simp [c3St, baseInterp]) rfl

/-! ### C5: unresolved identifiers and the typeof escape -/

/-- **C5.** When the scope-chain walk stops at the global scope without a
binding and the global object does not have the property either,
`getValueFromScope` yields undefined when the caller's top node is a typeof
unary expression and throws a guest ReferenceError otherwise.  Concretely,
`typeof foo;` completes with the value `"undefined"`, while the bare
statement `foo;` ends in the host-visible guest ReferenceError
`foo is not defined`. -/
theorem claim_C5_unresolved_identifier :
    (∀ (ctx : Ctx) (st : Interp) (name : String) (f : Frame)
        (rest : List Frame) (sc : ScopeRec),
        st.stateStack = f :: rest →
        scopeChainFind st (st.scopes.length + 1) (some f.scope) name =
          .stopped (some st.globalScope) →
        List.get? st.scopes st.globalScope = some sc →
        hasProperty ctx st.arena (.obj sc.object) name = .ok false →
        getValueFromScope ctx st name =
          (if (match f.node with
               | .unaryExpr op _ _ => op = "typeof"
               | _ => false : Bool) then .ok .undef
           else .gthrow ctx.REFERENCE_ERROR (name ++ " is not defined"))) ∧
    ((match runLoop noHost baseCtx 50 50 (baseInterp pTypeof) with
      | .ret b st => some (b, st.value)
      | _ => none) = some (false, .str "undefined")) ∧
    ((match runLoop noHost baseCtx 50 50 (baseInterp pIdent) with
      | .hostThrow e st => some (e, st.hostCalls)
      | _ => none) = some (.err "ReferenceError" "foo is not defined", [])) := by
  refine ⟨?_, by decide, by decide⟩
  intro ctx st name f rest sc hstack hchain hsc hhas
  unfold getValueFromScope
  rw [hstack]
  simp only [hchain, hsc, hhas]
  simp

/-- A machine state whose only frame is the typeof expression the popped
identifier frame reported to. -/
def c5St : Interp :=
  { arena := baseArena, scopes := baseScopes, globalScope := 0
    stateStack :=
      [{ node := .unaryExpr "typeof" (.identifier "foo" true) true, scope := 0 }] }

theorem claim_C5_unresolved_identifier_witness :
    getValueFromScope baseCtx c5St "foo" = .ok .undef := by
  have h := claim_C5_unresolved_identifier.1 baseCtx c5St "foo"
    { node := .unaryExpr "typeof" (.identifier "foo" true) true, scope := 0 } []
    { parentScope := none, strict := false, object := 22 }
    rfl rfl rfl (by decide)
  rw [h]
  decide

/-! ### C8: `run()` returns `paused_`; pending suspensions

The only dispatch outcome that raises `paused_` is the async-function call,
which also increments the pending-suspension count; every other outcome
leaves both fields unchanged.  The lemmas below carry that invariant
through `unwind`, the handlers, `step()` and `run()`. -/

/-- A paused interpreter has at least one pending async suspension. -/
def PausedInv (st : Interp) : Prop := st.paused = true → 1 ≤ st.pending

/-- `PausedInv` on every interpreter state inside a dispatch outcome. -/
def HResInv : HRes → Prop
  | .normal st _ => PausedInv st
  | .stepErr st => PausedInv st
  | .hostThrow _ st => PausedInv st
  | .fault _ => True

/-- The state in an unwind outcome keeps the base state's `paused_` and
pending count. -/
def UnwindPP (base : Interp) : UnwindRes → Prop
  | .stopped st => st.paused = base.paused ∧ st.pending = base.pending
  | .hostThrow _ st => st.paused = base.paused ∧ st.pending = base.pending
  | .fault _ => True

/-- The state in a `throwException` outcome keeps the base state's
`paused_` and pending count. -/
def ThrowPP (base : Interp) : ThrowRes → Prop
  | .stepErr st => st.paused = base.paused ∧ st.pending = base.pending
  | .hostThrow _ st => st.paused = base.paused ∧ st.pending = base.pending
  | .fault _ => True

theorem PausedInv_of_pp {st s : Interp} (hst : PausedInv st)
    (hp : s.paused = st.paused) (hn : s.pending = st.pending) : PausedInv s := by
  intro h
  rw [hn]
  apply hst
  rw [← hp]
  exact h

theorem unwindHost_pp (ctx : Ctx) (st base : Interp) (value : Value)
    (h : st.paused = base.paused ∧ st.pending = base.pending) :
    UnwindPP base (unwindHost ctx st value) := by
  unfold unwindHost
  split
  · exact h
  · trivial

theorem unwindLoop_pp (ctx : Ctx) (base : Interp) (ctype : Completion)
    (value : Value) (label : Option String) (stk : List Frame) :
    UnwindPP base (unwindLoop ctx base ctype value label stk) := by
  induction stk with
  | nil => exact unwindHost_pp ctx _ base value ⟨rfl, rfl⟩
  | cons f rest ih =>
      unfold unwindLoop
      repeat' split
      all_goals first
        | exact ⟨rfl, rfl⟩
        | exact ih
        | exact unwindHost_pp ctx _ base value ⟨rfl, rfl⟩
        | trivial

theorem unwind_pp (ctx : Ctx) (st : Interp) (c : Completion) (v : Value)
    (l : Option String) : UnwindPP st (unwind ctx st c v l) := by
  unfold unwind
  split
  · trivial
  · exact unwindLoop_pp ctx st c v l st.stateStack

theorem throwFromUnwind_pp {base : Interp} {u : UnwindRes}
    (h : UnwindPP base u) : ThrowPP base (throwFromUnwind u) := by
  cases u with
  | stopped st => exact h
  | hostThrow e st => exact h
  | fault m => trivial

theorem ThrowPP_of_base {st st' : Interp} {t : ThrowRes}
    (hp : st'.paused = st.paused) (hn : st'.pending = st.pending) :
    ThrowPP st' t → ThrowPP st t := by
  cases t with
  | stepErr s => exact fun h => ⟨h.1.trans hp, h.2.trans hn⟩
  | hostThrow e s => exact fun h => ⟨h.1.trans hp, h.2.trans hn⟩
  | fault m => exact fun _ => trivial

theorem throwValueForm_pp (ctx : Ctx) (st : Interp) (value : Value) :
    ThrowPP st (throwValueForm ctx st value) :=
  throwFromUnwind_pp (unwind_pp ctx st .thrw value none)

theorem throwClassForm_pp (ctx : Ctx) (st : Interp) (errClass : ℕ)
    (msg : String) : ThrowPP st (throwClassForm ctx st errClass msg) := by
  unfold throwClassForm
  repeat' split
  all_goals first
    | trivial
    | exact ThrowPP_of_base rfl rfl
        (throwFromUnwind_pp (unwind_pp _ _ .thrw _ none))

theorem HResInv_ofThrow {st : Interp} {t : ThrowRes} (hst : PausedInv st)
    (h : ThrowPP st t) : HResInv (HRes.ofThrow t) := by
  cases t with
  | stepErr s => exact PausedInv_of_pp hst h.1 h.2
  | hostThrow e s => exact PausedInv_of_pp hst h.1 h.2
  | fault m => trivial

theorem writeParentValue_inv {st : Interp} (hst : PausedInv st)
    (rest : List Frame) (v : SVal) : HResInv (writeParentValue st rest v) := by
  unfold writeParentValue
  split
  · exact PausedInv_of_pp hst rfl rfl
  · trivial

theorem HResInv_normal {st : Interp} (hst : PausedInv st) (s : Interp)
    (push : Option Frame) (hp : s.paused = st.paused)
    (hn : s.pending = st.pending) : HResInv (HRes.normal s push) :=
  PausedInv_of_pp hst hp hn

theorem HResInv_writeParent {st : Interp} (hst : PausedInv st) (s : Interp)
    (rest : List Frame) (v : SVal) (hp : s.paused = st.paused)
    (hn : s.pending = st.pending) : HResInv (writeParentValue s rest v) :=
  writeParentValue_inv (PausedInv_of_pp hst hp hn) rest v

theorem HResInv_throwClass {st : Interp} (hst : PausedInv st) (ctx : Ctx)
    (s : Interp) (errClass : ℕ) (msg : String)
    (hp : s.paused = st.paused) (hn : s.pending = st.pending) :
    HResInv (HRes.ofThrow (throwClassForm ctx s errClass msg)) :=
  HResInv_ofThrow (PausedInv_of_pp hst hp hn)
    (throwClassForm_pp ctx s errClass msg)

theorem HResInv_throwValue {st : Interp} (hst : PausedInv st) (ctx : Ctx)
    (s : Interp) (v : Value) (hp : s.paused = st.paused)
    (hn : s.pending = st.pending) :
    HResInv (HRes.ofThrow (throwValueForm ctx s v)) :=
  HResInv_ofThrow (PausedInv_of_pp hst hp hn) (throwValueForm_pp ctx s v)

theorem stepProgramM_inv {st : Interp} (hst : PausedInv st)
    (f : Frame) (rest : List Frame) : HResInv (stepProgramM st f rest) := by
  unfold stepProgramM
  repeat' split
  all_goals first
    | exact HResInv_normal hst _ _ rfl rfl
    | trivial

theorem stepExpressionStatementM_inv {st : Interp} (hst : PausedInv st)
    (f : Frame) (rest : List Frame) :
    HResInv (stepExpressionStatementM st f rest) := by
  unfold stepExpressionStatementM
  repeat' split
  all_goals first
    | exact HResInv_normal hst _ _ rfl rfl
    | trivial

theorem stepBlockStatementM_inv {st : Interp} (hst : PausedInv st)
    (f : Frame) (rest : List Frame) : HResInv (stepBlockStatementM st f rest) := by
  unfold stepBlockStatementM
  repeat' split
  all_goals first
    | exact HResInv_normal hst _ _ rfl rfl
    | trivial

theorem stepThrowStatementM_inv {ctx : Ctx} {st : Interp} (hst : PausedInv st)
    (f : Frame) (rest : List Frame) :
    HResInv (stepThrowStatementM ctx st f rest) := by
  unfold stepThrowStatementM
  repeat' split
  all_goals first
    | exact HResInv_normal hst _ _ rfl rfl
    | exact HResInv_throwValue hst _ _ _ rfl rfl
    | trivial

theorem stepLiteralM_inv {st : Interp} (hst : PausedInv st)
    (f : Frame) (rest : List Frame) : HResInv (stepLiteralM st f rest) := by
  unfold stepLiteralM
  repeat' split
  all_goals first
    | exact HResInv_writeParent hst _ _ _ rfl rfl
    | trivial

theorem stepIdentifierM_inv {ctx : Ctx} {st : Interp} (hst : PausedInv st)
    (f : Frame) (rest : List Frame) : HResInv (stepIdentifierM ctx st f rest) := by
  unfold stepIdentifierM
  try dsimp only
  repeat' split
  all_goals first
    | exact HResInv_writeParent hst _ _ _ rfl rfl
    | exact HResInv_throwClass hst _ _ _ _ rfl rfl
    | trivial

theorem stepUnaryExpressionM_inv {ctx : Ctx} {st : Interp} (hst : PausedInv st)
    (f : Frame) (rest : List Frame) :
    HResInv (stepUnaryExpressionM ctx st f rest) := by
  unfold stepUnaryExpressionM
  try dsimp only
  repeat' split
  all_goals first
    | exact HResInv_normal hst _ _ rfl rfl
    | exact HResInv_writeParent hst _ _ _ rfl rfl
    | exact HResInv_throwClass hst _ _ _ _ rfl rfl
    | trivial

theorem stepTryStatementM_inv {ctx : Ctx} {st : Interp} (hst : PausedInv st)
    (f : Frame) (rest : List Frame) :
    HResInv (stepTryStatementM ctx st f rest) := by
  have htail : ∀ (g : Frame) (fin : Option Node),
      HResInv (stepTryStatementM.stepTryTail ctx st g rest fin) := by
    intro g fin
    have hre : HResInv (stepTryStatementM.stepTryRethrow ctx st g rest) := by
      unfold stepTryStatementM.stepTryRethrow
      try dsimp only
      split
      next cv hcv =>
        split
        next st2 heq =>
          have h := unwind_pp ctx { st with stateStack := rest }
            cv.ctype cv.value cv.label
          rw [heq] at h
          exact PausedInv_of_pp hst h.1 h.2
        next e st2 heq =>
          have h := unwind_pp ctx { st with stateStack := rest }
            cv.ctype cv.value cv.label
          rw [heq] at h
          exact PausedInv_of_pp hst h.1 h.2
        next m heq => trivial
      next => exact HResInv_normal hst _ _ rfl rfl
    unfold stepTryStatementM.stepTryTail
    repeat' split
    all_goals first
      | exact HResInv_normal hst _ _ rfl rfl
      | exact hre
      | trivial
  unfold stepTryStatementM
  repeat' split
  all_goals first
    | exact HResInv_normal hst _ _ rfl rfl
    | exact htail _ _
    | trivial

theorem stepCatchClauseM_inv {ctx : Ctx} {st : Interp} (hst : PausedInv st)
    (f : Frame) (rest : List Frame) : HResInv (stepCatchClauseM ctx st f rest) := by
  unfold stepCatchClauseM
  try dsimp only
  repeat' split
  all_goals first
    | exact HResInv_normal hst _ _ rfl rfl
    | trivial

theorem stepCallExec_inv {H : HostEnv} {ctx : Ctx} {st : Interp}
    (hst : PausedInv st) (f : Frame) (rest : List Frame) :
    HResInv (stepCallArgsExec.stepCallExec H ctx st f rest) := by
  unfold stepCallArgsExec.stepCallExec
  try dsimp only
  repeat' split
  all_goals first
    | exact HResInv_normal hst _ _ rfl rfl
    | exact fun _ => Nat.le_add_left 1 _
    | exact HResInv_throwClass hst _ _ _ _ rfl rfl
    | exact HResInv_writeParent hst _ _ _ rfl rfl
    | trivial

theorem stepCallArgsExec_inv {H : HostEnv} {ctx : Ctx} {st : Interp}
    (hst : PausedInv st) (f : Frame) (rest : List Frame) (args : List Node) :
    HResInv (stepCallArgsExec H ctx st f rest args) := by
  unfold stepCallArgsExec
  try dsimp only
  repeat' split
  all_goals first
    | exact HResInv_normal hst _ _ rfl rfl
    | exact stepCallExec_inv hst _ _
    | trivial

theorem stepCallExpressionM_inv {H : HostEnv} {ctx : Ctx} {st : Interp}
    (hst : PausedInv st) (f : Frame) (rest : List Frame) :
    HResInv (stepCallExpressionM H ctx st f rest) := by
  unfold stepCallExpressionM
  try dsimp only
  repeat' split
  all_goals first
    | exact HResInv_normal hst _ _ rfl rfl
    | exact stepCallArgsExec_inv (PausedInv_of_pp hst rfl rfl) _ _ _
    | exact HResInv_throwClass hst _ _ _ _ rfl rfl
    | trivial

theorem dispatch_inv {H : HostEnv} {ctx : Ctx} {st : Interp}
    (hst : PausedInv st) : HResInv (dispatch H ctx st) := by
  unfold dispatch
  split
  · trivial
  · split
    · exact stepProgramM_inv hst _ _
    · exact stepExpressionStatementM_inv hst _ _
    · exact stepBlockStatementM_inv hst _ _
    · exact stepThrowStatementM_inv hst _ _
    · exact stepTryStatementM_inv hst _ _
    · exact stepCatchClauseM_inv hst _ _
    · exact stepLiteralM_inv hst _ _
    · exact stepIdentifierM_inv hst _ _
    · exact stepCallExpressionM_inv hst _ _
    · exact stepUnaryExpressionM_inv hst _ _

/-- The getter/setter/endFlag continuation of the `step()` loop preserves
the pause invariant. -/
theorem stepLoop_after_inv {H : HostEnv} {ctx : Ctx} {n : ℕ}
    (ih : ∀ {st : Interp}, PausedInv st → ∀ (b : Bool) (st' : Interp),
      stepLoop H ctx n st = .ret b st' → PausedInv st')
    {s3 : Interp} (h3 : PausedInv s3) (eflag : Bool) (b : Bool) (st' : Interp)
    (h : (if s3.getterStep then
            StepRes.fault "Getter not supported in this context"
          else if s3.setterStep then
            StepRes.fault "Setter not supported in this context"
          else if eflag then StepRes.ret true s3
          else stepLoop H ctx n s3) = .ret b st') : PausedInv st' := by
  by_cases hg : s3.getterStep = true
  · rw [if_pos hg] at h
    exact absurd h (by simp)
  · rw [if_neg hg] at h
    by_cases hs : s3.setterStep = true
    · rw [if_pos hs] at h
      exact absurd h (by simp)
    · rw [if_neg hs] at h
      by_cases he : eflag = true
      · rw [if_pos he] at h
        cases h
        exact h3
      · rw [if_neg he] at h
        exact ih h3 b st' h

/-- `step()` preserves the pause invariant on every returned state. -/
theorem stepLoop_inv {H : HostEnv} {ctx : Ctx} :
    ∀ (fuel : ℕ) {st : Interp}, PausedInv st →
    ∀ (b : Bool) (st' : Interp),
      stepLoop H ctx fuel st = .ret b st' → PausedInv st' := by
  intro fuel
  induction fuel with
  | zero =>
      intro st hst b st' h
      rw [stepLoop] at h
      exact absurd h (by simp)
  | succ n ih =>
      intro st hst b st' h
      rw [stepLoop] at h
      cases hstk : st.stateStack with
      | nil =>
          rw [hstk] at h
          cases h
          exact hst
      | cons f tl =>
          rw [hstk] at h
          dsimp only at h
          by_cases hdone : (f.node.isProgram && f.done) = true
          · rw [if_pos hdone] at h
            cases h
            exact hst
          · rw [if_neg hdone] at h
            by_cases hp : st.paused = true
            · rw [if_pos hp] at h
              cases h
              exact hst
            · rw [if_neg hp] at h
              cases hd : dispatch H ctx st with
              | fault m =>
                  rw [hd] at h
                  dsimp only at h
                  exact absurd h (by simp)
              | hostThrow e s2 =>
                  rw [hd] at h
                  dsimp only at h
                  exact absurd h (by simp)
              | stepErr s2 =>
                  rw [hd] at h
                  dsimp only at h
                  have h2 : PausedInv s2 := by
                    have hdd := @dispatch_inv H ctx st hst
                    rw [hd] at hdd
                    exact hdd
                  exact stepLoop_after_inv (fun h5 => ih h5) h2 _ b st' h
              | normal s2 push =>
                  rw [hd] at h
                  dsimp only at h
                  have h2 : PausedInv s2 := by
                    have hdd := @dispatch_inv H ctx st hst
                    rw [hd] at hdd
                    exact hdd
                  cases push with
                  | some fr =>
                      dsimp only at h
                      exact stepLoop_after_inv (fun h5 => ih h5)
                        (@PausedInv_of_pp s2 { s2 with stateStack := fr :: s2.stateStack }
                          h2 rfl rfl) _ b st' h
                  | none =>
                      dsimp only at h
                      exact stepLoop_after_inv (fun h5 => ih h5) h2 _ b st' h

/-- The getter/setter/endFlag continuation of the `step()` loop can only
answer false through the recursive call. -/
theorem stepLoop_after_false {H : HostEnv} {ctx : Ctx} {n : ℕ}
    (ih : ∀ {st st' : Interp}, stepLoop H ctx n st = .ret false st' →
      st'.stateStack = [] ∨ topProgramDone st' = true)
    {s3 : Interp} (eflag : Bool) (st' : Interp)
    (h : (if s3.getterStep then
            StepRes.fault "Getter not supported in this context"
          else if s3.setterStep then
            StepRes.fault "Setter not supported in this context"
          else if eflag then StepRes.ret true s3
          else stepLoop H ctx n s3) = .ret false st') :
    st'.stateStack = [] ∨ topProgramDone st' = true := by
  by_cases hg : s3.getterStep = true
  · rw [if_pos hg] at h
    exact absurd h (by simp)
  · rw [if_neg hg] at h
    by_cases hs : s3.setterStep = true
    · rw [if_pos hs] at h
      exact absurd h (by simp)
    · rw [if_neg hs] at h
      by_cases he : eflag = true
      · rw [if_pos he] at h
        exact absurd h (by simp)
      · rw [if_neg he] at h
        exact ih h

/-- A false return from `step()` happens only on an empty stack or a done
root Program frame. -/
theorem stepLoop_false {H : HostEnv} {ctx : Ctx} :
    ∀ (fuel : ℕ) {st st' : Interp},
      stepLoop H ctx fuel st = .ret false st' →
      st'.stateStack = [] ∨ topProgramDone st' = true := by
  intro fuel
  induction fuel with
  | zero =>
      intro st st' h
      rw [stepLoop] at h
      exact absurd h (by simp)
  | succ n ih =>
      intro st st' h
      rw [stepLoop] at h
      cases hstk : st.stateStack with
      | nil =>
          rw [hstk] at h
          cases h
          exact Or.inl hstk
      | cons f tl =>
          rw [hstk] at h
          dsimp only at h
          by_cases hdone : (f.node.isProgram && f.done) = true
          · rw [if_pos hdone] at h
            cases h
            exact Or.inr (by simp [topProgramDone, hstk, hdone])
          · rw [if_neg hdone] at h
            by_cases hp : st.paused = true
            · rw [if_pos hp] at h
              exact absurd h (by simp)
            · rw [if_neg hp] at h
              cases hd : dispatch H ctx st with
              | fault m =>
                  rw [hd] at h
                  dsimp only at h
                  exact absurd h (by simp)
              | hostThrow e s2 =>
                  rw [hd] at h
                  dsimp only at h
                  exact absurd h (by simp)
              | stepErr s2 =>
                  rw [hd] at h
                  dsimp only at h
                  exact stepLoop_after_false (fun h5 => ih h5) _ st' h
              | normal s2 push =>
                  rw [hd] at h
                  dsimp only at h
                  exact stepLoop_after_false (fun h5 => ih h5) _ st' h

/-- `run()` returns exactly the final value of `paused_`. -/
theorem runLoop_ret_paused {H : HostEnv} {ctx : Ctx} :
    ∀ (fuel sf : ℕ) {st : Interp} {b : Bool} {st' : Interp},
      runLoop H ctx fuel sf st = .ret b st' → b = st'.paused := by
  intro fuel
  induction fuel with
  | zero =>
      intro sf st b st' h
      rw [runLoop] at h
      exact absurd h (by simp)
  | succ n ih =>
      intro sf st b st' h
      rw [runLoop] at h
      split at h
      · injection h with h1 h2
        subst h2
        exact h1.symm
      · split at h
        · exact ih sf h
        · injection h with h1 h2
          subst h2
          exact h1.symm
        · exact absurd h (by simp)
        · exact absurd h (by simp)
        · exact absurd h (by simp)

/-- A false return from `run()` leaves `paused_` false and the stack empty
or topped by the done root Program. -/
theorem runLoop_false {H : HostEnv} {ctx : Ctx} :
    ∀ (fuel sf : ℕ) {st st' : Interp},
      runLoop H ctx fuel sf st = .ret false st' →
      st'.paused = false ∧
        (st'.stateStack = [] ∨ topProgramDone st' = true) := by
  intro fuel
  induction fuel with
  | zero =>
      intro sf st st' h
      rw [runLoop] at h
      exact absurd h (by simp)
  | succ n ih =>
      intro sf st st' h
      rw [runLoop] at h
      split at h
      · injection h with h1 h2
        subst h2
        rename_i hp
        exact absurd hp (by rw [h1]; simp)
      · split at h
        · exact ih sf h
        · rename_i s2 heq
          injection h with h1 h2
          subst h2
          exact ⟨h1, stepLoop_false sf heq⟩
        · exact absurd h (by simp)
        · exact absurd h (by simp)
        · exact absurd h (by simp)

/-- A paused return from `run()` carries at least one pending suspension,
given the pause invariant at entry. -/
theorem runLoop_pending {H : HostEnv} {ctx : Ctx} :
    ∀ (fuel sf : ℕ) {st st' : Interp}, PausedInv st →
      runLoop H ctx fuel sf st = .ret true st' → 1 ≤ st'.pending := by
  intro fuel
  induction fuel with
  | zero =>
      intro sf st st' hst h
      rw [runLoop] at h
      exact absurd h (by simp)
  | succ n ih =>
      intro sf st st' hst h
      rw [runLoop] at h
      split at h
      · injection h with h1 h2
        subst h2
        exact hst h1
      · split at h
        · rename_i s2 heq
          exact ih sf (stepLoop_inv sf hst true s2 heq) h
        · rename_i s2 heq
          injection h with h1 h2
          subst h2
          exact stepLoop_inv sf hst false s2 heq h1
        · exact absurd h (by simp)
        · exact absurd h (by simp)
        · exact absurd h (by simp)

/-- The global object of the C8 async scenario: `setVal` plus a
host-registered async function `sleep` (handle 24). -/
def c8Global : Obj :=
  { proto := some 0
    properties := [("setVal", { value := .obj 23 }),
                   ("sleep", { value := .obj 24 })] }

/-- The base arena with the async host function `sleep` installed
(`createAsyncFunction`): id 7, arity 1 (the callback only). -/
def c8Arena : Arena :=
  (baseArena.set 22 c8Global) ++
    [{ proto := some 1, cls := "Function", kind := .asyncFn 7 1 }]

/-- The guest program `sleep();`. -/
def pAsync : Node :=
  .program [ .exprStmt (.callExpr (.identifier "sleep" true) [] true) true ] true

/-- A fresh interpreter over the async arena, queued on `sleep();`. -/
def c8Interp : Interp :=
  { arena := c8Arena, scopes := baseScopes, globalScope := 0
    stateStack := [{ node := pAsync, scope := 0, done := false }] }

/-- **C8 counterexample.** After the program `42;` completes, `run()`
returns false, yet the state stack is not emptied: it still holds exactly
the root Program frame, marked done. -/
theorem claim_C8_counterexample :
    (match runLoop noHost baseCtx 50 50 (baseInterp pLit) with
     | .ret b st => some (b, st.paused, st.stateStack.length, topProgramDone st)
     | _ => none) = some (false, false, 1, true) := by decide

/-- **C8** (amended).  `run()` returns the final value of `paused_`; a
false return means the program completed (not paused) with the state stack
empty or reduced to the done root Program frame (reachably the latter); a
true return from a state satisfying the pause invariant carries at least
one pending async suspension.  Concretely, `sleep();` with a host async
function returns true, paused, with exactly one pending suspension and the
one host call recorded. -/
theorem claim_C8_run_semantics :
    (∀ (H : HostEnv) (ctx : Ctx) (fuel sf : ℕ) (st : Interp) (b : Bool)
        (st' : Interp),
        runLoop H ctx fuel sf st = .ret b st' → b = st'.paused) ∧
    (∀ (H : HostEnv) (ctx : Ctx) (fuel sf : ℕ) (st st' : Interp),
        runLoop H ctx fuel sf st = .ret false st' →
        st'.paused = false ∧
          (st'.stateStack = [] ∨ topProgramDone st' = true)) ∧
    (∀ (H : HostEnv) (ctx : Ctx) (fuel sf : ℕ) (st st' : Interp),
        PausedInv st → runLoop H ctx fuel sf st = .ret true st' →
        1 ≤ st'.pending) ∧
    ((match runLoop noHost baseCtx 50 50 c8Interp with
      | .ret b st =>
          b && st.paused && decide (st.pending = 1) &&
            decide (st.hostCalls = [(7, [])])
      | _ => false) = true) := by
  exact ⟨fun H ctx fuel sf st b st' h => runLoop_ret_paused fuel sf h,
         fun H ctx fuel sf st st' h => runLoop_false fuel sf h,
         fun H ctx fuel sf st st' hst h => runLoop_pending fuel sf hst h,
         by decide⟩

theorem claim_C8_run_semantics_witness :
    ∃ st : Interp,
      runLoop noHost baseCtx 50 50 c8Interp = .ret true st ∧ 1 ≤ st.pending := by
  have h4 := claim_C8_run_semantics.2.2.2
  cases hr : runLoop noHost baseCtx 50 50 c8Interp with
  | ret b st =>
      rw [hr] at h4
      dsimp only at h4
      have hb : b = true := by
        cases b
        · simp at h4
        · rfl
      subst hb
      exact ⟨st, rfl, claim_C8_run_semantics.2.2.1 noHost baseCtx 50 50
        c8Interp st (fun hp => absurd hp (by decide)) hr⟩
  | hostThrow e st =>
      rw [hr] at h4
      exact absurd h4 (by simp)
  | fault m =>
      rw [hr] at h4
      exact absurd h4 (by simp)
  | fuelOut st =>
      rw [hr] at h4
      exact absurd h4 (by simp)

/-! ### C4: the native/pseudo conversion round trip

`nativeToPseudo` / `pseudoToNative` (lines 2093-2207) convert between
native JavaScript values and guest values.  A native value of the JSON
grammar is modelled by `NativeVal`; the field list of `nobj` carries the
object's own keys in the order `for...in` reports them (JS enumeration
order), which is how the conversion loops observe a native object. -/

/-- A native JavaScript value of the JSON grammar, plus `undefined`
(which the conversions pass through like the other primitives). -/
inductive NativeVal where
  | nundef
  | nnull
  | nbool (b : Bool)
  | nnum (x : JSNum)
  | nstr (s : String)
  | narr (elems : List NativeVal)
  | nobj (fields : List (String × NativeVal))

/-- Stable insertion sort by a natural-number key (ties keep order). -/
def insortBy {α : Type} (key : α → ℕ) : α → List α → List α
  | x, [] => [x]
  | x, y :: ys => if key x < key y then x :: y :: ys else y :: insortBy key x ys

def sortBy {α : Type} (key : α → ℕ) : List α → List α
  | [] => []
  | x :: xs => insortBy key x (sortBy key xs)

/-- JS `for...in` order over a property bag: array-index keys ascending
first, then the remaining keys in insertion order. -/
def jsEnumPairs {α : Type} (l : List (String × α)) : List (String × α) :=
  (sortBy (fun p => p.1)
      (l.filterMap (fun kv => (legalArrayIndex kv.1).map (fun i => (i, kv))))).map
    Prod.snd ++
  l.filter (fun kv => ((legalArrayIndex kv.1).isNone : Bool))

/-- An all-array-index prefix whose indices increase strictly from `lb`. -/
def idxChain {α : Type} : ℕ → List (String × α) → Bool
  | _, [] => true
  | lb, (k, _) :: rest =>
      match legalArrayIndex k with
      | some i => decide (lb ≤ i) && idxChain (i + 1) rest
      | none => false

/-- A suffix free of array-index keys. -/
def strTail {α : Type} (l : List (String × α)) : Bool :=
  l.all (fun kv => (legalArrayIndex kv.1).isNone)

/-- Thread one conversion-loop `setProperty` call: the source discards a
returned setter (the assignment is silently skipped), and a guest throw
escapes the conversion as a host exception. -/
def convSet (out : SetOut) : Except String Arena :=
  match out with
  | .ok a => .ok a
  | .setterOut _ a => .ok a
  | .gthrow _ _ _ => .error "guest throw during conversion"
  | .fault m => .error m

/-- `createArray()`: a fresh object on `ARRAY_PROTO`, `length` defined to 0
(configurable false, enumerable false, writable true) while the class is
still Object, then classed as an Array. -/
def createArray (ctx : Ctx) (strict : Bool) (a : Arena) :
    Except String (Arena × ℕ) :=
  match protoOfCtor a ctx.ARRAY with
  | none => .error "Non object prototype"
  | some p =>
      let (a1, r) := createObjectProto ctx a (some p)
      match setProperty ctx a1 strict (.obj r) "length"
          (some (.num (.finite 0)))
          (some { configurableP := some false, enumerableP := some false
                  writableP := some true }) with
      | .ok a2 => .ok (updObj a2 r (fun o => { o with cls := "Array" }), r)
      | _ => .error "length definition failed"

mutual

/-- `S8Interpreter.prototype.nativeToPseudo` on the `NativeVal` grammar
(the RegExp, Date and function branches are outside it): primitives pass
through; an array becomes `createArray()` filled by indexed `setProperty`
calls; an object becomes `createObjectProto(OBJECT_PROTO)` filled by a
keyed `setProperty` loop in enumeration order. -/
def nativeToPseudo (ctx : Ctx) (strict : Bool) (a : Arena) :
    NativeVal → Except String (Arena × Value)
  | .nundef => .ok (a, .undef)
  | .nnull => .ok (a, .null)
  | .nbool b => .ok (a, .bool b)
  | .nnum x => .ok (a, .num x)
  | .nstr s => .ok (a, .str s)
  | .narr elems =>
      match createArray ctx strict a with
      | .error m => .error m
      | .ok (a1, r) =>
          match n2pElems ctx strict a1 r 0 elems with
          | .ok a2 => .ok (a2, .obj r)
          | .error m => .error m
  | .nobj fields =>
      let p := createObjectProto ctx a (some ctx.OBJECT_PROTO)
      match n2pFields ctx strict p.1 p.2 fields with
      | .ok a2 => .ok (a2, .obj p.2)
      | .error m => .error m

/-- The `for (i = 0; i < nativeObj.length; i++)` loop of the Array branch
(every index of a dense array is present). -/
def n2pElems (ctx : Ctx) (strict : Bool) (a : Arena) (r : ℕ) (i : ℕ) :
    List NativeVal → Except String Arena
  | [] => .ok a
  | v :: rest =>
      match nativeToPseudo ctx strict a v with
      | .error m => .error m
      | .ok (a1, w) =>
          match convSet (setProperty ctx a1 strict (.obj r) (Nat.repr i)
              (some w) none) with
          | .error m => .error m
          | .ok a2 => n2pElems ctx strict a2 r (i + 1) rest

/-- The `for (let key in nativeObj)` loop of the Object branch. -/
def n2pFields (ctx : Ctx) (strict : Bool) (a : Arena) (r : ℕ) :
    List (String × NativeVal) → Except String Arena
  | [] => .ok a
  | (k, v) :: rest =>
      match nativeToPseudo ctx strict a v with
      | .error m => .error m
      | .ok (a1, w) =>
          match convSet (setProperty ctx a1 strict (.obj r) k (some w) none) with
          | .error m => .error m
          | .ok a2 => n2pFields ctx strict a2 r rest

end

mutual

/-- `S8Interpreter.prototype.pseudoToNative`: primitives pass through; an
object is read back along `isa` class tests with the cycle-detection list
`cycles` (the pseudo side of the pair).  Results outside the inductive
grammar - RegExp and Date instances, cyclic structures (whose native
counterpart would be a cyclic object), sparse arrays, and live getters -
are host-level errors in this model. -/
def pseudoToNative (ctx : Ctx) (a : Arena) :
    ℕ → List ℕ → Value → Except String NativeVal
  | _, _, .undef => .ok .nundef
  | _, _, .null => .ok .nnull
  | _, _, .bool b => .ok (.nbool b)
  | _, _, .num x => .ok (.nnum x)
  | _, _, .str s => .ok (.nstr s)
  | 0, _, .obj _ => .error "fuel exhausted"
  | fuel + 1, cycles, .obj r =>
      if isa ctx a (.obj r) ctx.REGEXP then
        .error "RegExp outside the JSON grammar"
      else if isa ctx a (.obj r) ctx.DATE then
        .error "Date outside the JSON grammar"
      else if cycles.contains r then .error "cyclic structure"
      else if isa ctx a (.obj r) ctx.ARRAY then
        match getProperty ctx a (.obj r) "length" with
        | .ok lv =>
            (match p2nElems ctx a fuel (r :: cycles) r 0
                (natsBelow (toNumberOf a lv)) with
             | .ok elems => .ok (.narr elems)
             | .error m => .error m)
        | .okGetter _ => .error "getter during conversion"
        | .gthrow _ _ => .error "guest throw during conversion"
        | .fault m => .error m
        | .spin => .error "nonterminating prototype chain"
      else
        match aget a r with
        | none => .error "dangling object handle"
        | some o =>
            (match p2nFields ctx a fuel (r :: cycles)
                (jsEnumPairs o.properties) with
             | .ok fields => .ok (.nobj fields)
             | .error m => .error m)

/-- The `for (var i = 0; i < length; i++)` read-back loop of the Array
branch (`remaining` counts the indices left). -/
def p2nElems (ctx : Ctx) (a : Arena) (fuel : ℕ) (cycles : List ℕ) (r : ℕ) :
    ℕ → ℕ → Except String (List NativeVal)
  | _, 0 => .ok []
  | i, remaining + 1 =>
      match hasProperty ctx a (.obj r) (Nat.repr i) with
      | .ok true =>
          (match getProperty ctx a (.obj r) (Nat.repr i) with
           | .ok v =>
               (match pseudoToNative ctx a fuel cycles v with
                | .ok nv =>
                    (match p2nElems ctx a fuel cycles r (i + 1) remaining with
                     | .ok rest => .ok (nv :: rest)
                     | .error m => .error m)
                | .error m => .error m)
           | .okGetter _ => .error "getter during conversion"
           | .gthrow _ _ => .error "guest throw during conversion"
           | .fault m => .error m
           | .spin => .error "nonterminating prototype chain")
      | .ok false => .error "sparse array outside the JSON grammar"
      | .fault m => .error m
      | .spin => .error "nonterminating prototype chain"

/-- The `for (let key in pseudoObj.properties)` read-back loop of the
Object branch (a raw read of the bag, no getter indirection). -/
def p2nFields (ctx : Ctx) (a : Arena) (fuel : ℕ) (cycles : List ℕ) :
    List (String × PropEntry) → Except String (List (String × NativeVal))
  | [] => .ok []
  | (k, e) :: rest =>
      match pseudoToNative ctx a fuel cycles e.value with
      | .ok nv =>
          (match p2nFields ctx a fuel cycles rest with
           | .ok tail => .ok ((k, nv) :: tail)
           | .error m => .error m)
      | .error m => .error m

end

/-! #### Arena infrastructure for the round trip -/

/-- The arena still carries the 24 built-ins of `baseArena` unchanged
(conversions only allocate past them). -/
def extendsBase (a : Arena) : Prop := List.take 24 a = baseArena

theorem extendsBase_alen {a : Arena} (h : extendsBase a) : 24 ≤ alen a := by
  have := congrArg List.length h
  simp [baseArena] at this
  simp [alen]
  omega

theorem extendsBase_aget {a : Arena} (h : extendsBase a) {k : ℕ} (hk : k < 24) :
    aget a k = aget baseArena k := by
  have h1 := congrArg (fun l => List.get? l k) h
  simp only [List.get?_eq_getElem?] at h1
  rw [List.getElem?_take_of_lt hk] at h1
  simp only [aget, List.get?_eq_getElem?]
  exact h1

theorem aget_lt {a : Arena} {r : ℕ} {o : Obj} (h : aget a r = some o) :
    r < alen a := by
  by_contra hge
  rw [aget, List.get?_eq_getElem?, List.getElem?_eq_none
    (by simp [alen] at hge; omega)] at h
  exact Option.noConfusion h

theorem aget_append_lt {a ext : Arena} {k : ℕ} (hk : k < alen a) :
    aget (a ++ ext) k = aget a k := by
  simp only [aget, List.get?_eq_getElem?]
  exact List.getElem?_append_left (by simpa [alen] using hk)

theorem aget_concat_self (a : Arena) (o : Obj) :
    aget (a ++ [o]) (alen a) = some o := by
  simp only [aget, List.get?_eq_getElem?, alen]
  rw [List.getElem?_append_right (le_refl _)]
  simp

theorem alen_append (a ext : Arena) : alen (a ++ ext) = alen a + alen ext := by
  simp [alen]

theorem alen_set (a : Arena) (r : ℕ) (o : Obj) :
    alen (List.set a r o) = alen a := by
  simp [alen]

theorem aget_set_self {a : Arena} {r : ℕ} (o : Obj) (h : r < alen a) :
    aget (List.set a r o) r = some o := by
  simp only [aget, List.get?_eq_getElem?]
  rw [List.getElem?_set_self (by simpa [alen] using h)]

theorem aget_set_ne (a : Arena) {r k : ℕ} (o : Obj) (h : k ≠ r) :
    aget (List.set a r o) k = aget a k := by
  simp only [aget, List.get?_eq_getElem?]
  exact List.getElem?_set_ne (fun he => h he.symm)

theorem extendsBase_concat {a : Arena} (h : extendsBase a) (o : Obj) :
    extendsBase (a ++ [o]) := by
  unfold extendsBase at *
  rw [List.take_append_of_le_length
    (by have := extendsBase_alen h; simpa [alen] using this)]
  exact h

theorem extendsBase_set {a : Arena} (h : extendsBase a) {r : ℕ} (hr : 24 ≤ r)
    (o : Obj) : extendsBase (List.set a r o) := by
  unfold extendsBase at *
  rw [List.set_take, List.set_eq_of_length_le]
  · exact h
  · rw [h]
    have : List.length baseArena = 24 := by decide
    omega

/-- `aset` on an absent key appends at the end. -/
theorem aset_absent {α : Type} {l : List (String × α)} {k : String}
    (h : alookup l k = none) (v : α) : aset l k v = l ++ [(k, v)] := by
  induction l with
  | nil => rfl
  | cons kv rest ih =>
      rcases kv with ⟨k1, v1⟩
      by_cases hk : k1 = k
      · rw [alookup, if_pos hk] at h
        exact Option.noConfusion h
      · rw [alookup, if_neg hk] at h
        simp [aset, hk, ih h]

theorem amem_false_of_alookup {α : Type} {l : List (String × α)} {k : String}
    (h : alookup l k = none) : amem l k = false := by
  simp [amem, h]

/-- A terminating prototype chain, recorded as the list of handles. -/
inductive PrChain (a : Arena) : Option ℕ → List ℕ → Prop where
  | nil : PrChain a none []
  | cons (r : ℕ) (o : Obj) (rest : List ℕ) (ho : aget a r = some o)
      (hrest : PrChain a o.proto rest) : PrChain a (some r) (r :: rest)

theorem walkIsa_false_of_chain {a : Arena} {pv : Value} :
    ∀ {start : Option ℕ} {path : List ℕ}, PrChain a start path →
    (∀ p ∈ path, Value.obj p ≠ pv) →
    ∀ {fuel : ℕ}, path.length < fuel →
    walkIsa a fuel start pv = false := by
  intro start path hch
  induction hch with
  | nil =>
      intro hne fuel hf
      obtain ⟨m, rfl⟩ : ∃ m, fuel = m + 1 := ⟨fuel - 1, by omega⟩
      rfl
  | cons r o rest ho hrest ih =>
      intro hne fuel hf
      obtain ⟨m, rfl⟩ : ∃ m, fuel = m + 1 := ⟨fuel - 1, by omega⟩
      rw [walkIsa, ho]
      have h2 : decide (Value.obj r = pv) = false := by
        simp [hne r (List.mem_cons_self r rest)]
      simp only [Option.some_bind, h2, Bool.false_or]
      exact ih (fun p hp => hne p (List.mem_cons_of_mem r hp))
        (by simp at hf ⊢; omega)

theorem protoValOfCtor_base {a : Arena} (hext : extendsBase a) {c : ℕ}
    (hc : c < 24) : protoValOfCtor a c = protoValOfCtor baseArena c := by
  unfold protoValOfCtor
  rw [extendsBase_aget hext hc]

theorem protoOfCtor_base {a : Arena} (hext : extendsBase a) {c : ℕ}
    (hc : c < 24) : protoOfCtor a c = protoOfCtor baseArena c := by
  unfold protoOfCtor
  rw [extendsBase_aget hext hc]

theorem prChain_at0 {a : Arena} (hext : extendsBase a) :
    PrChain a (some 0) [0] := by
  have h0 : aget a 0 = some { proto := none, properties := [("constructor", neProp (.obj 24))] } := by
    rw [extendsBase_aget hext (by omega)]
    rfl
  exact .cons 0 _ [] h0 .nil

theorem prChain_at2 {a : Arena} (hext : extendsBase a) :
    PrChain a (some 2) [2, 0] := by
  have h2 : aget a 2 = some { proto := some 0 } := by
    rw [extendsBase_aget hext (by omega)]
    rfl
  exact .cons 2 _ [0] h2 (prChain_at0 hext)

theorem isa_false_of_chain {a : Arena} {r : ℕ} {o : Obj} {c : ℕ}
    {path : List ℕ} (ho : aget a r = some o) (hch : PrChain a o.proto path)
    (hlen : path.length < alen a + 1)
    (hne1 : Value.obj r ≠ protoValOfCtor a c)
    (hne : ∀ p ∈ path, Value.obj p ≠ protoValOfCtor a c) :
    isa baseCtx a (.obj r) c = false := by
  unfold isa
  dsimp only
  rw [if_neg hne1]
  have hgp : getPrototype baseCtx a (.obj r) = o.proto := by
    unfold getPrototype
    dsimp only
    rw [ho]
    rfl
  rw [hgp]
  exact walkIsa_false_of_chain hch hne hlen

/-- A fresh object on `Object.prototype` is no instance of a constructor
whose recorded prototype is a built-in other than handle 0. -/
theorem isa_plain_false {a : Arena} (hext : extendsBase a) {r : ℕ} {o : Obj}
    {c : ℕ} (hr : 24 ≤ r) (ho : aget a r = some o) (hproto : o.proto = some 0)
    (hc : c < 24) (k : ℕ) (hk : k < 24) (hk0 : k ≠ 0)
    (hpv : protoValOfCtor baseArena c = .obj k) :
    isa baseCtx a (.obj r) c = false := by
  have hpva : protoValOfCtor a c = .obj k := by
    rw [protoValOfCtor_base hext hc, hpv]
  refine isa_false_of_chain ho (hproto ▸ prChain_at0 hext) ?_ ?_ ?_
  · have := extendsBase_alen hext
    simp
    omega
  · rw [hpva]
    intro he
    injection he with he2
    omega
  · intro p hp
    simp at hp
    subst hp
    rw [hpva]
    intro he
    injection he with he2
    exact hk0 he2.symm

/-- A fresh object on `Array.prototype` is no instance of a constructor
whose recorded prototype is a built-in other than handles 0 and 2. -/
theorem isa_arrobj_false {a : Arena} (hext : extendsBase a) {r : ℕ} {o : Obj}
    {c : ℕ} (hr : 24 ≤ r) (ho : aget a r = some o) (hproto : o.proto = some 2)
    (hc : c < 24) (k : ℕ) (hk : k < 24) (hk0 : k ≠ 0) (hk2 : k ≠ 2)
    (hpv : protoValOfCtor baseArena c = .obj k) :
    isa baseCtx a (.obj r) c = false := by
  have hpva : protoValOfCtor a c = .obj k := by
    rw [protoValOfCtor_base hext hc, hpv]
  refine isa_false_of_chain ho (hproto ▸ prChain_at2 hext) ?_ ?_ ?_
  · have := extendsBase_alen hext
    simp
    omega
  · rw [hpva]
    intro he
    injection he with he2
    omega
  · intro p hp
    simp at hp
    rw [hpva]
    rcases hp with hp | hp <;> subst hp <;> intro he <;> injection he with he2
    · exact hk2 he2.symm
    · exact hk0 he2.symm

/-- A fresh object on `Array.prototype` passes the `isa ARRAY` test. -/
theorem isa_array_true {a : Arena} (hext : extendsBase a) {r : ℕ} {o : Obj}
    (hr : 24 ≤ r) (ho : aget a r = some o) (hproto : o.proto = some 2) :
    isa baseCtx a (.obj r) baseCtx.ARRAY = true := by
  have hpva : protoValOfCtor a baseCtx.ARRAY = .obj 2 := by
    rw [protoValOfCtor_base hext (by decide)]
    decide
  unfold isa
  dsimp only
  rw [if_neg (by rw [hpva]; intro he; injection he with he2; omega)]
  have hgp : getPrototype baseCtx a (.obj r) = o.proto := by
    unfold getPrototype
    dsimp only
    rw [ho]
    rfl
  rw [hgp, hproto, hpva]
  have halen := extendsBase_alen hext
  obtain ⟨m, hm⟩ : ∃ m, alen a + 1 = m + 1 := ⟨alen a, rfl⟩
  rw [hm, walkIsa]
  simp

/-- The two `isa STRING` guards of a fresh conversion object. -/
theorem isa_fresh_string_false {a : Arena} (hext : extendsBase a) {r : ℕ}
    {o : Obj} (hr : 24 ≤ r) (ho : aget a r = some o)
    (hproto : o.proto = some 0 ∨ o.proto = some 2) :
    isa baseCtx a (.obj r) baseCtx.STRING = false := by
  cases hproto with
  | inl h => exact @isa_plain_false a hext r o baseCtx.STRING hr ho h (by decide) 4 (by decide) (by decide) (by decide)
  | inr h => exact @isa_arrobj_false a hext r o baseCtx.STRING hr ho h (by decide) 4 (by decide) (by decide) (by decide) (by decide)

/-- Own-property hit of the `getProperty` chain walk. -/
theorem getChainWalk_own {ctx : Ctx} {a : Arena} {fuel r : ℕ} {o : Obj}
    {name : String} (ho : aget a r = some o)
    (hmem : amem o.properties name = true)
    (hget : alookup o.getter name = none) :
    getChainWalk ctx a (fuel + 1) (.obj r) name =
      .ok (((alookup o.properties name).map (fun e => e.value)).getD .undef) := by
  rw [getChainWalk]
  simp [ho, hmem, hget]

/-- Own-property hit of the `hasProperty` chain walk. -/
theorem hasChainWalk_own {ctx : Ctx} {a : Arena} {fuel r : ℕ} {o : Obj}
    {name : String} (ho : aget a r = some o)
    (hmem : amem o.properties name = true) :
    hasChainWalk ctx a (fuel + 1) (.obj r) name = .ok true := by
  rw [hasChainWalk]
  simp [ho, hmem]

/-- `getProperty` on an own data property of a non-String-boxed object. -/
theorem getProperty_own {a : Arena} {r : ℕ} {o : Obj} {name : String}
    (ho : aget a r = some o)
    (hisa : isa baseCtx a (.obj r) baseCtx.STRING = false)
    (hmem : amem o.properties name = true)
    (hget : alookup o.getter name = none) :
    getProperty baseCtx a (.obj r) name =
      .ok (((alookup o.properties name).map (fun e => e.value)).getD .undef) := by
  have hchain : getChainWalk baseCtx a (alen a + 2) (.obj r) name =
      .ok (((alookup o.properties name).map (fun e => e.value)).getD .undef) := by
    have h2 : alen a + 2 = (alen a + 1) + 1 := rfl
    rw [h2]
    exact getChainWalk_own ho hmem hget
  unfold getProperty
  dsimp only
  by_cases hn : name = "length"
  · rw [if_pos hn]
    rw [hisa]
    simp only [Bool.false_eq_true, if_false]
    exact hchain
  · rw [if_neg hn]
    by_cases hc : name ≠ "" ∧ (name.get 0).toNat < 0x40
    · rw [if_pos hc, hisa]
      simp only [Bool.false_eq_true, if_false]
      exact hchain
    · rw [if_neg hc]
      exact hchain

/-- `hasProperty` on an own property of a non-String-boxed object. -/
theorem hasProperty_own {a : Arena} {r : ℕ} {o : Obj} {name : String}
    (ho : aget a r = some o)
    (hisa : isa baseCtx a (.obj r) baseCtx.STRING = false)
    (hmem : amem o.properties name = true) :
    hasProperty baseCtx a (.obj r) name = .ok true := by
  unfold hasProperty
  dsimp only
  rw [hisa]
  simp only [Bool.and_false, Bool.false_and, Bool.false_eq_true, if_false]
  have h2 : alen a + 2 = (alen a + 1) + 1 := rfl
  rw [h2]
  exact hasChainWalk_own ho hmem

theorem natsBelow_natCast (n : ℕ) : natsBelow (.finite (n : ℚ)) = n := by
  have h : natsBelow (.finite (n : ℚ)) =
      if ((n : ℚ)) ≤ 0 then 0 else ⌈(n : ℚ)⌉.toNat := rfl
  rw [h]
  cases n with
  | zero => simp
  | succ m =>
      rw [if_neg (by rw [not_le]; push_cast; positivity)]
      rw [Int.ceil_natCast]
      simp

theorem legalArrayIndex_ne {k s : String} {i : ℕ}
    (h : legalArrayIndex k = some i) (hs : legalArrayIndex s = none) :
    k ≠ s := by
  intro he
  rw [he, hs] at h
  exact Option.noConfusion h

/-- The `length` entry of a conversion-built array. -/
def arrayLenEntry (n : ℕ) : PropEntry :=
  { value := .num (.finite (n : ℚ)), writable := true
    enumerable := false, configurable := false }

/-- The data entry a plain assignment creates (all attributes true). -/
def dataEntry (v : Value) : PropEntry := { value := v }

theorem set_concat_self (a : Arena) (o o' : Obj) :
    List.set (a ++ [o]) (alen a) o' = a ++ [o'] := by
  induction a with
  | nil => rfl
  | cons x xs ih =>
      simp only [List.cons_append, alen, List.length_cons, List.set]
      exact congrArg (fun l => x :: l) (by simpa [alen] using ih)

/-- The prototype-walk of `setProperty` from a fresh conversion object:
a key other than `constructor` is defined on the receiver itself. -/
theorem findDefObj_fresh {a : Arena} (hext : extendsBase a) {r : ℕ} {o : Obj}
    (hr : 24 ≤ r) (ho : aget a r = some o) (k : String)
    (habs : amem o.properties k = false)
    (hpr : o.proto = some 0 ∨ o.proto = some 2) (hk : k ≠ "constructor") :
    findDefObj baseCtx a r (alen a + 1) r k = some r := by
  have h0 : aget a 0 = some { proto := none, properties := [("constructor", neProp (.obj 24))] } := by
    rw [extendsBase_aget hext (by omega)]
    rfl
  have h2 : aget a 2 = some { proto := some 0 } := by
    rw [extendsBase_aget hext (by omega)]
    rfl
  have hmem0 : amem ([("constructor", neProp (Value.obj 24))] : List (String × PropEntry)) k = false := by
    simp [amem, alookup]
    exact fun h => hk h.symm
  have hstep0 : ∀ m, findDefObj baseCtx a r (m + 1) 0 k = some r := by
    intro m
    rw [findDefObj, h0]
    simp only [hmem0, Bool.false_eq_true, if_false]
  cases hpr with
  | inl hp =>
      have halen := extendsBase_alen hext
      obtain ⟨m, hm⟩ : ∃ m, alen a + 1 = m + 1 + 1 := ⟨alen a - 1, by omega⟩
      rw [hm, findDefObj, ho]
      simp only [habs, Bool.false_eq_true, if_false, hp]
      exact hstep0 m
  | inr hp =>
      have halen := extendsBase_alen hext
      obtain ⟨m, hm⟩ : ∃ m, alen a + 1 = m + 1 + 1 + 1 := ⟨alen a - 2, by omega⟩
      rw [hm, findDefObj, ho]
      simp only [habs, Bool.false_eq_true, if_false, hp]
      rw [findDefObj, h2]
      simp only [amem, alookup, Option.isSome_none, Bool.false_eq_true, if_false]
      exact hstep0 m

/-- The prototype-walk of `setProperty` for the key `constructor`, which
every fresh object inherits from `Object.prototype` (handle 0). -/
theorem findDefObj_ctor {a : Arena} (hext : extendsBase a) {r : ℕ} {o : Obj}
    (hr : 24 ≤ r) (ho : aget a r = some o)
    (habs : amem o.properties "constructor" = false)
    (hpr : o.proto = some 0 ∨ o.proto = some 2) :
    findDefObj baseCtx a r (alen a + 1) r "constructor" = some 0 := by
  have h0 : aget a 0 = some { proto := none, properties := [("constructor", neProp (.obj 24))] } := by
    rw [extendsBase_aget hext (by omega)]
    rfl
  have h2 : aget a 2 = some { proto := some 0 } := by
    rw [extendsBase_aget hext (by omega)]
    rfl
  have hstep0 : ∀ m, findDefObj baseCtx a r (m + 1) 0 "constructor" = some 0 := by
    intro m
    rw [findDefObj, h0]
    simp [amem, alookup]
  cases hpr with
  | inl hp =>
      have halen := extendsBase_alen hext
      obtain ⟨m, hm⟩ : ∃ m, alen a + 1 = m + 1 + 1 := ⟨alen a - 1, by omega⟩
      rw [hm, findDefObj, ho]
      simp only [habs, Bool.false_eq_true, if_false, hp]
      exact hstep0 m
  | inr hp =>
      have halen := extendsBase_alen hext
      obtain ⟨m, hm⟩ : ∃ m, alen a + 1 = m + 1 + 1 + 1 := ⟨alen a - 2, by omega⟩
      rw [hm, findDefObj, ho]
      simp only [habs, Bool.false_eq_true, if_false, hp]
      rw [findDefObj, h2]
      simp only [amem, alookup, Option.isSome_none, Bool.false_eq_true, if_false]
      exact hstep0 m

/-- The assignment branch on a clean receiver: the chain owner has no
accessors, so the value is appended on the receiver with default
attributes. -/
theorem assignStage_clean (strict : Bool) {a : Arena} {r dref : ℕ}
    {o dO : Obj} (k : String) (w : Value)
    (hfind : findDefObj baseCtx a r (alen a + 1) r k = some dref)
    (hdO : aget a dref = some dO) (hset : dO.setter = [])
    (hget : dO.getter = []) (ho : aget a r = some o)
    (habs : alookup o.properties k = none) :
    assignStage baseCtx a strict r k (some w) =
      .ok (List.set a r { o with properties := o.properties ++ [(k, dataEntry w)] }) := by
  unfold assignStage
  dsimp only
  rw [hfind]
  dsimp only
  rw [hdO]
  dsimp only
  rw [hset, hget]
  simp only [alookup]
  rw [ho]
  dsimp only
  have hba : bagAssign o.properties k w =
      some (o.properties ++ [(k, dataEntry w)]) := by
    unfold bagAssign
    rw [habs]
    dsimp only
    rw [aset_absent habs]
    rfl
  rw [hba]
  dsimp only
  unfold updObj
  rw [ho]

/-- One conversion-loop assignment on a fresh plain object: the key is
appended with the default data attributes. -/
theorem setProperty_clean_plain (strict : Bool) {a : Arena} {r : ℕ}
    (hext : extendsBase a) (hr : 24 ≤ r)
    {bag : List (String × PropEntry)} (k : String) (w : Value)
    (ho : aget a r = some { proto := some 0, properties := bag })
    (habs : alookup bag k = none) :
    setProperty baseCtx a strict (.obj r) k (some w) none =
      .ok (List.set a r { proto := some 0, properties := bag ++ [(k, dataEntry w)] }) := by
  have hisa : isa baseCtx a (.obj r) baseCtx.STRING = false :=
    isa_fresh_string_false hext hr ho (Or.inl rfl)
  rw [setProperty_obj_reduce baseCtx a strict r k (some w) none _ ho rfl hisa]
  have harr : arrayStage baseCtx a r { proto := some 0, properties := bag } k
      (some w) none = .go a (some w) := by
    unfold arrayStage
    dsimp only
    rw [if_neg (by decide : ¬("Object" : String) = "Array")]
  rw [harr]
  try dsimp only
  unfold postArrayStage
  rw [ho]
  dsimp only
  rw [if_neg (by simp)]
  try dsimp only
  by_cases hk : k = "constructor"
  · subst hk
    have hfind := findDefObj_ctor hext hr ho (amem_false_of_alookup habs)
      (Or.inl rfl)
    have h0 : aget a 0 = some { proto := none, properties := [("constructor", neProp (.obj 24))] } := by
      rw [extendsBase_aget hext (by omega)]
      rfl
    exact assignStage_clean strict "constructor" w hfind h0 rfl rfl ho habs
  · have hfind := findDefObj_fresh hext hr ho k (amem_false_of_alookup habs)
      (Or.inl rfl) hk
    exact assignStage_clean strict k w hfind ho rfl rfl ho habs

/-- One conversion-loop assignment at the next free index of a fresh
array: the magic length bump precedes the append of the element. -/
theorem setProperty_clean_array (strict : Bool) {a : Arena} {r : ℕ}
    (hext : extendsBase a) (hr : 24 ≤ r)
    {tailbag : List (String × PropEntry)} {i : ℕ} (w : Value)
    (hi : i < 4294967295)
    (ho : aget a r = some { proto := some 2, cls := "Array", properties := ("length", arrayLenEntry i) :: tailbag })
    (habs : alookup tailbag (Nat.repr i) = none) :
    setProperty baseCtx a strict (.obj r) (Nat.repr i) (some w) none =
      .ok (List.set a r { proto := some 2, cls := "Array", properties := ("length", arrayLenEntry (i + 1)) :: (tailbag ++ [(Nat.repr i, dataEntry w)]) }) := by
  have hisa : isa baseCtx a (.obj r) baseCtx.STRING = false :=
    isa_fresh_string_false hext hr ho (Or.inr rfl)
  have hleg : legalArrayIndex (Nat.repr i) = some i := legalArrayIndex_repr i hi
  have hnl : Nat.repr i ≠ "length" := legalArrayIndex_not_length hleg
  rw [setProperty_obj_reduce baseCtx a strict r (Nat.repr i) (some w) none _ ho
    rfl hisa]
  have hlook : alookup (("length", arrayLenEntry i) :: tailbag) "length" =
      some (arrayLenEntry i) := by
    rw [alookup, if_pos rfl]
  have hbump : bagAssign (("length", arrayLenEntry i) :: tailbag) "length"
      (.num (jsMaxLen (.finite (i : ℚ)) (i + 1))) =
      some (("length", arrayLenEntry (i + 1)) :: tailbag) := by
    unfold bagAssign
    rw [hlook]
    dsimp only [arrayLenEntry]
    rw [if_pos rfl]
    unfold aset
    rw [if_pos rfl, jsMaxLen_natCast, Nat.max_eq_right (Nat.le_succ i)]
  have harr : arrayStage baseCtx a r
      { proto := some 2, cls := "Array", properties := ("length", arrayLenEntry i) :: tailbag }
      (Nat.repr i) (some w) none =
      .go (List.set a r { proto := some 2, cls := "Array", properties := ("length", arrayLenEntry (i + 1)) :: tailbag })
        (some w) := by
    unfold arrayStage
    dsimp only
    rw [if_pos (rfl : ("Array" : String) = "Array"), if_neg hnl, hleg]
    dsimp only
    rw [hlook]
    simp only [Option.map_some', Option.getD_some]
    rw [show (arrayLenEntry i).value = Value.num (JSNum.finite (i : ℚ)) from rfl]
    rw [toNumberOf_num]
    rw [hbump]
    dsimp only
    unfold updObj
    rw [ho]
  rw [harr]
  try dsimp only
  have hr' : r < alen a := aget_lt ho
  have ho1 : aget (List.set a r { proto := some 2, cls := "Array", properties := ("length", arrayLenEntry (i + 1)) :: tailbag }) r =
      some { proto := some 2, cls := "Array", properties := ("length", arrayLenEntry (i + 1)) :: tailbag } :=
    aget_set_self _ hr'
  have hext1 : extendsBase (List.set a r { proto := some 2, cls := "Array", properties := ("length", arrayLenEntry (i + 1)) :: tailbag }) :=
    extendsBase_set hext hr _
  have habs1 : alookup (("length", arrayLenEntry (i + 1)) :: tailbag) (Nat.repr i) = none := by
    rw [alookup, if_neg (fun h => hnl h.symm)]
    exact habs
  unfold postArrayStage
  rw [ho1]
  dsimp only
  rw [if_neg (by simp)]
  try dsimp only
  have hfind := findDefObj_fresh hext1 hr ho1 (Nat.repr i)
    (amem_false_of_alookup habs1) (Or.inr rfl)
    (legalArrayIndex_ne hleg (by decide))
  have hfin := assignStage_clean strict (Nat.repr i) w hfind ho1 rfl rfl ho1 habs1
  rw [hfin]
  rw [List.set_set]
  rfl

/-- `createArray()` appends exactly one fresh empty array object. -/
theorem createArray_spec (strict : Bool) {a : Arena} (hext : extendsBase a) :
    createArray baseCtx strict a =
      .ok (a ++ [{ proto := some 2, cls := "Array", properties := [("length", arrayLenEntry 0)] }], alen a) := by
  have hproto : protoOfCtor a baseCtx.ARRAY = some 2 := by
    rw [protoOfCtor_base hext (by decide)]
    decide
  have hext1 : extendsBase (a ++ [{ proto := some 2 }]) :=
    extendsBase_concat hext _
  have ho1 : aget (a ++ [{ proto := some 2 }]) (alen a) = some { proto := some 2 } :=
    aget_concat_self a _
  have hr1 : 24 ≤ alen a := extendsBase_alen hext
  have hisaErr : isa baseCtx (a ++ [{ proto := some 2 }]) (.obj (alen a))
      baseCtx.ERROR = false :=
    @isa_arrobj_false _ hext1 _ _ baseCtx.ERROR hr1 ho1 rfl (by decide) 10
      (by decide) (by decide) (by decide) (by decide)
  have hisaStr : isa baseCtx (a ++ [{ proto := some 2 }]) (.obj (alen a))
      baseCtx.STRING = false :=
    isa_fresh_string_false hext1 hr1 ho1 (Or.inr rfl)
  have hcop : createObjectProto baseCtx a (some 2) =
      (a ++ [{ proto := some 2 }], alen a) := by
    unfold createObjectProto allocObj
    try dsimp only
    rw [List.concat_eq_append]
    rw [if_neg (by rw [hisaErr]; simp)]
  unfold createArray
  rw [hproto]
  try dsimp only
  rw [hcop]
  try dsimp only
  rw [setProperty_obj_reduce baseCtx _ strict (alen a) "length"
    (some (.num (.finite 0)))
    (some { configurableP := some false, enumerableP := some false, writableP := some true })
    _ ho1 rfl hisaStr]
  have harr : arrayStage baseCtx (a ++ [{ proto := some 2 }]) (alen a)
      { proto := some 2 } "length" (some (.num (.finite 0)))
      (some { configurableP := some false, enumerableP := some false, writableP := some true }) =
      .go (a ++ [{ proto := some 2 }]) (some (.num (.finite 0))) := by
    unfold arrayStage
    try dsimp only
    rw [if_neg (by decide : ¬("Object" : String) = "Array")]
  rw [harr]
  try dsimp only
  unfold postArrayStage
  rw [ho1]
  try dsimp only
  rw [if_neg (by simp)]
  try dsimp only
  have hdesc : descStage baseCtx (a ++ [{ proto := some 2 }]) (alen a) "length"
      (some (.num (.finite 0)))
      { configurableP := some false, enumerableP := some false, writableP := some true } =
      .ok (a ++ [{ proto := some 2, properties := [("length", { value := Value.num (JSNum.finite 0), writable := true, enumerable := false, configurable := false })] }]) := by
    unfold descStage
    rw [ho1]
    simp [defineOwn, alookup, aset, adel, updObj, ho1, set_concat_self]
  rw [hdesc]
  try dsimp only
  have ho2 : aget (a ++ [{ proto := some 2, properties := [("length", { value := Value.num (JSNum.finite 0), writable := true, enumerable := false, configurable := false })] }]) (alen a) = some { proto := some 2, properties := [("length", { value := Value.num (JSNum.finite 0), writable := true, enumerable := false, configurable := false })] } :=
    aget_concat_self a _
  unfold updObj
  rw [ho2]
  try dsimp only
  rw [set_concat_self]
  have hcast : ((0 : ℕ) : ℚ) = (0 : ℚ) := Nat.cast_zero
  simp only [arrayLenEntry, hcast]
/-! #### Well-formed native values and the representation relation -/

/-- Well-formed native values: array lengths fit the index space, and
object key lists are distinct and already in JS enumeration order
(an index-key prefix with strictly increasing indices, then index-free
keys), as `for...in` reports them for any real native object. -/
inductive WfNative : NativeVal → Prop where
  | undef : WfNative .nundef
  | null : WfNative .nnull
  | bool (b : Bool) : WfNative (.nbool b)
  | num (x : JSNum) : WfNative (.nnum x)
  | str (s : String) : WfNative (.nstr s)
  | arr (elems : List NativeVal) (hlen : elems.length < 4294967295)
      (h : ∀ v ∈ elems, WfNative v) : WfNative (.narr elems)
  | obj (li ls : List (String × NativeVal))
      (hidx : idxChain 0 li = true) (hstr : strTail ls = true)
      (hnodup : ((li ++ ls).map Prod.fst).Nodup)
      (h : ∀ kv ∈ li ++ ls, WfNative kv.2) : WfNative (.nobj (li ++ ls))

/-- `w` at handle-lower-bound `lb` is the guest image of the native value
`nv`: primitives map across directly, and objects are the clean
conversion-built shapes (array: `Array.prototype`, a length entry, then
the elements at ascending numeric keys; object: `Object.prototype` and
the fields in order as default data entries), with every child object at
a strictly larger handle. -/
inductive Reps (a : Arena) : ℕ → Value → NativeVal → Prop where
  | undef (lb : ℕ) : Reps a lb .undef .nundef
  | null (lb : ℕ) : Reps a lb .null .nnull
  | bool (lb : ℕ) (b : Bool) : Reps a lb (.bool b) (.nbool b)
  | num (lb : ℕ) (x : JSNum) : Reps a lb (.num x) (.nnum x)
  | str (lb : ℕ) (s : String) : Reps a lb (.str s) (.nstr s)
  | arr (lb r : ℕ) (ws : List Value) (elems : List NativeVal)
      (hlb : lb ≤ r)
      (ho : aget a r = some { proto := some 2, cls := "Array", properties := ("length", arrayLenEntry elems.length) :: List.zip ((List.range elems.length).map Nat.repr) (ws.map dataEntry) })
      (hlen : ws.length = elems.length)
      (hws : ∀ (i : ℕ) (h1 : i < ws.length) (h2 : i < elems.length),
        Reps a (r + 1) (ws.get ⟨i, h1⟩) (elems.get ⟨i, h2⟩)) :
      Reps a lb (.obj r) (.narr elems)
  | obj (lb r : ℕ) (ws : List Value) (fields : List (String × NativeVal))
      (hlb : lb ≤ r)
      (ho : aget a r = some { proto := some 0, properties := List.zip (fields.map Prod.fst) (ws.map dataEntry) })
      (hlen : ws.length = fields.length)
      (hws : ∀ (i : ℕ) (h1 : i < ws.length) (h2 : i < fields.length),
        Reps a (r + 1) (ws.get ⟨i, h1⟩) (fields.get ⟨i, h2⟩).2) :
      Reps a lb (.obj r) (.nobj fields)

/-- Representation is stable under arena changes that preserve every live
handle at or above the lower bound. -/
theorem Reps_mono {a a' : Arena} {lb0 : ℕ}
    (hag : ∀ k, lb0 ≤ k → k < alen a → aget a' k = aget a k) :
    ∀ {lb : ℕ} {w : Value} {nv : NativeVal}, Reps a lb w nv → lb0 ≤ lb →
      Reps a' lb w nv := by
  intro lb w nv h
  induction h with
  | undef lb => exact fun _ => .undef lb
  | null lb => exact fun _ => .null lb
  | bool lb b => exact fun _ => .bool lb b
  | num lb x => exact fun _ => .num lb x
  | str lb s => exact fun _ => .str lb s
  | arr lb r ws elems hlb ho hlen hws ih =>
      intro hle
      refine .arr lb r ws elems hlb ?_ hlen ?_
      · rw [hag r (by omega) (aget_lt ho)]
        exact ho
      · intro i h1 h2
        exact ih i h1 h2 (by omega)
  | obj lb r ws fields hlb ho hlen hws ih =>
      intro hle
      refine .obj lb r ws fields hlb ?_ hlen ?_
      · rw [hag r (by omega) (aget_lt ho)]
        exact ho
      · intro i h1 h2
        exact ih i h1 h2 (by omega)

/-- The lower bound of a representation can be relaxed. -/
theorem Reps_weaken {a : Arena} {lb lb' : ℕ} {w : Value} {nv : NativeVal}
    (hle : lb' ≤ lb) (h : Reps a lb w nv) : Reps a lb' w nv := by
  cases h with
  | undef lb2 => exact .undef lb'
  | null lb2 => exact .null lb'
  | bool lb2 b => exact .bool lb' b
  | num lb2 x => exact .num lb' x
  | str lb2 s => exact .str lb' s
  | arr lb r ws elems hlb ho hlen hws =>
      exact .arr lb' r ws elems (by omega) ho hlen hws
  | obj lb r ws fields hlb ho hlen hws =>
      exact .obj lb' r ws fields (by omega) ho hlen hws

/-! #### Association-list facts for zipped bags -/

theorem alookup_zip_none {α : Type} :
    ∀ (ks : List String) (vs : List α) (k : String), k ∉ ks →
      alookup (List.zip ks vs) k = none := by
  intro ks
  induction ks with
  | nil => intro vs k _; cases vs <;> rfl
  | cons k1 rest ih =>
      intro vs k hk
      cases vs with
      | nil => rfl
      | cons v1 vrest =>
          rw [List.zip_cons_cons, alookup,
            if_neg (fun h => hk (by rw [← h]; exact List.mem_cons_self k1 rest))]
          exact ih vrest k (fun h => hk (List.mem_cons_of_mem k1 h))

theorem alookup_zip_get {α : Type} :
    ∀ (ks : List String) (vs : List α), ks.Nodup →
    ∀ (i : ℕ) (h1 : i < ks.length) (h2 : i < vs.length),
      alookup (List.zip ks vs) (ks.get ⟨i, h1⟩) = some (vs.get ⟨i, h2⟩) := by
  intro ks
  induction ks with
  | nil =>
      intro vs _ i h1 h2
      exact absurd h1 (by simp)
  | cons k1 rest ih =>
      intro vs hnd i h1 h2
      cases vs with
      | nil => simp at h2
      | cons v1 vrest =>
          rw [List.zip_cons_cons]
          cases i with
          | zero => simp [alookup]
          | succ j =>
              have hmem : rest.get ⟨j, by simpa using h1⟩ ∈ rest :=
                List.get_mem rest _ _
              rw [alookup, if_neg ?_]
              · exact ih vrest (List.Nodup.of_cons hnd) j (by simpa using h1)
                  (by simpa using h2)
              · intro he
                exact (List.nodup_cons.mp hnd).1 (he ▸ hmem)

/-! #### The JS enumeration order fixes canonical bags -/

/-- Strictly ascending numeric tags from a lower bound. -/
def idxSorted {β : Type} : ℕ → List (ℕ × β) → Prop
  | _, [] => True
  | lb, (i, _) :: rest => lb ≤ i ∧ idxSorted (i + 1) rest

theorem sortBy_fst_id {β : Type} :
    ∀ (lb : ℕ) (l : List (ℕ × β)), idxSorted lb l →
      sortBy (fun p => p.1) l = l := by
  intro lb l
  induction l generalizing lb with
  | nil => intro _; rfl
  | cons p rest ih =>
      rcases p with ⟨i, b⟩
      intro hs
      obtain ⟨hlb, hrest⟩ := hs
      rw [sortBy, ih (i + 1) hrest]
      cases rest with
      | nil => rfl
      | cons q rs =>
          rcases q with ⟨j, c⟩
          obtain ⟨hij, _⟩ := hrest
          rw [insortBy, if_pos (by simpa using hij)]

theorem idxChain_structure {α : Type} :
    ∀ (lb : ℕ) (li : List (String × α)), idxChain lb li = true →
      idxSorted lb (li.filterMap
        (fun kv => (legalArrayIndex kv.1).map (fun i => (i, kv)))) ∧
      (li.filterMap
        (fun kv => (legalArrayIndex kv.1).map (fun i => (i, kv)))).map
          Prod.snd = li ∧
      li.filter (fun kv => ((legalArrayIndex kv.1).isNone : Bool)) = [] := by
  intro lb li
  induction li generalizing lb with
  | nil => intro _; exact ⟨trivial, rfl, rfl⟩
  | cons kv rest ih =>
      rcases kv with ⟨k, v⟩
      intro hch
      rw [idxChain] at hch
      cases hleg : legalArrayIndex k with
      | none => rw [hleg] at hch; exact absurd hch (by simp)
      | some i =>
          rw [hleg] at hch
          have hlb : lb ≤ i := by
            have := (Bool.and_eq_true _ _).mp hch
            simpa using this.1
          have hrest : idxChain (i + 1) rest = true :=
            ((Bool.and_eq_true _ _).mp hch).2
          obtain ⟨hs, hsnd, hfil⟩ := ih (i + 1) hrest
          refine ⟨?_, ?_, ?_⟩
          · rw [List.filterMap_cons, hleg]
            exact ⟨hlb, hs⟩
          · rw [List.filterMap_cons, hleg]
            simpa using hsnd
          · rw [List.filter_cons, hleg]
            simpa using hfil

theorem jsEnumPairs_canonical {α : Type} (li ls : List (String × α))
    (hidx : idxChain 0 li = true) (hstr : strTail ls = true) :
    jsEnumPairs (li ++ ls) = li ++ ls := by
  obtain ⟨hsorted, hsnd, hfilLi⟩ := idxChain_structure 0 li hidx
  have hstrMem : ∀ kv ∈ ls, ((legalArrayIndex kv.1).isNone : Bool) = true :=
    fun kv hkv => List.all_eq_true.mp hstr kv hkv
  have hfmLs : ls.filterMap
      (fun kv => (legalArrayIndex kv.1).map (fun i => (i, kv))) = [] := by
    rw [List.filterMap_eq_nil]
    intro kv hkv
    have := hstrMem kv hkv
    rw [Option.isNone_iff_eq_none] at this
    rw [this]
    rfl
  have hfLs : ls.filter (fun kv => ((legalArrayIndex kv.1).isNone : Bool)) = ls :=
    List.filter_eq_self.mpr hstrMem
  unfold jsEnumPairs
  rw [List.filterMap_append, List.filter_append, hfmLs, List.append_nil,
    hfilLi, List.nil_append, hfLs, sortBy_fst_id 0 _ hsorted, hsnd]

theorem idxChain_keys {α β : Type} :
    ∀ (lb : ℕ) (l : List (String × α)) (l2 : List (String × β)),
      l.map Prod.fst = l2.map Prod.fst → idxChain lb l = idxChain lb l2 := by
  intro lb l
  induction l generalizing lb with
  | nil =>
      intro l2 hk
      cases l2 with
      | nil => rfl
      | cons q qs => simp at hk
  | cons p rest ih =>
      intro l2 hk
      cases l2 with
      | nil => simp at hk
      | cons q qs =>
          rcases p with ⟨k, v⟩
          rcases q with ⟨k2, v2⟩
          simp at hk
          obtain ⟨hk1, hk2⟩ := hk
          subst hk1
          rw [idxChain, idxChain]
          cases legalArrayIndex k with
          | none => rfl
          | some i =>
              dsimp only
              rw [ih (i + 1) qs hk2]

theorem strTail_map_fst {α : Type} (l : List (String × α)) :
    strTail l = (l.map Prod.fst).all (fun k => (legalArrayIndex k).isNone) := by
  induction l with
  | nil => rfl
  | cons p rest ih =>
      rcases p with ⟨k, v⟩
      simp only [strTail, List.all_cons, List.map_cons] at ih ⊢
      rw [ih]

theorem strTail_keys {α β : Type} (l : List (String × α))
    (l2 : List (String × β)) (hk : l.map Prod.fst = l2.map Prod.fst) :
    strTail l = strTail l2 := by
  rw [strTail_map_fst, strTail_map_fst, hk]

/-! #### Correctness of `nativeToPseudo` -/

/-- The conversion specification at size bound `N`: on a well-formed value
it succeeds, only allocates (preserving every pre-existing handle and the
built-ins), and the result represents the input. -/
def N2PSpec (N : ℕ) : Prop :=
  ∀ (v : NativeVal), sizeOf v ≤ N → ∀ (strict : Bool) (a : Arena),
    WfNative v → extendsBase a →
    ∃ (a' : Arena) (w : Value),
      nativeToPseudo baseCtx strict a v = .ok (a', w) ∧
      extendsBase a' ∧ alen a ≤ alen a' ∧
      (∀ k, k < alen a → aget a' k = aget a k) ∧
      Reps a' (alen a) w v

theorem zip_snoc_entry (i : ℕ) (ws0 : List Value) (w : Value)
    (hlen : ws0.length = i) :
    List.zip ((List.range i).map Nat.repr) (ws0.map dataEntry) ++
        [(Nat.repr i, dataEntry w)] =
      List.zip ((List.range (i + 1)).map Nat.repr)
        ((ws0 ++ [w]).map dataEntry) := by
  rw [List.range_succ, List.map_append, List.map_append,
    List.zip_append (by simp [hlen])]
  rfl

theorem repr_not_mem_range_map {i : ℕ} :
    Nat.repr i ∉ (List.range i).map Nat.repr := by
  intro hmem
  obtain ⟨j, hj, hrepr⟩ := List.mem_map.mp hmem
  have := natRepr_inj hrepr
  have hji := List.mem_range.mp hj
  omega

theorem n2pElems_spec {N : ℕ} (IH : N2PSpec N) :
    ∀ (elems : List NativeVal) (strict : Bool) (a : Arena) (r i : ℕ)
      (ws0 : List Value),
      (∀ v ∈ elems, sizeOf v ≤ N) → (∀ v ∈ elems, WfNative v) →
      extendsBase a → 24 ≤ r →
      aget a r = some { proto := some 2, cls := "Array", properties := ("length", arrayLenEntry i) :: List.zip ((List.range i).map Nat.repr) (ws0.map dataEntry) } →
      ws0.length = i → i + elems.length < 4294967295 →
      ∃ (a' : Arena) (ws1 : List Value),
        n2pElems baseCtx strict a r i elems = .ok a' ∧
        extendsBase a' ∧ alen a ≤ alen a' ∧
        (∀ k, k < alen a → k ≠ r → aget a' k = aget a k) ∧
        aget a' r = some { proto := some 2, cls := "Array", properties := ("length", arrayLenEntry (i + elems.length)) :: List.zip ((List.range (i + elems.length)).map Nat.repr) ((ws0 ++ ws1).map dataEntry) } ∧
        ws1.length = elems.length ∧
        (∀ (j : ℕ) (h1 : j < ws1.length) (h2 : j < elems.length),
          Reps a' (r + 1) (ws1.get ⟨j, h1⟩) (elems.get ⟨j, h2⟩)) := by
  intro elems
  induction elems with
  | nil =>
      intro strict a r i ws0 _ _ hext hr ho hlen hbound
      refine ⟨a, [], rfl, hext, le_refl _, fun k _ _ => rfl, ?_, rfl, ?_⟩
      · simpa using ho
      · intro j h1 h2
        exact absurd h1 (by simp)
  | cons v rest ihl =>
      intro strict a r i ws0 hsz hwf hext hr ho hlen hbound
      obtain ⟨a1, w, hn2p, hext1, hal1, hag1, hreps1⟩ :=
        IH v (hsz v (List.mem_cons_self v rest)) strict a
          (hwf v (List.mem_cons_self v rest)) hext
      have hr' : r < alen a := aget_lt ho
      have ho1 : aget a1 r = some { proto := some 2, cls := "Array", properties := ("length", arrayLenEntry i) :: List.zip ((List.range i).map Nat.repr) (ws0.map dataEntry) } := by
        rw [hag1 r hr']
        exact ho
      have habs : alookup
          (List.zip ((List.range i).map Nat.repr) (ws0.map dataEntry))
          (Nat.repr i) = none :=
        alookup_zip_none _ _ _ repr_not_mem_range_map
      have hibound : i < 4294967295 := by
        simp [List.length_cons] at hbound
        omega
      have hset := setProperty_clean_array strict hext1 hr w hibound ho1 habs
      have hr1 : r < alen a1 := lt_of_lt_of_le hr' hal1
      obtain ⟨a2, ha2⟩ : ∃ x : Arena, List.set a1 r { proto := some 2, cls := "Array", properties := ("length", arrayLenEntry (i + 1)) :: (List.zip ((List.range i).map Nat.repr) (ws0.map dataEntry) ++ [(Nat.repr i, dataEntry w)]) } = x := ⟨_, rfl⟩
      rw [ha2] at hset
      have hext2 : extendsBase a2 := by
        rw [← ha2]
        exact extendsBase_set hext1 hr _
      have halen2 : alen a2 = alen a1 := by
        rw [← ha2]
        exact alen_set _ _ _
      have hsetne : ∀ k, k ≠ r → aget a2 k = aget a1 k := by
        intro k hk
        rw [← ha2]
        exact aget_set_ne _ _ hk
      have ho2 : aget a2 r = some { proto := some 2, cls := "Array", properties := ("length", arrayLenEntry (i + 1)) :: List.zip ((List.range (i + 1)).map Nat.repr) ((ws0 ++ [w]).map dataEntry) } := by
        rw [← ha2, aget_set_self _ hr1, zip_snoc_entry i ws0 w hlen]
      obtain ⟨a', ws1, hrun, hext', hal', hag', ho', hlen', hreps'⟩ :=
        ihl strict a2 r (i + 1) (ws0 ++ [w])
          (fun u hu => hsz u (List.mem_cons_of_mem v hu))
          (fun u hu => hwf u (List.mem_cons_of_mem v hu))
          hext2 hr ho2 (by simp [hlen]) (by simp at hbound ⊢; omega)
      refine ⟨a', w :: ws1, ?_, hext', ?_, ?_, ?_, by simp [hlen'], ?_⟩
      · rw [n2pElems, hn2p]
        dsimp only
        rw [hset]
        dsimp only [convSet]
        exact hrun
      · omega
      · intro k hk hkr
        rw [hag' k (by omega) hkr, hsetne k hkr, hag1 k hk]
      · rw [show i + (v :: rest).length = (i + 1) + rest.length from by simp; omega]
        rw [show ws0 ++ w :: ws1 = (ws0 ++ [w]) ++ ws1 from by simp]
        exact ho'
      · intro j h1 h2
        cases j with
        | zero =>
            have hs1 : Reps a1 (r + 1) w v := Reps_weaken (by omega) hreps1
            have hs2 : Reps a2 (r + 1) w v :=
              Reps_mono (fun k hk1 hk2 => hsetne k (by omega)) hs1 (le_refl _)
            have hs3 : Reps a' (r + 1) w v :=
              Reps_mono (fun k hk1 hk2 => hag' k hk2 (by omega)) hs2 (le_refl _)
            simpa using hs3
        | succ j2 =>
            have := hreps' j2 (by simpa using h1) (by simpa using h2)
            simpa using this

theorem n2pFields_spec {N : ℕ} (IH : N2PSpec N) :
    ∀ (fields : List (String × NativeVal)) (strict : Bool) (a : Arena)
      (r : ℕ) (ks0 : List String) (ws0 : List Value),
      (∀ kv ∈ fields, sizeOf kv.2 ≤ N) → (∀ kv ∈ fields, WfNative kv.2) →
      extendsBase a → 24 ≤ r →
      aget a r = some { proto := some 0, properties := List.zip ks0 (ws0.map dataEntry) } →
      ks0.length = ws0.length →
      (ks0 ++ fields.map Prod.fst).Nodup →
      ∃ (a' : Arena) (ws1 : List Value),
        n2pFields baseCtx strict a r fields = .ok a' ∧
        extendsBase a' ∧ alen a ≤ alen a' ∧
        (∀ k, k < alen a → k ≠ r → aget a' k = aget a k) ∧
        aget a' r = some { proto := some 0, properties := List.zip (ks0 ++ fields.map Prod.fst) ((ws0 ++ ws1).map dataEntry) } ∧
        ws1.length = fields.length ∧
        (∀ (j : ℕ) (h1 : j < ws1.length) (h2 : j < fields.length),
          Reps a' (r + 1) (ws1.get ⟨j, h1⟩) (fields.get ⟨j, h2⟩).2) := by
  intro fields
  induction fields with
  | nil =>
      intro strict a r ks0 ws0 _ _ hext hr ho hlen hnd
      refine ⟨a, [], rfl, hext, le_refl _, fun k _ _ => rfl, ?_, rfl, ?_⟩
      · simpa using ho
      · intro j h1 h2
        exact absurd h1 (by simp)
  | cons kv fieldsRest ihl =>
      rcases kv with ⟨key, v⟩
      intro strict a r ks0 ws0 hsz hwf hext hr ho hlen hnd
      obtain ⟨a1, w, hn2p, hext1, hal1, hag1, hreps1⟩ :=
        IH v (hsz (key, v) (List.mem_cons_self _ _)) strict a
          (hwf (key, v) (List.mem_cons_self _ _)) hext
      have hr' : r < alen a := aget_lt ho
      have ho1 : aget a1 r = some { proto := some 0, properties := List.zip ks0 (ws0.map dataEntry) } := by
        rw [hag1 r hr']
        exact ho
      have hkey0 : key ∉ ks0 := by
        rw [List.nodup_append] at hnd
        intro hmem
        exact hnd.2.2 hmem (by simp)
      have habs : alookup (List.zip ks0 (ws0.map dataEntry)) key = none :=
        alookup_zip_none _ _ _ hkey0
      have hset := setProperty_clean_plain strict hext1 hr key w ho1 habs
      have hr1 : r < alen a1 := lt_of_lt_of_le hr' hal1
      obtain ⟨a2, ha2⟩ : ∃ x : Arena, List.set a1 r { proto := some 0, properties := List.zip ks0 (ws0.map dataEntry) ++ [(key, dataEntry w)] } = x := ⟨_, rfl⟩
      rw [ha2] at hset
      have hext2 : extendsBase a2 := by
        rw [← ha2]
        exact extendsBase_set hext1 hr _
      have halen2 : alen a2 = alen a1 := by
        rw [← ha2]
        exact alen_set _ _ _
      have hsetne : ∀ k, k ≠ r → aget a2 k = aget a1 k := by
        intro k hk
        rw [← ha2]
        exact aget_set_ne _ _ hk
      have hzipsnoc : List.zip ks0 (ws0.map dataEntry) ++ [(key, dataEntry w)] =
          List.zip (ks0 ++ [key]) ((ws0 ++ [w]).map dataEntry) := by
        rw [List.map_append, List.zip_append (by simp [hlen])]
        rfl
      have ho2 : aget a2 r = some { proto := some 0, properties := List.zip (ks0 ++ [key]) ((ws0 ++ [w]).map dataEntry) } := by
        rw [← ha2, aget_set_self _ hr1, hzipsnoc]
      have hnd2 : ((ks0 ++ [key]) ++ fieldsRest.map Prod.fst).Nodup := by
        rw [List.append_assoc]
        simpa using hnd
      obtain ⟨a', ws1, hrun, hext', hal', hag', ho', hlen', hreps'⟩ :=
        ihl strict a2 r (ks0 ++ [key]) (ws0 ++ [w])
          (fun u hu => hsz u (List.mem_cons_of_mem _ hu))
          (fun u hu => hwf u (List.mem_cons_of_mem _ hu))
          hext2 hr ho2 (by simp [hlen]) hnd2
      refine ⟨a', w :: ws1, ?_, hext', ?_, ?_, ?_, by simp [hlen'], ?_⟩
      · rw [n2pFields, hn2p]
        dsimp only
        rw [hset]
        dsimp only [convSet]
        exact hrun
      · omega
      · intro k hk hkr
        rw [hag' k (by omega) hkr, hsetne k hkr, hag1 k hk]
      · rw [show ks0 ++ ((key, v) :: fieldsRest).map Prod.fst =
            (ks0 ++ [key]) ++ fieldsRest.map Prod.fst from by simp]
        rw [show ws0 ++ w :: ws1 = (ws0 ++ [w]) ++ ws1 from by simp]
        exact ho'
      · intro j h1 h2
        cases j with
        | zero =>
            have hs1 : Reps a1 (r + 1) w v := Reps_weaken (by omega) hreps1
            have hs2 : Reps a2 (r + 1) w v :=
              Reps_mono (fun k hk1 hk2 => hsetne k (by omega)) hs1 (le_refl _)
            have hs3 : Reps a' (r + 1) w v :=
              Reps_mono (fun k hk1 hk2 => hag' k hk2 (by omega)) hs2 (le_refl _)
            simpa using hs3
        | succ j2 =>
            have := hreps' j2 (by simpa using h1) (by simpa using h2)
            simpa using this

theorem nativeToPseudo_spec : ∀ N, N2PSpec N := by
  intro N
  induction N with
  | zero =>
      intro v hsz
      exact absurd hsz (by cases v <;> simp)
  | succ N ih =>
      intro v hsz strict a hwf hext
      cases v with
      | nundef => exact ⟨a, .undef, rfl, hext, le_refl _, fun k _ => rfl, .undef _⟩
      | nnull => exact ⟨a, .null, rfl, hext, le_refl _, fun k _ => rfl, .null _⟩
      | nbool b => exact ⟨a, .bool b, rfl, hext, le_refl _, fun k _ => rfl, .bool _ b⟩
      | nnum x => exact ⟨a, .num x, rfl, hext, le_refl _, fun k _ => rfl, .num _ x⟩
      | nstr s => exact ⟨a, .str s, rfl, hext, le_refl _, fun k _ => rfl, .str _ s⟩
      | narr elems =>
          cases hwf with
          | arr elems hlenb hch =>
              have hszc : ∀ v2 ∈ elems, sizeOf v2 ≤ N := by
                intro v2 hv2
                have h1 := List.sizeOf_lt_of_mem hv2
                have h2 : sizeOf (NativeVal.narr elems) = 1 + sizeOf elems := by simp
                omega
              have hca := createArray_spec strict hext
              have hext1 : extendsBase (a ++ [{ proto := some 2, cls := "Array", properties := [("length", arrayLenEntry 0)] }]) :=
                extendsBase_concat hext _
              have ho1 : aget (a ++ [{ proto := some 2, cls := "Array", properties := [("length", arrayLenEntry 0)] }]) (alen a) = some { proto := some 2, cls := "Array", properties := ("length", arrayLenEntry 0) :: List.zip ((List.range 0).map Nat.repr) (([] : List Value).map dataEntry) } :=
                aget_concat_self a _
              obtain ⟨a', ws1, hrun, hext', hal', hag', ho', hlen', hreps'⟩ :=
                n2pElems_spec ih elems strict _ (alen a) 0 [] hszc hch hext1
                  (extendsBase_alen hext) ho1 rfl (by simpa using hlenb)
              have halx : alen (a ++ [({ proto := some 2, cls := "Array", properties := [("length", arrayLenEntry 0)] } : Obj)]) = alen a + 1 := by
                simp [alen_append, alen]
              refine ⟨a', .obj (alen a), ?_, hext', ?_, ?_, ?_⟩
              · rw [nativeToPseudo, hca]
                dsimp only
                rw [hrun]
              · rw [halx] at hal'
                omega
              · intro k hk
                rw [hag' k (by omega) (by omega), aget_append_lt hk]
              · refine .arr (alen a) (alen a) ws1 elems (le_refl _) ?_ (by simpa using hlen') ?_
                · simpa using ho'
                · intro i h1 h2
                  exact hreps' i h1 h2
      | nobj fields =>
          cases hwf with
          | obj li ls hidx hstr hnodup hch =>
              have hszc : ∀ kv ∈ li ++ ls, sizeOf kv.2 ≤ N := by
                intro kv hkv
                have h1 := List.sizeOf_lt_of_mem hkv
                obtain ⟨k2, v2⟩ := kv
                have h2 : sizeOf (NativeVal.nobj (li ++ ls)) = 1 + sizeOf (li ++ ls) := by simp
                have h3 : sizeOf ((k2, v2) : String × NativeVal) = 1 + sizeOf k2 + sizeOf v2 := rfl
                dsimp only
                omega
              have hext1 : extendsBase (a ++ [{ proto := some 0 }]) :=
                extendsBase_concat hext _
              have ho1 : aget (a ++ [({ proto := some 0 } : Obj)]) (alen a) = some { proto := some 0 } :=
                aget_concat_self a _
              have hisaErr : isa baseCtx (a ++ [{ proto := some 0 }]) (.obj (alen a)) baseCtx.ERROR = false :=
                @isa_plain_false _ hext1 _ _ baseCtx.ERROR (extendsBase_alen hext) ho1 rfl (by decide) 10 (by decide) (by decide) (by decide)
              have hcop : createObjectProto baseCtx a (some baseCtx.OBJECT_PROTO) = (a ++ [{ proto := some 0 }], alen a) := by
                unfold createObjectProto allocObj
                try dsimp only
                rw [show baseCtx.OBJECT_PROTO = 0 from rfl, List.concat_eq_append]
                rw [if_neg (by rw [hisaErr]; simp)]
              obtain ⟨a', ws1, hrun, hext', hal', hag', ho', hlen', hreps'⟩ :=
                n2pFields_spec ih (li ++ ls) strict _ (alen a) [] [] hszc hch hext1
                  (extendsBase_alen hext) (by simpa using ho1) rfl (by simpa using hnodup)
              have halx : alen (a ++ [({ proto := some 0 } : Obj)]) = alen a + 1 := by
                simp [alen_append, alen]
              refine ⟨a', .obj (alen a), ?_, hext', ?_, ?_, ?_⟩
              · rw [nativeToPseudo]
                try dsimp only
                rw [hcop]
                try dsimp only
                rw [hrun]
              · rw [halx] at hal'
                omega
              · intro k hk
                rw [hag' k (by omega) (by omega), aget_append_lt hk]
              · refine .obj (alen a) (alen a) ws1 (li ++ ls) (le_refl _) ?_ (by simpa using hlen') ?_
                · simpa using ho'
                · intro i h1 h2
                  exact hreps' i h1 h2

/-! #### Correctness of `pseudoToNative` on conversion images -/

/-- The read-back specification at fuel `N`: a guest value representing a
well-formed native value (with every cycle-detection handle below the
representation's lower bound) reads back to exactly that value. -/
def P2NSpec (N : ℕ) : Prop :=
  ∀ (nv : NativeVal) (a : Arena) (lb : ℕ) (w : Value) (cycles : List ℕ),
    Reps a lb w nv → extendsBase a → 24 ≤ lb → WfNative nv →
    (∀ c ∈ cycles, c < lb) → sizeOf nv ≤ N →
    pseudoToNative baseCtx a N cycles w = .ok nv

theorem alookup_arrayBag {n : ℕ} (hn : n < 4294967295) (ws : List Value)
    (hlen : ws.length = n) (j : ℕ) (hj : j < n) :
    alookup (("length", arrayLenEntry n) :: List.zip ((List.range n).map Nat.repr) (ws.map dataEntry)) (Nat.repr j) =
      some (dataEntry (ws.get ⟨j, by omega⟩)) := by
  rw [alookup, if_neg (Ne.symm (legalArrayIndex_ne (legalArrayIndex_repr j (by omega)) (by decide)))]
  have h1 : j < ((List.range n).map Nat.repr).length := by simp [hj]
  have h2 : j < (ws.map dataEntry).length := by simp; omega
  have hkey : ((List.range n).map Nat.repr).get ⟨j, h1⟩ = Nat.repr j := by simp
  have hzg := alookup_zip_get ((List.range n).map Nat.repr) (ws.map dataEntry)
    (List.Nodup.map (fun a b h => natRepr_inj h) (List.nodup_range n)) j h1 h2
  rw [hkey] at hzg
  rw [hzg]
  have hv : (ws.map dataEntry).get ⟨j, h2⟩ = dataEntry (ws.get ⟨j, by omega⟩) := by simp
  rw [hv]

theorem p2nElems_spec {N : ℕ} (IH : P2NSpec N) :
    ∀ (remaining i : ℕ) (a : Arena) (r : ℕ) (ws : List Value)
      (elems : List NativeVal) (cycles : List ℕ),
      extendsBase a → 24 ≤ r → elems.length < 4294967295 →
      aget a r = some { proto := some 2, cls := "Array", properties := ("length", arrayLenEntry elems.length) :: List.zip ((List.range elems.length).map Nat.repr) (ws.map dataEntry) } →
      ws.length = elems.length →
      (∀ (j : ℕ) (h1 : j < ws.length) (h2 : j < elems.length),
        Reps a (r + 1) (ws.get ⟨j, h1⟩) (elems.get ⟨j, h2⟩)) →
      (∀ v ∈ elems, WfNative v) → (∀ v ∈ elems, sizeOf v ≤ N) →
      (∀ c ∈ cycles, c < r + 1) →
      i + remaining = elems.length →
      p2nElems baseCtx a N cycles r i remaining = .ok (elems.drop i) := by
  intro remaining
  induction remaining with
  | zero =>
      intro i a r ws elems cycles _ _ _ _ _ _ _ _ _ hieq
      rw [p2nElems, show i = elems.length from by omega, List.drop_length]
  | succ rem ihl =>
      intro i a r ws elems cycles hext hr hbound ho hlen hws hwf hsz hcyc hieq
      have hj : i < elems.length := by omega
      have hjw : i < ws.length := by omega
      have hisaStr : isa baseCtx a (.obj r) baseCtx.STRING = false :=
        isa_fresh_string_false hext hr ho (Or.inr rfl)
      have hlook := alookup_arrayBag hbound ws hlen i hj
      have hmem : amem (("length", arrayLenEntry elems.length) :: List.zip ((List.range elems.length).map Nat.repr) (ws.map dataEntry)) (Nat.repr i) = true := by
        rw [amem, hlook]
        rfl
      have hhas := hasProperty_own ho hisaStr hmem
      have hget := getProperty_own ho hisaStr hmem rfl
      rw [hlook] at hget
      have hget2 : getProperty baseCtx a (.obj r) (Nat.repr i) = .ok (ws.get ⟨i, hjw⟩) := by
        rw [hget]
        rfl
      have hchild : pseudoToNative baseCtx a N cycles (ws.get ⟨i, hjw⟩) = .ok (elems.get ⟨i, hj⟩) :=
        IH (elems.get ⟨i, hj⟩) a (r + 1) (ws.get ⟨i, hjw⟩) cycles (hws i hjw hj)
          hext (by omega) (hwf _ (List.get_mem _ _ _)) hcyc (hsz _ (List.get_mem _ _ _))
      rw [p2nElems, hhas]
      try dsimp only
      rw [hget2]
      try dsimp only
      rw [hchild]
      try dsimp only
      rw [ihl (i + 1) a r ws elems cycles hext hr hbound ho hlen hws hwf hsz hcyc (by omega)]
      try dsimp only
      exact congrArg Except.ok (List.getElem_cons_drop elems i hj)

theorem p2nFields_spec {N : ℕ} (IH : P2NSpec N) :
    ∀ (fields : List (String × NativeVal)) (ws : List Value) (a : Arena)
      (lb : ℕ) (cycles : List ℕ),
      extendsBase a → 24 ≤ lb → ws.length = fields.length →
      (∀ kv ∈ fields, WfNative kv.2) → (∀ kv ∈ fields, sizeOf kv.2 ≤ N) →
      (∀ c ∈ cycles, c < lb) →
      (∀ (j : ℕ) (h1 : j < ws.length) (h2 : j < fields.length),
        Reps a lb (ws.get ⟨j, h1⟩) (fields.get ⟨j, h2⟩).2) →
      p2nFields baseCtx a N cycles (List.zip (fields.map Prod.fst) (ws.map dataEntry)) = .ok fields := by
  intro fields
  induction fields with
  | nil =>
      intro ws a lb cycles _ _ hlen _ _ _ _
      cases ws with
      | nil =>
          simp only [List.map_nil, List.zip_nil_left]
          rw [p2nFields]
      | cons w wr => simp at hlen
  | cons kv rest ihl =>
      rcases kv with ⟨k, v⟩
      intro ws a lb cycles hext hlb hlen hwf hsz hcyc hws
      cases ws with
      | nil => simp at hlen
      | cons w wr =>
          have hchild : pseudoToNative baseCtx a N cycles w = .ok v := by
            have h0 := hws 0 (by simp) (by simp)
            exact IH v a lb w cycles (by simpa using h0) hext hlb
              (hwf (k, v) (List.mem_cons_self _ _)) hcyc
              (hsz (k, v) (List.mem_cons_self _ _))
          have hrest := ihl wr a lb cycles hext hlb (by simpa using hlen)
            (fun u hu => hwf u (List.mem_cons_of_mem _ hu))
            (fun u hu => hsz u (List.mem_cons_of_mem _ hu)) hcyc
            (fun j h1 h2 => by simpa using hws (j + 1) (by simpa using h1) (by simpa using h2))
          rw [List.map_cons, List.map_cons, List.zip_cons_cons, p2nFields]
          try dsimp only [dataEntry]
          try dsimp only
          rw [hchild]
          try dsimp only
          rw [hrest]

theorem pseudoToNative_spec : ∀ N, P2NSpec N := by
  intro N
  induction N with
  | zero =>
      intro nv a lb w cycles _ _ _ _ _ hsz
      exact absurd hsz (by cases nv <;> simp)
  | succ N ih =>
      intro nv a lb w cycles hrep hext hlb hwf hcyc hsz
      cases hrep with
      | undef lb2 => rw [pseudoToNative]
      | null lb2 => rw [pseudoToNative]
      | bool lb2 b => rw [pseudoToNative]
      | num lb2 x => rw [pseudoToNative]
      | str lb2 s => rw [pseudoToNative]
      | arr lb2 r ws elems hlbr ho hlen hws =>
          cases hwf with
          | arr e2 hlenb hch =>
              have hr24 : 24 ≤ r := le_trans hlb hlbr
              have hREG : isa baseCtx a (.obj r) baseCtx.REGEXP = false :=
                @isa_arrobj_false a hext r _ baseCtx.REGEXP hr24 ho rfl (by decide) 18 (by decide) (by decide) (by decide) (by decide)
              have hDATE : isa baseCtx a (.obj r) baseCtx.DATE = false :=
                @isa_arrobj_false a hext r _ baseCtx.DATE hr24 ho rfl (by decide) 20 (by decide) (by decide) (by decide) (by decide)
              have hARR : isa baseCtx a (.obj r) baseCtx.ARRAY = true :=
                isa_array_true hext hr24 ho rfl
              have hcont : cycles.contains r = false := by
                rw [Bool.eq_false_iff]
                intro hc
                have hmem2 : r ∈ cycles := by simpa using hc
                have := hcyc r hmem2
                omega
              have hisaStr : isa baseCtx a (.obj r) baseCtx.STRING = false :=
                isa_fresh_string_false hext hr24 ho (Or.inr rfl)
              have hmeml : amem (("length", arrayLenEntry elems.length) :: List.zip ((List.range elems.length).map Nat.repr) (ws.map dataEntry)) "length" = true := by
                rw [amem, alookup, if_pos rfl]
                rfl
              have hgetlen := getProperty_own ho hisaStr hmeml rfl
              have hgetlen2 : getProperty baseCtx a (.obj r) "length" = .ok (.num (.finite (elems.length : ℚ))) := by
                rw [hgetlen, alookup, if_pos rfl]
                rfl
              have hsizes : ∀ v2 ∈ elems, sizeOf v2 ≤ N := by
                intro v2 hv2
                have h1 := List.sizeOf_lt_of_mem hv2
                have h2 : sizeOf (NativeVal.narr elems) = 1 + sizeOf elems := by simp
                omega
              have hcyc2 : ∀ c ∈ r :: cycles, c < r + 1 := by
                intro c hc
                rcases List.mem_cons.mp hc with hc | hc
                · omega
                · have := hcyc c hc
                  omega
              have hloop := p2nElems_spec ih elems.length 0 a r ws elems (r :: cycles)
                hext hr24 hlenb ho hlen hws hch hsizes hcyc2 (by omega)
              rw [pseudoToNative]
              rw [hREG]
              simp only [Bool.false_eq_true, if_false]
              rw [hDATE]
              simp only [Bool.false_eq_true, if_false]
              rw [hcont]
              simp only [Bool.false_eq_true, if_false]
              rw [hARR]
              simp only [if_true]
              rw [hgetlen2]
              try dsimp only
              rw [toNumberOf_num, natsBelow_natCast]
              rw [hloop]
              try dsimp only
              rw [List.drop_zero]
      | obj lb2 r ws fields hlbr ho hlen hws =>
          cases hwf with
          | obj li ls hidx hstr hnodup hch =>
              have hr24 : 24 ≤ r := le_trans hlb hlbr
              have hREG : isa baseCtx a (.obj r) baseCtx.REGEXP = false :=
                @isa_plain_false a hext r _ baseCtx.REGEXP hr24 ho rfl (by decide) 18 (by decide) (by decide) (by decide)
              have hDATE : isa baseCtx a (.obj r) baseCtx.DATE = false :=
                @isa_plain_false a hext r _ baseCtx.DATE hr24 ho rfl (by decide) 20 (by decide) (by decide) (by decide)
              have hARRf : isa baseCtx a (.obj r) baseCtx.ARRAY = false :=
                @isa_plain_false a hext r _ baseCtx.ARRAY hr24 ho rfl (by decide) 2 (by decide) (by decide) (by decide)
              have hcont : cycles.contains r = false := by
                rw [Bool.eq_false_iff]
                intro hc
                have hmem2 : r ∈ cycles := by simpa using hc
                have := hcyc r hmem2
                omega
              have hlen' : ws.length = li.length + ls.length := by simpa using hlen
              have hlen1 : (ws.take li.length).length = li.length := by
                rw [List.length_take]
                omega
              have hbag : List.zip ((li ++ ls).map Prod.fst) (ws.map dataEntry) =
                  List.zip (li.map Prod.fst) ((ws.take li.length).map dataEntry) ++
                  List.zip (ls.map Prod.fst) ((ws.drop li.length).map dataEntry) := by
                conv_lhs => rw [show ws = ws.take li.length ++ ws.drop li.length from (List.take_append_drop _ _).symm]
                rw [List.map_append, List.map_append, List.zip_append (by simp; omega)]
              have hidx2 : idxChain 0 (List.zip (li.map Prod.fst) ((ws.take li.length).map dataEntry)) = true := by
                have hmf : (List.zip (li.map Prod.fst) ((ws.take li.length).map dataEntry)).map Prod.fst = li.map Prod.fst :=
                  List.map_fst_zip _ _ (by simp; omega)
                rw [idxChain_keys 0 _ li hmf]
                exact hidx
              have hstr2 : strTail (List.zip (ls.map Prod.fst) ((ws.drop li.length).map dataEntry)) = true := by
                have hmf : (List.zip (ls.map Prod.fst) ((ws.drop li.length).map dataEntry)).map Prod.fst = ls.map Prod.fst :=
                  List.map_fst_zip _ _ (by simp; omega)
                rw [strTail_keys _ ls hmf]
                exact hstr
              have hjson : jsEnumPairs (List.zip ((li ++ ls).map Prod.fst) (ws.map dataEntry)) = List.zip ((li ++ ls).map Prod.fst) (ws.map dataEntry) := by
                rw [hbag]
                exact jsEnumPairs_canonical _ _ hidx2 hstr2
              have hsizes : ∀ kv ∈ li ++ ls, sizeOf kv.2 ≤ N := by
                intro kv hkv
                have h1 := List.sizeOf_lt_of_mem hkv
                obtain ⟨k2, v2⟩ := kv
                have h2 : sizeOf (NativeVal.nobj (li ++ ls)) = 1 + sizeOf (li ++ ls) := by simp
                have h3 : sizeOf ((k2, v2) : String × NativeVal) = 1 + sizeOf k2 + sizeOf v2 := rfl
                dsimp only
                omega
              have hcyc2 : ∀ c ∈ r :: cycles, c < r + 1 := by
                intro c hc
                rcases List.mem_cons.mp hc with hc | hc
                · omega
                · have := hcyc c hc
                  omega
              have hfields := p2nFields_spec ih (li ++ ls) ws a (r + 1) (r :: cycles)
                hext (by omega) hlen hch hsizes hcyc2 hws
              rw [pseudoToNative]
              rw [hREG]
              simp only [Bool.false_eq_true, if_false]
              rw [hDATE]
              simp only [Bool.false_eq_true, if_false]
              rw [hcont]
              simp only [Bool.false_eq_true, if_false]
              rw [hARRf]
              simp only [Bool.false_eq_true, if_false]
              rw [ho]
              try dsimp only
              rw [hjson, hfields]

/-! #### C4: the JSON round trip -/

/-- C4 -- For every JSON value `v` (undefined apart: null, booleans,
numbers, strings, and acyclic arrays and plain objects built from them,
with the distinct keys listed in JS enumeration order), `nativeToPseudo`
succeeds, and `pseudoToNative` on its result returns a value deeply
equal to `v`, field order included, at every read-back depth budget
covering `v`. -/
theorem claim_C4_round_trip (v : NativeVal) (strict : Bool) (a : Arena)
    (hwf : WfNative v) (hext : extendsBase a) :
    ∃ (a' : Arena) (w : Value),
      nativeToPseudo baseCtx strict a v = .ok (a', w) ∧
      ∀ fuel, sizeOf v ≤ fuel →
        pseudoToNative baseCtx a' fuel [] w = .ok v := by
  obtain ⟨a', w, hn2p, hext', hal', hag', hreps⟩ :=
    nativeToPseudo_spec (sizeOf v) v (le_refl _) strict a hwf hext
  refine ⟨a', w, hn2p, ?_⟩
  intro fuel hfuel
  exact pseudoToNative_spec fuel v a' (alen a) w [] hreps hext'
    (extendsBase_alen hext) hwf (fun c hc => absurd hc (List.not_mem_nil c)) hfuel

/-- The concrete nested JSON value of the witness: an object with an
index key, an array field and a nested object field. -/
def c4Val : NativeVal :=
  .nobj ([("0", .nnum (.finite 7))] ++
    [("a", .narr [.nstr "x", .nbool true]), ("b", .nobj ([] ++ [("c", .nnull)]))])

theorem c4Val_wf : WfNative c4Val := by
  refine WfNative.obj [("0", .nnum (.finite 7))]
    [("a", .narr [.nstr "x", .nbool true]), ("b", .nobj ([] ++ [("c", .nnull)]))]
    (by decide) (by decide) (by decide) ?_
  intro kv hkv
  rcases List.mem_cons.mp hkv with h | h
  · subst h
    exact .num _
  rcases List.mem_cons.mp h with h | h
  · subst h
    refine WfNative.arr _ (by decide) ?_
    intro v2 hv2
    rcases List.mem_cons.mp hv2 with h2 | h2
    · subst h2
      exact .str _
    rcases List.mem_cons.mp h2 with h3 | h3
    · subst h3
      exact .bool _
    · exact absurd h3 (List.not_mem_nil _)
  rcases List.mem_cons.mp h with h | h
  · subst h
    refine WfNative.obj [] [("c", .nnull)] (by decide) (by decide) (by decide) ?_
    intro kv2 hkv2
    rcases List.mem_cons.mp hkv2 with h2 | h2
    · subst h2
      exact .null
    · exact absurd h2 (List.not_mem_nil _)
  · exact absurd h (List.not_mem_nil _)

theorem claim_C4_round_trip_witness :
    ∃ (a' : Arena) (w : Value),
      nativeToPseudo baseCtx true baseArena c4Val = .ok (a', w) ∧
      ∀ fuel, sizeOf c4Val ≤ fuel →
        pseudoToNative baseCtx a' fuel [] w = .ok c4Val :=
  claim_C4_round_trip c4Val true baseArena c4Val_wf (by rfl)

end S8
